import Mathlib

/-!
# Threat management of a combat owner (`ThreatMgr.cpp`)

A shallow embedding of `src/server/game/Combat/ThreatMgr.cpp` and of the percent
helpers and the `EventMap` of `src/common/Utilities/Util.h`.

Modelling conventions.

* `float` values are rationals. Sums, differences and the percent helpers are
  exact: rounding is not modelled there. The tests `a > 1.3f * b` and
  `a > 1.1f * b` decide which reference is returned and whether the dirty flag
  is set, so both sides are the `float` values the machine compares: the
  product is the float32 product `Float32.mul` of the literal with `b`, and `a`
  is read as a float32 value by `Float32.round`, which leaves float32 values as
  they are.
* A `Unit*` is an `Option ObjectGuid`; two units are the same object exactly
  when their GUIDs agree.
* A `HostileReference*` is an address (`Nat`) into the heap kept in the
  `ThreatMgr` state; `new` takes the next unused address.
* Everything the surrounding world simulation answers (type, liveness, map,
  phase, visibility, auras, spell data) is a field of `World`.
* A function returns `none` when the C++ would not return normally: a failed
  `ASSERT`, a dereferenced null pointer, or an exhausted recursion budget.
-/

namespace ThreatModel

/-! ## Values supplied by the rest of the server -/

abbrev ObjectGuid := Nat

abbrev SpellSchoolMask := Nat

/-- Object type ids of `ObjectGuid.h`. -/
inductive TypeID where
  | TYPEID_OBJECT
  | TYPEID_ITEM
  | TYPEID_CONTAINER
  | TYPEID_UNIT
  | TYPEID_PLAYER
  | TYPEID_GAMEOBJECT
  | TYPEID_DYNAMICOBJECT
  | TYPEID_CORPSE
  deriving DecidableEq, Repr

def SPELL_SCHOOL_MASK_NORMAL : SpellSchoolMask := 1

def SPELL_EFFECT_ENERGIZE : Nat := 30

def SPELL_AURA_PERIODIC_ENERGIZE : Nat := 24

def NPC_EYE_OF_KILROGG : Nat := 4277

/-- Modelled from the spec: `THREAT_UPDATE_INTERVAL` is defined in `ThreatMgr.h`,
outside the sources at hand; the spec has the timer throttle periodic
notifications, and the period is taken as one second in milliseconds. -/
def THREAT_UPDATE_INTERVAL : Nat := 1000

/-- One entry of `SpellInfo::Effects`. -/
structure SpellEffectInfo where
  Effect : Nat
  ApplyAuraName : Nat
  deriving DecidableEq, Repr

/-- The part of `SpellInfo` read by the threat code. `Effects` stands for the
array of `MAX_SPELL_EFFECTS` entries, `noThreat` for
`HasAttribute(SPELL_ATTR1_NO_THREAT)`. -/
structure SpellInfo where
  Id : Nat
  Effects : List SpellEffectInfo
  noThreat : Bool
  deriving DecidableEq, Repr

/-- The queries the threat code makes to units, spells and the map. In the
two-place predicates the first argument is the object the C++ method is called
on: `IsInMap a b` is `a->IsInMap(b)`. -/
structure World where
  GetTypeId : ObjectGuid → TypeID
  IsGameMaster : ObjectGuid → Bool
  IsAlive : ObjectGuid → Bool
  IsInWorld : ObjectGuid → Bool
  IsInMap : ObjectGuid → ObjectGuid → Bool
  InSamePhase : ObjectGuid → ObjectGuid → Bool
  IsInFlight : ObjectGuid → Bool
  GetEntry : ObjectGuid → Nat
  GetCharmerOrOwner : ObjectGuid → Option ObjectGuid
  GetRedirectThreatPercent : ObjectGuid → Nat
  GetRedirectThreatTarget : ObjectGuid → Option ObjectGuid
  /-- Whether `ObjectAccessor::GetUnit(owner, guid)` finds the unit. -/
  GetUnit : ObjectGuid → ObjectGuid → Bool
  isInAccessiblePlaceFor : ObjectGuid → ObjectGuid → Bool
  IsWithinCombatRange : ObjectGuid → ObjectGuid → Bool
  IsWithinMeleeRange : ObjectGuid → ObjectGuid → Bool
  _CanDetectFeignDeathOf : ObjectGuid → ObjectGuid → Bool
  CanCreatureAttack : ObjectGuid → ObjectGuid → Bool
  /-- Whether `target->IsImmunedToDamageOrSchool(attacker->GetMeleeDamageSchoolMask())`,
  target first. -/
  IsImmunedToDamageOrSchool : ObjectGuid → ObjectGuid → Bool
  /-- Whether `target->HasNegativeAuraWithInterruptFlag(AURA_INTERRUPT_FLAG_TAKE_DAMAGE)`. -/
  HasNegativeAuraWithInterruptFlag : ObjectGuid → Bool
  /-- Whether `target->HasAuraTypeWithCaster(SPELL_AURA_IGNORED, attacker->GetGUID())`,
  target first. -/
  HasAuraTypeWithCaster : ObjectGuid → ObjectGuid → Bool
  /-- The `pctMod` of `sSpellMgr->GetSpellThreatEntry(id)`, when there is an entry. -/
  GetSpellThreatEntry : Nat → Option ℚ
  GetSpellModOwner : ObjectGuid → Option ObjectGuid
  /-- What `modOwner->ApplySpellMod(id, SPELLMOD_THREAT, threat)` leaves in `threat`. -/
  ApplySpellMod : ObjectGuid → Nat → ℚ → ℚ
  /-- The unit's accumulated incoming-threat multiplier for a school mask. -/
  threatModifier : ObjectGuid → SpellSchoolMask → ℚ

/-- Modelled from the spec: `Unit::ApplyTotalThreatModifier` is defined in
`Unit.cpp`, outside the sources at hand; the spec describes it as applying
"the victim's aggregate incoming-threat percentage modifier", a multiplication. -/
def Unit.ApplyTotalThreatModifier (w : World) (unit : ObjectGuid) (fThreat : ℚ)
    (schoolMask : SpellSchoolMask) : ℚ :=
  fThreat * w.threatModifier unit schoolMask

/-! ## `Util.h`: percent helpers -/

/-- `CalculatePct(base, pct)` at `T = float`: `base * float(pct) / 100.0f`. -/
def CalculatePct (base : ℚ) (pct : ℤ) : ℚ :=
  base * (pct : ℚ) / 100

/-- `AddPct(base, pct)`: the value left in `base`, `base += CalculatePct(base, pct)`. -/
def AddPct (base : ℚ) (pct : ℤ) : ℚ :=
  base + CalculatePct base pct

/-! ## `Util.h`: `EventMap` -/

/-- A `std::multimap<uint32, uint32>`: the entries in iteration order, that is by
key, entries of equal key in the order of their insertion. -/
abbrev EventStore := List (Nat × Nat)

/-- `std::multimap::insert`: the entry goes after the last entry whose key is not
greater. -/
def EventStore.insert : EventStore → Nat × Nat → EventStore
  | [], value => [value]
  | entry :: rest, value =>
    if value.1 < entry.1 then value :: entry :: rest
    else entry :: EventStore.insert rest value

/-- The fields of an `EventMap`; the three `uint32` are below `2 ^ 32`. -/
structure EventMap where
  _time : Nat
  _phase : Nat
  _lastEvent : Nat
  _eventMap : EventStore
  deriving DecidableEq, Repr

/-- `EventMap::SetPhase`. -/
def EventMap.SetPhase (m : EventMap) (phase : Nat) : EventMap :=
  if phase = 0 then { m with _phase := 0 }
  else if phase ≤ 8 then { m with _phase := 1 <<< (phase - 1) }
  else m

/-- `EventMap::Update`: the timer is a `uint32`. -/
def EventMap.Update (m : EventMap) (time : Nat) : EventMap :=
  { m with _time := (m._time + time) % 2 ^ 32 }

/-- The value of `eventId` when `EventMap::ScheduleEvent` inserts it: the group
and the phase are packed above the low 16 bits. -/
def EventMap.ScheduleEvent.eventId (eventId group phase : Nat) : Nat :=
  let eventId := if group ≠ 0 ∧ group ≤ 8 then eventId ||| (1 <<< (group + 15)) else eventId
  if phase ≠ 0 ∧ phase ≤ 8 then eventId ||| (1 <<< (phase + 23)) else eventId

/-- `EventMap::ScheduleEvent`; the sum `_time + time` is a `uint32`. -/
def EventMap.ScheduleEvent (m : EventMap) (eventId time group phase : Nat) : EventMap :=
  { m with
    _eventMap := EventStore.insert m._eventMap
      ((m._time + time) % 2 ^ 32, EventMap.ScheduleEvent.eventId eventId group phase) }

/-- The loop of `EventMap::ExecuteEvent` over the entries from `begin()`: the
entry at which it ends with `return eventId`, if any, and the entries left. -/
def EventMap.ExecuteEvent.loop (_time _phase : Nat) : EventStore → Option (Nat × Nat) × EventStore
  | [] => (none, [])
  | itr :: rest =>
    if itr.1 > _time then (none, itr :: rest)
    else if _phase ≠ 0 ∧ itr.2 &&& 0xFF000000 ≠ 0 ∧ (itr.2 >>> 24) &&& _phase = 0 then
      EventMap.ExecuteEvent.loop _time _phase rest
    else (some itr, rest)

/-- `EventMap::ExecuteEvent`: the returned id and the map left behind. -/
def EventMap.ExecuteEvent (m : EventMap) : Nat × EventMap :=
  match EventMap.ExecuteEvent.loop m._time m._phase m._eventMap with
  | (some itr, store) => (itr.2 &&& 0x0000FFFF, { m with _lastEvent := itr.2, _eventMap := store })
  | (none, store) => (0, { m with _eventMap := store })

/-- `EventMap::IsInPhase`. -/
def EventMap.IsInPhase (m : EventMap) (phase : Nat) : Bool :=
  decide (phase ≤ 8) && (phase == 0 || m._phase &&& (1 <<< (phase - 1)) != 0)

/-! ## Single-precision products -/

/-- The `float` literal `1.3f`: the float32 value nearest to 1.3, which lies
below it. -/
def Float32.lit1_3 : ℚ := 5452595 / 4194304

/-- The `float` literal `1.1f`: the float32 value nearest to 1.1, which lies
above it. -/
def Float32.lit1_1 : ℚ := 9227469 / 8388608

/-- The integer nearest to `y`, the even one of the two when `y` lies halfway. -/
def Float32.nearestEven (y : ℚ) : ℤ :=
  if y - ⌊y⌋ < 1 / 2 then ⌊y⌋
  else if y - ⌊y⌋ > 1 / 2 then ⌊y⌋ + 1
  else if ⌊y⌋ % 2 = 0 then ⌊y⌋ else ⌊y⌋ + 1

/-- The binary exponent of the float32 binade of `x`: that of `x` itself, and
-126 throughout the subnormal range. -/
def Float32.exponent (x : ℚ) : ℤ := max (Int.log 2 |x|) (-126)

/-- The spacing of the float32 values in the binade of `x`: 24 significant bits. -/
def Float32.ulp (x : ℚ) : ℚ := 2 ^ (Float32.exponent x - 23)

/-- The float32 value a `float` expression of exact value `x` evaluates to:
round to nearest, ties to even, with gradual underflow. Infinities and NaN are
not modelled; a value beyond the largest float32 stays beyond it, so it
compares with every finite float32 as the infinity does. -/
def Float32.round (x : ℚ) : ℚ := Float32.nearestEven (x / Float32.ulp x) * Float32.ulp x

/-- The `float` product `a * b` of two float32 values, evaluated in single
precision: the exact product, rounded once. -/
def Float32.mul (a b : ℚ) : ℚ := Float32.round (a * b)

/-- The float32 values: a significand of 24 bits and an exponent down to the
subnormal range. -/
def Float32.Representable (x : ℚ) : Prop :=
  ∃ m k : ℤ, |m| < 2 ^ 24 ∧ -149 ≤ k ∧ x = m * 2 ^ k

/-! ## `ThreatCalcHelper` -/

/-- `ThreatCalcHelper::calcThreat`; the hating unit is unused, as in the source. -/
def ThreatCalcHelper.calcThreat (w : World) (hatedUnit : ObjectGuid) (threat : ℚ)
    (schoolMask : SpellSchoolMask) (threatSpell : Option SpellInfo) : ℚ :=
  match threatSpell with
  | some spell =>
    let threat1 :=
      match w.GetSpellThreatEntry spell.Id with
      | some pctMod => if pctMod ≠ 1 then threat * pctMod else threat
      | none => threat
    if spell.Effects.any (fun e =>
        e.Effect == SPELL_EFFECT_ENERGIZE || e.ApplyAuraName == SPELL_AURA_PERIODIC_ENERGIZE) then
      threat1
    else
      let threat2 :=
        match w.GetSpellModOwner hatedUnit with
        | some modOwner => w.ApplySpellMod modOwner spell.Id threat1
        | none => threat1
      Unit.ApplyTotalThreatModifier w hatedUnit threat2 schoolMask
  | none => Unit.ApplyTotalThreatModifier w hatedUnit threat schoolMask

/-- `ThreatCalcHelper::isValidProcess`. The result is `none` when the final
`ASSERT(hatingUnit->GetTypeId() == TYPEID_UNIT)` fails. -/
def ThreatCalcHelper.isValidProcess (w : World) (hatedUnit hatingUnit : Option ObjectGuid)
    (threatSpell : Option SpellInfo) : Option Bool :=
  match hatedUnit, hatingUnit with
  | some hated, some hating =>
    -- not to self
    if hated = hating then some false
    -- not to GM
    else if w.GetTypeId hated = TypeID.TYPEID_PLAYER ∧ w.IsGameMaster hated = true then some false
    -- not to dead and not for dead
    else if w.IsAlive hated = false ∨ w.IsAlive hating = false then some false
    -- not in same map or phase
    else if w.IsInMap hated hating = false ∨ w.InSamePhase hated hating = false then some false
    -- spell not causing threat
    else if (match threatSpell with
        | some spell => spell.noThreat
        | none => false) = true then some false
    else if w.GetTypeId hating = TypeID.TYPEID_UNIT then some true
    else none
  | _, _ => some false

/-! ## `HostileReference` and the state of a `ThreatMgr` -/

/-- The fields of a `HostileReference`. `linked` is `isValid()`, that is
`iRefTo != nullptr`; the target of a linked reference is the unit whose GUID is
`iUnitGuid` (the constructor and `updateOnlineStatus` both link to that unit). -/
structure HostileReference where
  iUnitGuid : ObjectGuid
  iThreat : ℚ
  iTempThreatModifier : ℚ
  iOnline : Bool
  linked : Bool
  deriving DecidableEq, Repr

/-- `getTarget()`: the linked unit, or null. -/
def HostileReference.getTarget (e : HostileReference) : Option ObjectGuid :=
  if e.linked then some e.iUnitGuid else none

/-- Modelled from the spec: `HostileReference::getThreat` is an inline accessor of
`ThreatMgr.h`, outside the sources at hand; the spec has the reported threat be
`threat + tempThreatOverride`, and `ThreatMgr::getThreatWithoutTemp` subtracts
the temporary modifier from it. -/
def HostileReference.getThreat (e : HostileReference) : ℚ :=
  e.iThreat + e.iTempThreatModifier

inductive UnitThreatEventType where
  | UEV_THREAT_REF_THREAT_CHANGE
  | UEV_THREAT_REF_ONLINE_STATUS
  | UEV_THREAT_REF_REMOVE_FROM_LIST
  deriving DecidableEq, Repr

/-- A `ThreatRefStatusChangeEvent`: its type, the reference it is about and the
float it carries (0 when constructed without one). -/
structure ThreatRefStatusChangeEvent where
  eventType : UnitThreatEventType
  ref : Nat
  iFValue : ℚ
  deriving DecidableEq, Repr

/-- What leaves or crosses the manager, in order: each event handed to
`processThreatEvent` and each opcode sent through the owner. -/
inductive Notice where
  | threatEvent (ev : ThreatRefStatusChangeEvent)
  | changeCurrentVictimOpcode (ref : Nat)
  | removeFromThreatListOpcode (ref : Nat)
  deriving DecidableEq, Repr

/-- A `ThreatContainer`: the list of references and the dirty flag. -/
structure ThreatContainer where
  iThreatList : List Nat
  iDirty : Bool
  deriving DecidableEq, Repr

/-- A `ThreatMgr` together with the heap its references live in. `nextRef` is
the next address `new HostileReference` returns, `delivered` the record of
events and opcodes. -/
structure ThreatMgr where
  heap : Nat → HostileReference
  nextRef : Nat
  iCurrentVictim : Option Nat
  iOwner : Option ObjectGuid
  iUpdateTimer : Nat
  iThreatContainer : ThreatContainer
  iThreatOfflineContainer : ThreatContainer
  delivered : List Notice

/-- `ThreatMgr::ThreatMgr(owner)`: no victim, empty clean containers, full timer. -/
def ThreatMgr.new (owner : Option ObjectGuid) : ThreatMgr where
  heap := fun _ => ⟨0, 0, 0, false, false⟩
  nextRef := 0
  iCurrentVictim := none
  iOwner := owner
  iUpdateTimer := THREAT_UPDATE_INTERVAL
  iThreatContainer := ⟨[], false⟩
  iThreatOfflineContainer := ⟨[], false⟩
  delivered := []

/-- A write through a `HostileReference*`. -/
def ThreatMgr.modifyRef (m : ThreatMgr) (ref : Nat) (f : HostileReference → HostileReference) :
    ThreatMgr :=
  { m with heap := Function.update m.heap ref (f (m.heap ref)) }

/-- `ThreatContainer::remove`: `std::list::remove`, every occurrence goes. -/
def ThreatContainer.remove (c : ThreatContainer) (ref : Nat) : ThreatContainer :=
  { c with iThreatList := c.iThreatList.filter (fun r => r != ref) }

/-- `ThreatContainer::addReference`: `push_back`. -/
def ThreatContainer.addReference (c : ThreatContainer) (ref : Nat) : ThreatContainer :=
  { c with iThreatList := c.iThreatList ++ [ref] }

/-- `ThreatContainer::getReferenceByTarget`: the first reference of the list
whose GUID is the victim's. -/
def ThreatContainer.getReferenceByTarget (heap : Nat → HostileReference) (c : ThreatContainer)
    (victim : Option ObjectGuid) : Option Nat :=
  match victim with
  | none => none
  | some guid => c.iThreatList.find? (fun ref => (heap ref).iUnitGuid == guid)

/-- `ThreatMgr::setDirty`: the flag of the online container. -/
def ThreatMgr.setDirty (m : ThreatMgr) (isDirty : Bool) : ThreatMgr :=
  { m with iThreatContainer := { m.iThreatContainer with iDirty := isDirty } }

/-- `ThreatMgr::setCurrentVictim`. Sending the opcode goes through `iOwner`. -/
def ThreatMgr.setCurrentVictim (m : ThreatMgr) (pHostileReference : Option Nat) :
    Option ThreatMgr :=
  match pHostileReference with
  | some ref =>
    if some ref ≠ m.iCurrentVictim then
      match m.iOwner with
      | some _ => some { m with
          delivered := m.delivered ++ [Notice.changeCurrentVictimOpcode ref]
          iCurrentVictim := some ref }
      | none => none
    else some { m with iCurrentVictim := some ref }
  | none => some { m with iCurrentVictim := none }

/-- `ThreatMgr::processThreatEvent`. -/
def ThreatMgr.processThreatEvent (w : World) (m0 : ThreatMgr) (ev : ThreatRefStatusChangeEvent) :
    Option ThreatMgr :=
  let m := { m0 with delivered := m0.delivered ++ [Notice.threatEvent ev] }
  let hostilRef := ev.ref
  match ev.eventType with
  | .UEV_THREAT_REF_THREAT_CHANGE =>
    if (m.iCurrentVictim = some hostilRef ∧ ev.iFValue < 0) ∨
        (m.iCurrentVictim ≠ some hostilRef ∧ ev.iFValue > 0) then
      some (m.setDirty true)
    else some m
  | .UEV_THREAT_REF_ONLINE_STATUS =>
    if (m.heap hostilRef).iOnline = false then do
      let m1 ← (if some hostilRef = m.iCurrentVictim then
          (m.setCurrentVictim none).map (fun s => s.setDirty true)
        else some m)
      let m2 :=
        match m1.iOwner with
        | some owner =>
          if w.IsInWorld owner = true ∧ w.GetUnit owner (m1.heap hostilRef).iUnitGuid = true ∧
              w.IsInMap owner (m1.heap hostilRef).iUnitGuid = true then
            { m1 with delivered := m1.delivered ++ [Notice.removeFromThreatListOpcode hostilRef] }
          else m1
        | none => m1
      some { m2 with
        iThreatContainer := m2.iThreatContainer.remove hostilRef
        iThreatOfflineContainer := m2.iThreatOfflineContainer.addReference hostilRef }
    else
      let m1 :=
        match m.iCurrentVictim with
        | some cv =>
          if Float32.round (m.heap hostilRef).getThreat >
              Float32.mul Float32.lit1_1 (m.heap cv).getThreat then
            m.setDirty true
          else m
        | none => m
      some { m1 with
        iThreatContainer := m1.iThreatContainer.addReference hostilRef
        iThreatOfflineContainer := m1.iThreatOfflineContainer.remove hostilRef }
  | .UEV_THREAT_REF_REMOVE_FROM_LIST => do
    let m1 ← (if some hostilRef = m.iCurrentVictim then
        (m.setCurrentVictim none).map (fun s => s.setDirty true)
      else some m)
    let m2 ← (match m1.iOwner with
      | some _ => some { m1 with
          delivered := m1.delivered ++ [Notice.removeFromThreatListOpcode hostilRef] }
      | none => none)
    if (m2.heap hostilRef).iOnline = true then
      some { m2 with iThreatContainer := m2.iThreatContainer.remove hostilRef }
    else
      some { m2 with iThreatOfflineContainer := m2.iThreatOfflineContainer.remove hostilRef }

/-- `HostileReference::fireStatusChanged`. `GetSource()` is the manager: the
constructor links the reference to it and only `unlink`, which precedes
`delete`, clears that. -/
def HostileReference.fireStatusChanged (w : World) (m : ThreatMgr)
    (ev : ThreatRefStatusChangeEvent) : Option ThreatMgr :=
  m.processThreatEvent w ev

/-- `HostileReference::setOnlineOfflineState`. -/
def HostileReference.setOnlineOfflineState (w : World) (m : ThreatMgr) (ref : Nat)
    (isOnline : Bool) : Option ThreatMgr :=
  if (m.heap ref).iOnline ≠ isOnline then
    HostileReference.fireStatusChanged w
      (m.modifyRef ref (fun e => { e with iOnline := isOnline }))
      ⟨.UEV_THREAT_REF_ONLINE_STATUS, ref, 0⟩
  else some m

/-- First statement of `HostileReference::updateOnlineStatus`: an invalid
reference is linked again when `ObjectAccessor::GetUnit(*GetSourceUnit(), guid)`
finds its unit. `GetSourceUnit()` is the owner of the manager, dereferenced here. -/
def HostileReference.relink (w : World) (m : ThreatMgr) (ref : Nat) : Option ThreatMgr :=
  if (m.heap ref).linked = false then
    match m.iOwner with
    | some owner =>
      if w.GetUnit owner (m.heap ref).iUnitGuid = true then
        some (m.modifyRef ref (fun e => { e with linked := true }))
      else some m
    | none => none
  else some m

/-- Second statement of `HostileReference::updateOnlineStatus`: the value of the
local `online`. The owner is dereferenced by the map test, and `ToCreature()` of
an owner that is no creature is a null pointer that the access test dereferences. -/
def HostileReference.canReach (w : World) (m : ThreatMgr) (ref : Nat) : Option Bool :=
  let target := (m.heap ref).iUnitGuid
  if (m.heap ref).linked = true
      ∧ (w.GetTypeId target ≠ TypeID.TYPEID_PLAYER ∨ w.IsGameMaster target = false)
      ∧ w.IsInFlight target = false then
    match m.iOwner with
    | some owner =>
      if w.IsInMap target owner = true ∧ w.InSamePhase target owner = true then
        if w.GetTypeId owner = TypeID.TYPEID_UNIT then
          some (w.isInAccessiblePlaceFor target owner || w.IsWithinCombatRange owner target)
        else none
      else some false
    | none => none
  else some false

/-- `HostileReference::updateOnlineStatus`: relink, compute `online`, set the state. -/
def HostileReference.updateOnlineStatus (w : World) (m : ThreatMgr) (ref : Nat) :
    Option ThreatMgr := do
  let m1 ← HostileReference.relink w m ref
  let online ← HostileReference.canReach w m1 ref
  HostileReference.setOnlineOfflineState w m1 ref online

/-- `HostileReference::addThreat`. `reenter s u` stands for the call
`GetSource()->addThreat(u, 0.0f)` made for the charmer or owner of the target. -/
def HostileReference.addThreat (w : World) (reenter : ThreatMgr → ObjectGuid → Option ThreatMgr)
    (m : ThreatMgr) (ref : Nat) (modThreat : ℚ) : Option ThreatMgr := do
  let m1 := m.modifyRef ref (fun e => { e with iThreat := e.iThreat + modThreat })
  let m2 ← (if (m1.heap ref).iOnline = false then HostileReference.updateOnlineStatus w m1 ref
    else some m1)
  let m3 ← (if modThreat ≠ 0 then
      HostileReference.fireStatusChanged w m2 ⟨.UEV_THREAT_REF_THREAT_CHANGE, ref, modThreat⟩
    else some m2)
  if (m3.heap ref).linked = true ∧ modThreat ≥ 0 then
    let target := (m3.heap ref).iUnitGuid
    if w.GetEntry target ≠ NPC_EYE_OF_KILROGG then
      match w.GetCharmerOrOwner target with
      | some victimOwner =>
        if w.IsAlive victimOwner = true then reenter m3 victimOwner else some m3
      | none => some m3
    else some m3
  else some m3

/-- `HostileReference::addThreatPercent`. -/
def HostileReference.addThreatPercent (w : World)
    (reenter : ThreatMgr → ObjectGuid → Option ThreatMgr)
    (m : ThreatMgr) (ref : Nat) (percent : ℤ) : Option ThreatMgr :=
  if (m.heap ref).iThreat ≤ 0 then some m
  else
    let tmpThreat := AddPct (m.heap ref).iThreat percent
    HostileReference.addThreat w reenter m ref (tmpThreat - (m.heap ref).iThreat)

/-- `ThreatContainer::addThreat` on one of the two containers of the manager:
the reference found, if any, and the state after `ref->addThreat(threat)`. -/
def ThreatContainer.addThreat (w : World) (reenter : ThreatMgr → ObjectGuid → Option ThreatMgr)
    (m : ThreatMgr) (c : ThreatContainer) (victim : Option ObjectGuid) (threat : ℚ) :
    Option (Option Nat × ThreatMgr) :=
  match c.getReferenceByTarget m.heap victim with
  | some ref => (HostileReference.addThreat w reenter m ref threat).map (fun s => (some ref, s))
  | none => some (none, m)

/-- `ThreatMgr::_addThreat`. The victim is dereferenced when a reference is
created. -/
def ThreatMgr._addThreat (w : World) (reenter : ThreatMgr → ObjectGuid → Option ThreatMgr)
    (m : ThreatMgr) (victim : Option ObjectGuid) (threat : ℚ) : Option ThreatMgr := do
  let (ref, m1) ← ThreatContainer.addThreat w reenter m m.iThreatContainer victim threat
  -- Ref is not in the online refs, search the offline refs next
  let (ref, m2) ← (match ref with
    | some r => some (some r, m1)
    | none => ThreatContainer.addThreat w reenter m1 m1.iThreatOfflineContainer victim threat)
  match ref with
  | some _ => some m2
  | none =>
    -- there was no ref => create a new one
    match victim with
    | none => none
    | some guid =>
      let hostileRef := m2.nextRef
      let m3 : ThreatMgr := { m2 with
        heap := Function.update m2.heap hostileRef ⟨guid, 0, 0, true, true⟩
        nextRef := m2.nextRef + 1 }
      let m4 : ThreatMgr := { m3 with
        iThreatContainer := m3.iThreatContainer.addReference hostileRef }
      do
        let m5 ← HostileReference.addThreat w reenter m4 hostileRef threat
        if w.GetTypeId guid = TypeID.TYPEID_PLAYER ∧ w.IsGameMaster guid = true then
          HostileReference.setOnlineOfflineState w m5 hostileRef false
        else some m5

/-- `ThreatMgr::doAddThreat`. -/
def ThreatMgr.doAddThreat (w : World) (reenter : ThreatMgr → ObjectGuid → Option ThreatMgr)
    (m : ThreatMgr) (victim : ObjectGuid) (threat : ℚ) : Option ThreatMgr :=
  let redirectThreadPct := w.GetRedirectThreatPercent victim
  -- must check > 0.0f, otherwise dead loop
  if threat > 0 ∧ redirectThreadPct ≠ 0 then
    match w.GetRedirectThreatTarget victim with
    | some redirectTarget =>
      let redirectThreat := CalculatePct threat (redirectThreadPct : ℤ)
      let threat1 := threat - redirectThreat
      do
        let valid ← ThreatCalcHelper.isValidProcess w (some redirectTarget) m.iOwner none
        let m1 ← (if valid = true then
            ThreatMgr._addThreat w reenter m (some redirectTarget) redirectThreat
          else some m)
        ThreatMgr._addThreat w reenter m1 (some victim) threat1
    | none => ThreatMgr._addThreat w reenter m (some victim) threat
  else ThreatMgr._addThreat w reenter m (some victim) threat

/-- The body of `ThreatMgr::addThreat`, the nested call for a charmer or owner
left open. A null victim never reaches `doAddThreat`: `isValidProcess` rejects it. -/
def ThreatMgr.addThreatBody (w : World) (reenter : ThreatMgr → ObjectGuid → Option ThreatMgr)
    (m : ThreatMgr) (victim : Option ObjectGuid) (threat : ℚ) (schoolMask : SpellSchoolMask)
    (threatSpell : Option SpellInfo) : Option ThreatMgr := do
  let valid ← ThreatCalcHelper.isValidProcess w victim m.iOwner threatSpell
  if valid = false then some m
  else
    match victim with
    | some v =>
      ThreatMgr.doAddThreat w reenter m v
        (ThreatCalcHelper.calcThreat w v threat schoolMask threatSpell)
    | none => none

/-- `ThreatMgr::addThreat`. The first argument bounds the depth of the nested
calls `addThreat(victimOwner, 0.0f)` (default school mask, no spell) that
`HostileReference::addThreat` makes for the charmer or owner of its target;
`none` when the bound is exhausted. -/
def ThreatMgr.addThreat (w : World) : Nat → ThreatMgr → Option ObjectGuid → ℚ →
    SpellSchoolMask → Option SpellInfo → Option ThreatMgr
  | 0 => fun _ _ _ _ _ => none
  | depth + 1 => fun m victim threat schoolMask threatSpell =>
    ThreatMgr.addThreatBody w
      (fun s u => ThreatMgr.addThreat w depth s (some u) 0 SPELL_SCHOOL_MASK_NORMAL none)
      m victim threat schoolMask threatSpell

/-- The nested call `GetSource()->addThreat(victimOwner, 0.0f)` with `depth`
levels of nesting left. -/
def ThreatMgr.reenter (w : World) (depth : Nat) (s : ThreatMgr) (victimOwner : ObjectGuid) :
    Option ThreatMgr :=
  ThreatMgr.addThreat w depth s (some victimOwner) 0 SPELL_SCHOOL_MASK_NORMAL none

/-- `ThreatContainer::modifyThreatPercent` on the online container. -/
def ThreatContainer.modifyThreatPercent (w : World)
    (reenter : ThreatMgr → ObjectGuid → Option ThreatMgr)
    (m : ThreatMgr) (c : ThreatContainer) (victim : Option ObjectGuid) (percent : ℤ) :
    Option ThreatMgr :=
  match c.getReferenceByTarget m.heap victim with
  | some ref => HostileReference.addThreatPercent w reenter m ref percent
  | none => some m

/-- `ThreatMgr::modifyThreatPercent`, with `depth` levels of nested
`addThreat` calls available. -/
def ThreatMgr.modifyThreatPercent (w : World) (depth : Nat) (m : ThreatMgr)
    (victim : Option ObjectGuid) (percent : ℤ) : Option ThreatMgr :=
  ThreatContainer.modifyThreatPercent w (ThreatMgr.reenter w depth) m m.iThreatContainer
    victim percent

/-- `ThreatMgr::getThreat`. -/
def ThreatMgr.getThreat (m : ThreatMgr) (victim : Option ObjectGuid)
    (alsoSearchOfflineList : Bool) : ℚ :=
  let ref := m.iThreatContainer.getReferenceByTarget m.heap victim
  let ref :=
    if ref = none ∧ alsoSearchOfflineList = true then
      m.iThreatOfflineContainer.getReferenceByTarget m.heap victim
    else ref
  match ref with
  | some r => (m.heap r).getThreat
  | none => 0

/-- `HostileReference::removeReference`. `invalidate()` is `Reference::invalidate`
of `Reference.h`: it calls `sourceObjectDestroyLink()`, which is
`setOnlineOfflineState(false)`, and then clears `iRefTo`, keeping the source. -/
def HostileReference.removeReference (w : World) (m : ThreatMgr) (ref : Nat) :
    Option ThreatMgr := do
  let m1 ← HostileReference.setOnlineOfflineState w m ref false
  let m2 := m1.modifyRef ref (fun e => { e with linked := false })
  HostileReference.fireStatusChanged w m2 ⟨.UEV_THREAT_REF_REMOVE_FROM_LIST, ref, 0⟩

/-- `ThreatContainer::clearReferences` on the heap: every reference of the list is
unlinked (and deleted); the list itself is emptied by the caller below. -/
def ThreatContainer.unlinkAll (heap : Nat → HostileReference) (c : ThreatContainer) :
    Nat → HostileReference :=
  c.iThreatList.foldl (fun h ref => Function.update h ref { h ref with linked := false }) heap

/-- `ThreatMgr::clearReferences`. -/
def ThreatMgr.clearReferences (m : ThreatMgr) : ThreatMgr :=
  { m with
    heap := m.iThreatOfflineContainer.unlinkAll (m.iThreatContainer.unlinkAll m.heap)
    iThreatContainer := { m.iThreatContainer with iThreatList := [] }
    iThreatOfflineContainer := { m.iThreatOfflineContainer with iThreatList := [] }
    iCurrentVictim := none
    iUpdateTimer := THREAT_UPDATE_INTERVAL }

/-! ## `ThreatContainer::selectNextVictim` -/

/-- The attack-validity test of the scan:
`attacker->_CanDetectFeignDeathOf(target) && attacker->CanCreatureAttack(target)`. -/
def attackValid (w : World) (attacker target : ObjectGuid) : Bool :=
  w._CanDetectFeignDeathOf attacker target && w.CanCreatureAttack attacker target

/-- The second-choice test of the scan: the target is immune to the attacker's
melee school, or has a negative aura that damage breaks, or ignores the attacker. -/
def secondChoice (w : World) (attacker target : ObjectGuid) : Bool :=
  w.IsImmunedToDamageOrSchool target attacker || w.HasNegativeAuraWithInterruptFlag target
    || w.HasAuraTypeWithCaster target attacker

/-- The threat comparison of one iteration, for a reference that was not set
aside as second choice: `some r` when the loop ends with `found = true` and
`currentRef = r`, `none` when it goes on with `++iter`. The two thresholds are
the `float` products `1.3f * currentVictim->getThreat()` and
`1.1f * currentVictim->getThreat()`. -/
def selectNextVictim.consider (w : World) (heap : Nat → HostileReference)
    (attacker : ObjectGuid) (currentVictim : Option Nat) (currentRef : Nat)
    (target : ObjectGuid) : Option Nat :=
  -- skip not valid targets
  if attackValid w attacker target = true then
    match currentVictim with
    | some cv =>
      if cv = currentRef then some currentRef
      else if Float32.round (heap currentRef).getThreat >
          Float32.mul Float32.lit1_3 (heap cv).getThreat then
        some currentRef
      else if Float32.round (heap currentRef).getThreat >
          Float32.mul Float32.lit1_1 (heap cv).getThreat then
        if w.IsWithinMeleeRange attacker target = true then some currentRef else none
      else some cv
    | none => some currentRef
  else none

/-- The loop once `noPriorityTargetFound` is true, from the iterator position
whose remaining elements are the argument. The outer `none` is the failed
`ASSERT(target)`. -/
def selectNextVictim.second (w : World) (heap : Nat → HostileReference)
    (attacker : ObjectGuid) (currentVictim : Option Nat) : List Nat → Option (Option Nat)
  | [] => some none
  | currentRef :: rest =>
    match (heap currentRef).getTarget with
    | none => none
    | some target =>
      match selectNextVictim.consider w heap attacker currentVictim currentRef target with
      | some r => some (some r)
      | none => selectNextVictim.second w heap attacker currentVictim rest

/-- The loop while `noPriorityTargetFound` is false. `iter != lastRef` holds
exactly when elements remain after the current one; at the last element a
second-choice reference restarts the scan from `begin()` over `full`. -/
def selectNextVictim.first (w : World) (heap : Nat → HostileReference)
    (attacker : ObjectGuid) (currentVictim : Option Nat) (full : List Nat) :
    List Nat → Option (Option Nat)
  | [] => some none
  | currentRef :: rest =>
    match (heap currentRef).getTarget with
    | none => none
    | some target =>
      if secondChoice w attacker target = true then
        if rest ≠ [] then selectNextVictim.first w heap attacker currentVictim full rest
        else selectNextVictim.second w heap attacker currentVictim full
      else
        match selectNextVictim.consider w heap attacker currentVictim currentRef target with
        | some r => some (some r)
        | none => selectNextVictim.first w heap attacker currentVictim full rest

/-- `ThreatContainer::selectNextVictim`. The inner option is the returned
pointer; the outer `none` is a failed `ASSERT(target)` or a current victim
without target, whose null target the validity test would dereference. -/
def ThreatContainer.selectNextVictim (w : World) (heap : Nat → HostileReference)
    (c : ThreatContainer) (attacker : ObjectGuid) (currentVictim : Option Nat) :
    Option (Option Nat) := do
  let currentVictim ← (match currentVictim with
    | some cv =>
      match (heap cv).getTarget with
      | some cvUnit =>
        if attackValid w attacker cvUnit = false then some none
        else if w.IsImmunedToDamageOrSchool cvUnit attacker = true ∨
            w.HasNegativeAuraWithInterruptFlag cvUnit = true then some none
        else some (some cv)
      | none => none
    | none => some none)
  selectNextVictim.first w heap attacker currentVictim c.iThreatList c.iThreatList

/-- `ThreatMgr::getThreatWithoutTemp`. -/
def ThreatMgr.getThreatWithoutTemp (m : ThreatMgr) (victim : Option ObjectGuid)
    (alsoSearchOfflineList : Bool) : ℚ :=
  let ref := m.iThreatContainer.getReferenceByTarget m.heap victim
  let ref :=
    if ref = none ∧ alsoSearchOfflineList = true then
      m.iThreatOfflineContainer.getReferenceByTarget m.heap victim
    else ref
  match ref with
  | some r => (m.heap r).getThreat - (m.heap r).iTempThreatModifier
  | none => 0

/-! ## Sorting, target query, taunt and reset -/

/-- Modelled from the spec: `Acore::ThreatOrderPred` and the `std::list::sort` it
drives are declared in headers outside the sources at hand; the spec has the
list sorted "by descending threat (stable)". An insertion sort that puts a
reference before the first one whose threat is not higher keeps references of
equal threat in their previous order, as the stable `std::list::sort` does. -/
def ThreatContainer.sortByThreat (heap : Nat → HostileReference) (l : List Nat) : List Nat :=
  l.insertionSort (fun a b => (heap a).getThreat ≥ (heap b).getThreat)

/-- `ThreatContainer::update`: sort when dirty and longer than one, then clear
the flag. -/
def ThreatContainer.update (heap : Nat → HostileReference) (c : ThreatContainer) :
    ThreatContainer :=
  { iThreatList :=
      if c.iDirty = true ∧ c.iThreatList.length > 1 then
        ThreatContainer.sortByThreat heap c.iThreatList
      else c.iThreatList
    iDirty := false }

/-- `ThreatMgr::getHostilTarget`: the returned unit and the state left behind.
`GetOwner()->ToCreature()` dereferences the owner; for an owner that is no
creature it is a null attacker, which `selectNextVictim` dereferences as soon
as there is a current victim or a list element. -/
def ThreatMgr.getHostilTarget (w : World) (m : ThreatMgr) :
    Option (Option ObjectGuid × ThreatMgr) := do
  let m1 : ThreatMgr := { m with iThreatContainer := m.iThreatContainer.update m.heap }
  let owner ← m1.iOwner
  let nextVictim ← (if w.GetTypeId owner = TypeID.TYPEID_UNIT then
      m1.iThreatContainer.selectNextVictim w m1.heap owner m1.iCurrentVictim
    else if m1.iCurrentVictim = none ∧ m1.iThreatContainer.iThreatList = [] then some none
    else none)
  let m2 ← m1.setCurrentVictim nextVictim
  some ((match m2.iCurrentVictim with
    | some ref => (m2.heap ref).getTarget
    | none => none), m2)

/-- Modelled from the spec: `HostileReference::setTempThreat` is an inline member
of `ThreatMgr.h`, outside the sources at hand; the spec has the taunt "set
`tempThreatOverride` equal to the current target's threat", which "does not
change `threat` itself". -/
def HostileReference.setTempThreat (e : HostileReference) (threat : ℚ) : HostileReference :=
  { e with iTempThreatModifier := threat }

/-- Modelled from the spec: `HostileReference::resetTempThreat` is an inline
member of `ThreatMgr.h`, outside the sources at hand; the spec has the fade
"zero the override". -/
def HostileReference.resetTempThreat (e : HostileReference) : HostileReference :=
  { e with iTempThreatModifier := 0 }

/-- Modelled from the spec: `HostileReference::setThreat` is an inline member of
`ThreatMgr.h`, outside the sources at hand; the spec has the reset "zero every
edge's threat in place". -/
def HostileReference.setThreat (e : HostileReference) (threat : ℚ) : HostileReference :=
  { e with iThreat := threat }

/-- `ThreatMgr::tauntApply`. -/
def ThreatMgr.tauntApply (m : ThreatMgr) (taunter : Option ObjectGuid) : ThreatMgr :=
  match m.iThreatContainer.getReferenceByTarget m.heap taunter, m.iCurrentVictim with
  | some ref, some cv =>
    if (m.heap ref).getThreat < (m.heap cv).getThreat then
      -- Ok, temp threat is unused
      if (m.heap ref).iTempThreatModifier = 0 then
        m.modifyRef ref (fun e => e.setTempThreat (m.heap cv).getThreat)
      else m
    else m
  | _, _ => m

/-- `ThreatMgr::tauntFadeOut`. -/
def ThreatMgr.tauntFadeOut (m : ThreatMgr) (taunter : Option ObjectGuid) : ThreatMgr :=
  match m.iThreatContainer.getReferenceByTarget m.heap taunter with
  | some ref => m.modifyRef ref (fun e => e.resetTempThreat)
  | none => m

/-- The loop of `ThreatMgr::resetAllAggro`: `setThreat(0)` on each reference of
the list, in order. -/
def ThreatMgr.zeroThreat (m : ThreatMgr) (threatList : List Nat) : ThreatMgr :=
  threatList.foldl (fun s ref => s.modifyRef ref (fun e => e.setThreat 0)) m

/-- `ThreatMgr::resetAllAggro`: the loop runs over the list of the online
container. -/
def ThreatMgr.resetAllAggro (m : ThreatMgr) : ThreatMgr :=
  if m.iThreatContainer.iThreatList = [] then m
  else (m.zeroThreat m.iThreatContainer.iThreatList).setDirty true

/-- Modelled from the spec: `ThreatMgr::isThreatListEmpty` is an inline member of
`ThreatMgr.h`, outside the sources at hand; the spec has the timer throttle the
notifications about the list the target is selected from, so the test is taken
on the list of the online container. -/
def ThreatMgr.isThreatListEmpty (m : ThreatMgr) : Bool :=
  m.iThreatContainer.iThreatList.isEmpty

/-- `ThreatMgr::isNeedUpdateToClient`: the returned flag and the state left
behind. `time` and `iUpdateTimer` are `uint32`, the subtraction wraps. -/
def ThreatMgr.isNeedUpdateToClient (m : ThreatMgr) (time : Nat) : Bool × ThreatMgr :=
  if m.isThreatListEmpty = true then (false, m)
  else if time ≥ m.iUpdateTimer then (true, { m with iUpdateTimer := THREAT_UPDATE_INTERVAL })
  else (false, { m with iUpdateTimer := (m.iUpdateTimer + 2 ^ 32 - time) % 2 ^ 32 })

/-! ## State invariants and summaries of a call -/

/-- The references of the table: those of the online container, then those of
the offline container. -/
def ThreatMgr.refs (m : ThreatMgr) : List Nat :=
  m.iThreatContainer.iThreatList ++ m.iThreatOfflineContainer.iThreatList

/-- The invariant of the table: listed references are allocated, no GUID occurs
twice over both lists (so no reference occurs twice either), and a reference is
in the list its online flag names. -/
structure ThreatMgr.WellFormed (m : ThreatMgr) : Prop where
  allocated : ∀ r ∈ m.refs, r < m.nextRef
  unique : (m.refs.map (fun r => (m.heap r).iUnitGuid)).Nodup
  online : ∀ r ∈ m.iThreatContainer.iThreatList, (m.heap r).iOnline = true
  offline : ∀ r ∈ m.iThreatOfflineContainer.iThreatList, (m.heap r).iOnline = false

/-- The threat-changed events of a record, as pairs of reference and delta. -/
def threatChanges : List Notice → List (Nat × ℚ)
  | [] => []
  | Notice.threatEvent ⟨UnitThreatEventType.UEV_THREAT_REF_THREAT_CHANGE, ref, d⟩ :: rest =>
    (ref, d) :: threatChanges rest
  | _ :: rest => threatChanges rest

/-- Summary of a call that takes the well-formed table `m` to `m'` and adds `d`
to the threat of `victim` (of nobody when `victim` is `none`): the invariant
holds again, no reference leaves the table or changes its GUID, and the threat
reported for every unit changes by `d` for the victim and by nothing for the
others. -/
structure Adds (m m' : ThreatMgr) (victim : Option ObjectGuid) (d : ℚ) : Prop where
  wf : m'.WellFormed
  owner : m'.iOwner = m.iOwner
  mem : ∀ r ∈ m.refs, r ∈ m'.refs
  guid : ∀ r ∈ m.refs, (m'.heap r).iUnitGuid = (m.heap r).iUnitGuid
  threat : ∀ g, m'.getThreatWithoutTemp (some g) true =
    m.getThreatWithoutTemp (some g) true + (if victim = some g then d else 0)
  total : ∀ g, m'.getThreat (some g) true =
    m.getThreat (some g) true + (if victim = some g then d else 0)

/-- Summary of a call that changes no reported threat and delivers no
threat-changed event. -/
structure Quiet (m m' : ThreatMgr) : Prop where
  adds : Adds m m' none 0
  events : threatChanges m'.delivered = threatChanges m.delivered

/-- Summary of a step that only moves references between the two lists or
changes their flags: the same references, with the same GUID, threat and
temporary modifier, no allocation and no threat-changed event. -/
structure StatusOnly (m m' : ThreatMgr) : Prop where
  owner : m'.iOwner = m.iOwner
  nextRef : m'.nextRef = m.nextRef
  mem : ∀ r, r ∈ m'.refs ↔ r ∈ m.refs
  guid : ∀ r, (m'.heap r).iUnitGuid = (m.heap r).iUnitGuid
  threat : ∀ r, (m'.heap r).iThreat = (m.heap r).iThreat
  temp : ∀ r, (m'.heap r).iTempThreatModifier = (m.heap r).iTempThreatModifier
  events : threatChanges m'.delivered = threatChanges m.delivered

/-- The states a manager reaches from construction through `addThreat` calls
that return, each in the world of its moment. -/
inductive ReachableByAddThreat (owner : Option ObjectGuid) : ThreatMgr → Prop where
  | init : ReachableByAddThreat owner (ThreatMgr.new owner)
  | addThreat (w : World) (depth : Nat) (m m' : ThreatMgr) (victim : Option ObjectGuid)
      (threat : ℚ) (schoolMask : SpellSchoolMask) (threatSpell : Option SpellInfo) :
      ReachableByAddThreat owner m →
      ThreatMgr.addThreat w depth m victim threat schoolMask threatSpell = some m' →
      ReachableByAddThreat owner m'

/-- The states a manager reaches from construction through `addThreat`, through
`setOnlineOfflineState` and `removeReference` on references of the table, and
through `clearReferences`. -/
inductive Reachable (owner : Option ObjectGuid) : ThreatMgr → Prop where
  | init : Reachable owner (ThreatMgr.new owner)
  | addThreat (w : World) (depth : Nat) (m m' : ThreatMgr) (victim : Option ObjectGuid)
      (threat : ℚ) (schoolMask : SpellSchoolMask) (threatSpell : Option SpellInfo) :
      Reachable owner m →
      ThreatMgr.addThreat w depth m victim threat schoolMask threatSpell = some m' →
      Reachable owner m'
  | setOnlineOfflineState (w : World) (m m' : ThreatMgr) (ref : Nat) (isOnline : Bool) :
      Reachable owner m → ref ∈ m.refs →
      HostileReference.setOnlineOfflineState w m ref isOnline = some m' →
      Reachable owner m'
  | removeReference (w : World) (m m' : ThreatMgr) (ref : Nat) :
      Reachable owner m → ref ∈ m.refs →
      HostileReference.removeReference w m ref = some m' →
      Reachable owner m'
  | clearReferences (m : ThreatMgr) :
      Reachable owner m → Reachable owner m.clearReferences

/-- The implication the dirty flag stands for: a clear flag on a list ordered by
non-increasing threat. -/
def ThreatMgr.SortedUnlessDirty (m : ThreatMgr) : Prop :=
  m.iThreatContainer.iDirty = false →
    m.iThreatContainer.iThreatList.Pairwise
      (fun a b => (m.heap a).getThreat ≥ (m.heap b).getThreat)

/-- The states a manager reaches from construction through `addThreat`,
`modifyThreatPercent`, `setOnlineOfflineState` and `removeReference` on
references of the table, and `getHostilTarget`, each call returning. -/
inductive ReachableInCombat (owner : Option ObjectGuid) : ThreatMgr → Prop where
  | init : ReachableInCombat owner (ThreatMgr.new owner)
  | addThreat (w : World) (depth : Nat) (m m' : ThreatMgr) (victim : Option ObjectGuid)
      (threat : ℚ) (schoolMask : SpellSchoolMask) (threatSpell : Option SpellInfo) :
      ReachableInCombat owner m →
      ThreatMgr.addThreat w depth m victim threat schoolMask threatSpell = some m' →
      ReachableInCombat owner m'
  | modifyThreatPercent (w : World) (depth : Nat) (m m' : ThreatMgr)
      (victim : Option ObjectGuid) (percent : ℤ) :
      ReachableInCombat owner m →
      ThreatMgr.modifyThreatPercent w depth m victim percent = some m' →
      ReachableInCombat owner m'
  | setOnlineOfflineState (w : World) (m m' : ThreatMgr) (ref : Nat) (isOnline : Bool) :
      ReachableInCombat owner m → ref ∈ m.refs →
      HostileReference.setOnlineOfflineState w m ref isOnline = some m' →
      ReachableInCombat owner m'
  | removeReference (w : World) (m m' : ThreatMgr) (ref : Nat) :
      ReachableInCombat owner m → ref ∈ m.refs →
      HostileReference.removeReference w m ref = some m' →
      ReachableInCombat owner m'
  | getHostilTarget (w : World) (m m' : ThreatMgr) (target : Option ObjectGuid) :
      ReachableInCombat owner m →
      ThreatMgr.getHostilTarget w m = some (target, m') →
      ReachableInCombat owner m'

/-- The current victim, when there is one, is a reference of the online list. -/
def ThreatMgr.VictimOnline (m : ThreatMgr) : Prop :=
  ∀ cv, m.iCurrentVictim = some cv → cv ∈ m.iThreatContainer.iThreatList

/-- The states a manager reaches from construction through `addThreat`,
`modifyThreatPercent`, `getHostilTarget`, `setOnlineOfflineState`,
`updateOnlineStatus` and `removeReference` on references of the table,
`clearReferences` and `resetAllAggro`, each call returning. -/
inductive ReachableInUse (owner : Option ObjectGuid) : ThreatMgr → Prop where
  | init : ReachableInUse owner (ThreatMgr.new owner)
  | addThreat (w : World) (depth : Nat) (m m' : ThreatMgr) (victim : Option ObjectGuid)
      (threat : ℚ) (schoolMask : SpellSchoolMask) (threatSpell : Option SpellInfo) :
      ReachableInUse owner m →
      ThreatMgr.addThreat w depth m victim threat schoolMask threatSpell = some m' →
      ReachableInUse owner m'
  | modifyThreatPercent (w : World) (depth : Nat) (m m' : ThreatMgr)
      (victim : Option ObjectGuid) (percent : ℤ) :
      ReachableInUse owner m →
      ThreatMgr.modifyThreatPercent w depth m victim percent = some m' →
      ReachableInUse owner m'
  | getHostilTarget (w : World) (m m' : ThreatMgr) (target : Option ObjectGuid) :
      ReachableInUse owner m →
      ThreatMgr.getHostilTarget w m = some (target, m') →
      ReachableInUse owner m'
  | setOnlineOfflineState (w : World) (m m' : ThreatMgr) (ref : Nat) (isOnline : Bool) :
      ReachableInUse owner m → ref ∈ m.refs →
      HostileReference.setOnlineOfflineState w m ref isOnline = some m' →
      ReachableInUse owner m'
  | updateOnlineStatus (w : World) (m m' : ThreatMgr) (ref : Nat) :
      ReachableInUse owner m → ref ∈ m.refs →
      HostileReference.updateOnlineStatus w m ref = some m' →
      ReachableInUse owner m'
  | removeReference (w : World) (m m' : ThreatMgr) (ref : Nat) :
      ReachableInUse owner m → ref ∈ m.refs →
      HostileReference.removeReference w m ref = some m' →
      ReachableInUse owner m'
  | clearReferences (m : ThreatMgr) :
      ReachableInUse owner m → ReachableInUse owner m.clearReferences
  | resetAllAggro (m : ThreatMgr) :
      ReachableInUse owner m → ReachableInUse owner m.resetAllAggro

/-- The states a manager reaches from construction through
`isNeedUpdateToClient`, `clearReferences` and steps that leave the timer as it
is; no other function of `ThreatMgr.cpp` writes `iUpdateTimer`. -/
inductive ReachableByTimer (owner : Option ObjectGuid) : ThreatMgr → Prop where
  | init : ReachableByTimer owner (ThreatMgr.new owner)
  | isNeedUpdateToClient (m : ThreatMgr) (time : Nat) :
      ReachableByTimer owner m → ReachableByTimer owner (m.isNeedUpdateToClient time).2
  | clearReferences (m : ThreatMgr) :
      ReachableByTimer owner m → ReachableByTimer owner m.clearReferences
  | other (m m' : ThreatMgr) :
      ReachableByTimer owner m → m'.iUpdateTimer = m.iUpdateTimer → ReachableByTimer owner m'

/-! ## Worlds and states of the worked examples -/

/-- A world in which every unit is a living creature without master, in one map
and phase, reachable, attackable, not immune, with no redirection and neutral
threat modifiers. -/
def World.plain : World where
  GetTypeId := fun _ => TypeID.TYPEID_UNIT
  IsGameMaster := fun _ => false
  IsAlive := fun _ => true
  IsInWorld := fun _ => true
  IsInMap := fun _ _ => true
  InSamePhase := fun _ _ => true
  IsInFlight := fun _ => false
  GetEntry := fun _ => 0
  GetCharmerOrOwner := fun _ => none
  GetRedirectThreatPercent := fun _ => 0
  GetRedirectThreatTarget := fun _ => none
  GetUnit := fun _ _ => true
  isInAccessiblePlaceFor := fun _ _ => true
  IsWithinCombatRange := fun _ _ => true
  IsWithinMeleeRange := fun _ _ => true
  _CanDetectFeignDeathOf := fun _ _ => true
  CanCreatureAttack := fun _ _ => true
  IsImmunedToDamageOrSchool := fun _ _ => false
  HasNegativeAuraWithInterruptFlag := fun _ => false
  HasAuraTypeWithCaster := fun _ _ => false
  GetSpellThreatEntry := fun _ => none
  GetSpellModOwner := fun _ => none
  ApplySpellMod := fun _ _ t => t
  threatModifier := fun _ _ => 1

/-- A manager owned by unit 0 whose online list holds one reference, at address
0, to unit 1 with the given threat. -/
def ThreatMgr.single (threat : ℚ) : ThreatMgr where
  heap := fun _ => ⟨1, threat, 0, true, true⟩
  nextRef := 1
  iCurrentVictim := none
  iOwner := some 0
  iUpdateTimer := THREAT_UPDATE_INTERVAL
  iThreatContainer := ⟨[0], false⟩
  iThreatOfflineContainer := ⟨[], false⟩
  delivered := []

/-- The plain world, except that unit 1 is immune to damage and unit 2 cannot
be attacked. -/
def World.immuneThenUnattackable : World :=
  { World.plain with
    IsImmunedToDamageOrSchool := fun target _ => target == 1
    CanCreatureAttack := fun _ target => target != 2 }

/-- A heap whose reference 0 is to unit 1 with threat 80 and whose other
references are to unit 2 with threat 50. -/
def heapTwo : Nat → HostileReference :=
  fun ref => if ref = 0 then ⟨1, 80, 0, true, true⟩ else ⟨2, 50, 0, true, true⟩

/-- The plain world, except that unit 1 redirects 30 percent of its threat to
unit 2 and unit 2 redirects 50 percent of its threat to unit 3. -/
def World.redirecting : World :=
  { World.plain with
    GetRedirectThreatPercent := fun u => if u = 1 then 30 else if u = 2 then 50 else 0
    GetRedirectThreatTarget := fun u =>
      if u = 1 then some 2 else if u = 2 then some 3 else none }

/-- The table of unit 0 after 10 threat from unit 1 in the plain world. -/
def ThreatMgr.afterAdd : ThreatMgr :=
  (ThreatMgr.addThreat World.plain 1 (ThreatMgr.new (some 0)) (some 1) 10
    SPELL_SCHOOL_MASK_NORMAL none).getD (ThreatMgr.new (some 0))

/-- The table `afterAdd` after its reference, at address 0, was set offline. -/
def ThreatMgr.afterOffline : ThreatMgr :=
  (HostileReference.setOnlineOfflineState World.plain ThreatMgr.afterAdd 0 false).getD
    ThreatMgr.afterAdd

/-- The plain world, except that unit 2 is immune to damage. -/
def World.secondImmune : World :=
  { World.plain with IsImmunedToDamageOrSchool := fun target _ => target == 2 }

/-- The plain world, except that no unit is within melee range. -/
def World.outOfMelee : World :=
  { World.plain with IsWithinMeleeRange := fun _ _ => false }

/-- A heap whose reference 0 is to unit 1 with the given threat and whose other
references are to unit 2 with threat 100. -/
def heapCandidate (threat : ℚ) : Nat → HostileReference :=
  fun ref => if ref = 0 then ⟨1, threat, 0, true, true⟩ else ⟨2, 100, 0, true, true⟩

/-- A table of unit 0 with the reference 0 (unit 1, threat 10) online and the
reference 1 (unit 2, threat 20) offline. -/
def ThreatMgr.mixed : ThreatMgr where
  heap := fun ref => if ref = 0 then ⟨1, 10, 0, true, true⟩ else ⟨2, 20, 0, false, true⟩
  nextRef := 2
  iCurrentVictim := none
  iOwner := some 0
  iUpdateTimer := THREAT_UPDATE_INTERVAL
  iThreatContainer := ⟨[0], false⟩
  iThreatOfflineContainer := ⟨[1], false⟩
  delivered := []

/-- A table of unit 0 whose only reference, to unit 1 with threat 20 and a
temporary modifier of 5, is offline. -/
def ThreatMgr.onlyOffline : ThreatMgr where
  heap := fun _ => ⟨1, 20, 5, false, true⟩
  nextRef := 1
  iCurrentVictim := none
  iOwner := some 0
  iUpdateTimer := THREAT_UPDATE_INTERVAL
  iThreatContainer := ⟨[], false⟩
  iThreatOfflineContainer := ⟨[0], false⟩
  delivered := []

/-- A table of unit 0 with the references 0 (unit 1, threat 10) and 1 (unit 2,
threat 100) online, the second being the current victim. -/
def ThreatMgr.withVictim : ThreatMgr where
  heap := fun ref => if ref = 0 then ⟨1, 10, 0, true, true⟩ else ⟨2, 100, 0, true, true⟩
  nextRef := 2
  iCurrentVictim := some 1
  iOwner := some 0
  iUpdateTimer := THREAT_UPDATE_INTERVAL
  iThreatContainer := ⟨[1, 0], false⟩
  iThreatOfflineContainer := ⟨[], false⟩
  delivered := []

/-- The plain world, except that every spell has a threat entry with `pctMod` 2. -/
def World.doubledSpells : World :=
  { World.plain with GetSpellThreatEntry := fun _ => some 2 }

/-- A spell whose first effect is `SPELL_EFFECT_ENERGIZE`. -/
def energizeSpell : SpellInfo :=
  ⟨5, [⟨SPELL_EFFECT_ENERGIZE, 0⟩], false⟩

/-- The plain world, except that no unit can be attacked. -/
def World.unattackable : World :=
  { World.plain with CanCreatureAttack := fun _ _ => false }

/-- The plain world, except that unit 1 ignores every attacker. -/
def World.firstIgnores : World :=
  { World.plain with HasAuraTypeWithCaster := fun target _ => target == 1 }

/-- A heap whose reference 0 is to unit 1 with threat -10 and whose other
references are to unit 2 with threat -12. -/
def heapNegative : Nat → HostileReference :=
  fun ref => if ref = 0 then ⟨1, -10, 0, true, true⟩ else ⟨2, -12, 0, true, true⟩

/-- The plain world, except that unit 1 redirects 30 percent of its threat to
unit 2, which is not alive. -/
def World.redirectingToDead : World :=
  { World.plain with
    GetRedirectThreatPercent := fun u => if u = 1 then 30 else 0
    GetRedirectThreatTarget := fun u => if u = 1 then some 2 else none
    IsAlive := fun u => u != 2 }

/-! ## The states of the end-to-end scenario -/

/-- The table of `o` after 50 threat was recorded for `V1` on an empty table. -/
def Scenario.first (o V1 : ObjectGuid) : ThreatMgr :=
  { ThreatMgr.new (some o) with
    heap := Function.update (ThreatMgr.new (some o)).heap 0 ⟨V1, 50, 0, true, true⟩
    nextRef := 1
    iThreatContainer := ⟨[0], true⟩
    delivered := [Notice.threatEvent ⟨.UEV_THREAT_REF_THREAT_CHANGE, 0, 50⟩] }

/-- The table after 80 threat was then recorded for `V2`. -/
def Scenario.both (o V1 V2 : ObjectGuid) : ThreatMgr :=
  { Scenario.first o V1 with
    heap := Function.update (Scenario.first o V1).heap 1 ⟨V2, 80, 0, true, true⟩
    nextRef := 2
    iThreatContainer := ⟨[0, 1], true⟩
    delivered := (Scenario.first o V1).delivered ++
      [Notice.threatEvent ⟨.UEV_THREAT_REF_THREAT_CHANGE, 1, 80⟩] }

/-- The table after the first target query: sorted, clean, reference 0 current. -/
def Scenario.targeted (o V1 V2 : ObjectGuid) : ThreatMgr :=
  { Scenario.both o V1 V2 with
    iCurrentVictim := some 0
    iThreatContainer := ⟨[1, 0], false⟩
    delivered := (Scenario.both o V1 V2).delivered ++ [Notice.changeCurrentVictimOpcode 0] }

/-- The table after reference 0 went offline: moved to the offline list, no
current victim, dirty; the removal opcode is sent when the owner is in the
world and finds the unit in its map. -/
def Scenario.offline (w : World) (o V1 V2 : ObjectGuid) : ThreatMgr :=
  { Scenario.targeted o V1 V2 with
    heap := Function.update (Scenario.targeted o V1 V2).heap 0 ⟨V1, 50, 0, false, true⟩
    iCurrentVictim := none
    iThreatContainer := ⟨[1], true⟩
    iThreatOfflineContainer := ⟨[0], false⟩
    delivered := (Scenario.targeted o V1 V2).delivered ++
      [Notice.threatEvent ⟨.UEV_THREAT_REF_ONLINE_STATUS, 0, 0⟩] ++
      (if w.IsInWorld o = true ∧ w.GetUnit o V1 = true ∧ w.IsInMap o V1 = true then
        [Notice.removeFromThreatListOpcode 0] else []) }

/-- The table after the second target query: reference 1 current. -/
def Scenario.retargeted (w : World) (o V1 V2 : ObjectGuid) : ThreatMgr :=
  { Scenario.offline w o V1 V2 with
    iCurrentVictim := some 1
    iThreatContainer := ⟨[1], false⟩
    delivered := (Scenario.offline w o V1 V2).delivered ++
      [Notice.changeCurrentVictimOpcode 1] }

/-- The table after the first target query and 100 more threat for `V1`, the
current victim: its reference, second in the list, has the higher threat and
the dirty flag is clear. -/
def Scenario.raised (o V1 V2 : ObjectGuid) : ThreatMgr :=
  { Scenario.targeted o V1 V2 with
    heap := Function.update (Scenario.targeted o V1 V2).heap 0 ⟨V1, 150, 0, true, true⟩
    delivered := (Scenario.targeted o V1 V2).delivered ++
      [Notice.threatEvent ⟨.UEV_THREAT_REF_THREAT_CHANGE, 0, 100⟩] }

/-! ## Rounding to single precision -/

theorem nearestEven_floor_le (y : ℚ) : ⌊y⌋ ≤ Float32.nearestEven y := by
  unfold Float32.nearestEven
  split_ifs <;> omega

theorem nearestEven_le_succ (y : ℚ) : Float32.nearestEven y ≤ ⌊y⌋ + 1 := by
  unfold Float32.nearestEven
  split_ifs <;> omega

theorem nearestEven_down (y : ℚ) (n : ℤ) (h1 : (n : ℚ) ≤ y) (h2 : y < n + 1 / 2) :
    Float32.nearestEven y = n := by
  have hf : ⌊y⌋ = n := Int.floor_eq_iff.mpr ⟨h1, by linarith⟩
  unfold Float32.nearestEven
  rw [hf, if_pos (by linarith)]

theorem nearestEven_up (y : ℚ) (n : ℤ) (h1 : (n : ℚ) + 1 / 2 < y) (h2 : y < n + 1) :
    Float32.nearestEven y = n + 1 := by
  have hf : ⌊y⌋ = n := Int.floor_eq_iff.mpr ⟨by linarith, h2⟩
  unfold Float32.nearestEven
  rw [hf, if_neg (by linarith), if_pos (by linarith)]

theorem nearestEven_tie (y : ℚ) (n : ℤ) (h : y = n + 1 / 2) :
    Float32.nearestEven y = if n % 2 = 0 then n else n + 1 := by
  have hf : ⌊y⌋ = n := Int.floor_eq_iff.mpr ⟨by linarith, by linarith⟩
  unfold Float32.nearestEven
  rw [hf, if_neg (by linarith), if_neg (by linarith)]

/-- No integer is nearer to `t` than the one `nearestEven` picks. -/
theorem nearestEven_nearest (t : ℚ) (j : ℤ) :
    |(Float32.nearestEven t : ℚ) - t| ≤ |(j : ℚ) - t| := by
  have hfl : (⌊t⌋ : ℚ) ≤ t := Int.floor_le t
  have hfu : t < (⌊t⌋ : ℚ) + 1 := Int.lt_floor_add_one t
  have hdist : |(Float32.nearestEven t : ℚ) - t| ≤ t - ⌊t⌋ ∧
      |(Float32.nearestEven t : ℚ) - t| ≤ ⌊t⌋ + 1 - t := by
    unfold Float32.nearestEven
    split_ifs with h1 h2 h3
    · rw [abs_sub_comm, abs_of_nonneg (by linarith)]
      constructor <;> linarith
    · push_cast
      rw [abs_of_nonneg (by linarith)]
      constructor <;> linarith
    · rw [abs_sub_comm, abs_of_nonneg (by linarith)]
      constructor <;> linarith
    · push_cast
      rw [abs_of_nonneg (by linarith)]
      constructor <;> linarith
  rcases le_or_lt j ⌊t⌋ with hj | hj
  · have hjq : (j : ℚ) ≤ (⌊t⌋ : ℚ) := by exact_mod_cast hj
    rw [abs_sub_comm (j : ℚ) t, abs_of_nonneg (by linarith : 0 ≤ t - (j : ℚ))]
    linarith [hdist.1]
  · have hjq : (⌊t⌋ : ℚ) + 1 ≤ (j : ℚ) := by exact_mod_cast hj
    rw [abs_of_nonneg (by linarith : 0 ≤ (j : ℚ) - t)]
    linarith [hdist.2]

theorem exponent_eq (x : ℚ) (e : ℤ) (h1 : (2 : ℚ) ^ e ≤ |x|) (h2 : |x| < (2 : ℚ) ^ (e + 1))
    (he : -126 ≤ e) : Float32.exponent x = e := by
  have hpos : 0 < |x| := lt_of_lt_of_le (zpow_pos (by norm_num) e) h1
  have hlog : Int.log 2 |x| = e := by
    apply le_antisymm
    · have := (Int.lt_zpow_iff_log_lt (b := 2) (by norm_num) hpos).mp (by simpa using h2)
      omega
    · exact (Int.zpow_le_iff_le_log (b := 2) (by norm_num) hpos).mp (by simpa using h1)
  unfold Float32.exponent
  rw [hlog]
  exact max_eq_left he

/-- The value of `Float32.round` at a number whose binade and nearest multiple of
the quantum are known. -/
theorem round_eq (x : ℚ) (e n : ℤ) (h1 : (2 : ℚ) ^ e ≤ |x|) (h2 : |x| < (2 : ℚ) ^ (e + 1))
    (he : -126 ≤ e) (hn : Float32.nearestEven (x / (2 : ℚ) ^ (e - 23)) = n) :
    Float32.round x = n * (2 : ℚ) ^ (e - 23) := by
  unfold Float32.round Float32.ulp
  rw [exponent_eq x e h1 h2 he, hn]

theorem round_zero : Float32.round 0 = 0 := by
  simp [Float32.round, Float32.nearestEven]

theorem ulp_pos (x : ℚ) : 0 < Float32.ulp x := zpow_pos (by norm_num) _

theorem exponent_ge (x : ℚ) : -126 ≤ Float32.exponent x := le_max_right _ _

/-- Outside the subnormal range the binade of `y` starts at or below `|y|`. -/
theorem binade_le (y : ℚ) (hy : y ≠ 0) (hE : -126 < Float32.exponent y) :
    (2 : ℚ) ^ Float32.exponent y ≤ |y| := by
  have hlog : Float32.exponent y = Int.log 2 |y| := by
    unfold Float32.exponent at hE ⊢
    rcases le_total (Int.log 2 |y|) (-126) with hle | hle
    · rw [max_eq_right hle] at hE; omega
    · exact max_eq_left hle
  rw [hlog]
  simpa using Int.zpow_log_le_self (b := 2) (by norm_num) (abs_pos.mpr hy)

theorem lt_binade (y : ℚ) : |y| < (2 : ℚ) ^ (Float32.exponent y + 1) := by
  rcases eq_or_ne y 0 with rfl | hy
  · simpa using zpow_pos (by norm_num : (0 : ℚ) < 2) (Float32.exponent 0 + 1)
  · have h1 : |y| < (2 : ℚ) ^ (Int.log 2 |y| + 1) := by
      simpa using Int.lt_zpow_succ_log_self (b := 2) (by norm_num) |y|
    have h2 : (2 : ℚ) ^ (Int.log 2 |y| + 1) ≤ (2 : ℚ) ^ (Float32.exponent y + 1) :=
      zpow_le_zpow_right₀ (by norm_num) (by unfold Float32.exponent; have := le_max_left (Int.log 2 |y|) (-126); omega)
    exact lt_of_lt_of_le h1 h2

theorem binade_eq (y : ℚ) :
    ((2 ^ 23 : ℤ) : ℚ) * Float32.ulp y = (2 : ℚ) ^ Float32.exponent y := by
  unfold Float32.ulp
  rw [zpow_sub₀ (by norm_num : (2 : ℚ) ≠ 0)]
  push_cast
  have : (2 : ℚ) ^ (23 : ℤ) = 2 ^ 23 := by norm_num
  rw [this]
  field_simp
  ring

theorem round_dist (y : ℚ) (j : ℤ) :
    |Float32.round y - y| ≤ |(j : ℚ) * Float32.ulp y - y| := by
  have hq : 0 < Float32.ulp y := ulp_pos y
  have h := nearestEven_nearest (y / Float32.ulp y) j
  have e1 : Float32.round y - y =
      ((Float32.nearestEven (y / Float32.ulp y) : ℚ) - y / Float32.ulp y) * Float32.ulp y := by
    unfold Float32.round
    field_simp
  have e2 : (j : ℚ) * Float32.ulp y - y = ((j : ℚ) - y / Float32.ulp y) * Float32.ulp y := by
    field_simp
  rw [e1, e2, abs_mul, abs_mul, abs_of_pos hq]
  exact mul_le_mul_of_nonneg_right h (le_of_lt hq)

/-- The rounding is to nearest: no float32 value is nearer to `y` than `round y`. -/
theorem round_nearest (f y : ℚ) (hf : Float32.Representable f) :
    |Float32.round y - y| ≤ |f - y| := by
  rcases eq_or_ne y 0 with rfl | hy
  · rw [round_zero]; simp
  have hq : 0 < Float32.ulp y := ulp_pos y
  obtain ⟨m, k, hm, hk, rfl⟩ := hf
  by_cases hkE : Float32.exponent y - 23 ≤ k
  · -- f is a multiple of the quantum
    obtain ⟨d, hd⟩ : ∃ d : ℕ, k = Float32.exponent y - 23 + d :=
      ⟨(k - (Float32.exponent y - 23)).toNat, by omega⟩
    have hfq : (m : ℚ) * (2 : ℚ) ^ k = ((m * 2 ^ d : ℤ) : ℚ) * Float32.ulp y := by
      unfold Float32.ulp
      rw [hd, zpow_add₀ (by norm_num : (2 : ℚ) ≠ 0)]
      push_cast
      rw [zpow_natCast]
      ring
    rw [hfq]
    exact round_dist y _
  · -- f lies below the binade of y
    have hbin : (2 : ℚ) ^ Float32.exponent y ≤ |y| := binade_le y hy (by omega)
    have hmq : |(m : ℚ)| < 2 ^ 24 := by exact_mod_cast hm
    have hpow : (2 : ℚ) ^ k ≤ (2 : ℚ) ^ (Float32.exponent y - 24) :=
      zpow_le_zpow_right₀ (by norm_num) (by omega)
    have hfabs : |(m : ℚ) * (2 : ℚ) ^ k| < (2 : ℚ) ^ Float32.exponent y := by
      rw [abs_mul, abs_of_pos (zpow_pos (by norm_num : (0 : ℚ) < 2) k)]
      calc |(m : ℚ)| * (2 : ℚ) ^ k
          ≤ |(m : ℚ)| * (2 : ℚ) ^ (Float32.exponent y - 24) :=
            mul_le_mul_of_nonneg_left hpow (abs_nonneg _)
        _ < 2 ^ 24 * (2 : ℚ) ^ (Float32.exponent y - 24) :=
            mul_lt_mul_of_pos_right hmq (zpow_pos (by norm_num) _)
        _ = (2 : ℚ) ^ Float32.exponent y := by
            rw [zpow_sub₀ (by norm_num : (2 : ℚ) ≠ 0)]
            field_simp
            ring
    have hup : (m : ℚ) * (2 : ℚ) ^ k < (2 : ℚ) ^ Float32.exponent y :=
      lt_of_le_of_lt (le_abs_self _) hfabs
    have hlow : -(2 : ℚ) ^ Float32.exponent y < (m : ℚ) * (2 : ℚ) ^ k := by
      have := neg_abs_le ((m : ℚ) * (2 : ℚ) ^ k)
      linarith
    rcases lt_or_gt_of_ne hy with hneg | hpos
    · have h1 : |y| = -y := abs_of_neg hneg
      have hd := round_dist y (-(2 ^ 23 : ℤ))
      have hb : ((-(2 ^ 23 : ℤ) : ℤ) : ℚ) * Float32.ulp y = -(2 : ℚ) ^ Float32.exponent y := by
        rw [← binade_eq y]; push_cast; ring
      rw [hb, abs_of_nonneg (by linarith : 0 ≤ -(2 : ℚ) ^ Float32.exponent y - y)] at hd
      rw [abs_of_nonneg (by linarith : 0 ≤ (m : ℚ) * (2 : ℚ) ^ k - y)]
      linarith
    · have h1 : |y| = y := abs_of_pos hpos
      have hd := round_dist y (2 ^ 23 : ℤ)
      rw [binade_eq y, abs_sub_comm ((2 : ℚ) ^ Float32.exponent y) y,
        abs_of_nonneg (by linarith : 0 ≤ y - (2 : ℚ) ^ Float32.exponent y)] at hd
      rw [abs_sub_comm ((m : ℚ) * (2 : ℚ) ^ k) y,
        abs_of_nonneg (by linarith : 0 ≤ y - (m : ℚ) * (2 : ℚ) ^ k)]
      linarith

/-- A float32 value is its own rounding. -/
theorem round_of_representable (f : ℚ) (hf : Float32.Representable f) :
    Float32.round f = f := by
  have h := round_nearest f f hf
  rw [sub_self, abs_zero] at h
  have h0 : |Float32.round f - f| = 0 := le_antisymm h (abs_nonneg _)
  have := abs_eq_zero.mp h0
  linarith

/-- The rounding of any number is a float32 value. -/
theorem round_representable (x : ℚ) : Float32.Representable (Float32.round x) := by
  have hq : 0 < Float32.ulp x := ulp_pos x
  have hlt : |x / Float32.ulp x| < 2 ^ 24 := by
    rw [abs_div, abs_of_pos hq, div_lt_iff₀ hq]
    have h1 := lt_binade x
    have h2 : (2 : ℚ) ^ (Float32.exponent x + 1) = 2 ^ 24 * Float32.ulp x := by
      unfold Float32.ulp
      rw [zpow_sub₀ (by norm_num : (2 : ℚ) ≠ 0), zpow_add₀ (by norm_num : (2 : ℚ) ≠ 0)]
      have : (2 : ℚ) ^ (23 : ℤ) = 2 ^ 23 := by norm_num
      rw [this]
      field_simp
      ring
    rw [← h2]; exact h1
  have hlt2 := abs_lt.mp hlt
  have hfl1 : (⌊x / Float32.ulp x⌋ : ℤ) < 2 ^ 24 := by
    have : ((⌊x / Float32.ulp x⌋ : ℤ) : ℚ) < ((2 ^ 24 : ℤ) : ℚ) := by
      push_cast
      exact lt_of_le_of_lt (Int.floor_le _) hlt2.2
    exact_mod_cast this
  have hfl2 : -(2 ^ 24 : ℤ) ≤ ⌊x / Float32.ulp x⌋ := by
    apply Int.le_floor.mpr
    push_cast
    exact le_of_lt hlt2.1
  have hn1 := nearestEven_floor_le (x / Float32.ulp x)
  have hn2 := nearestEven_le_succ (x / Float32.ulp x)
  have hE := exponent_ge x
  by_cases hbig : |Float32.nearestEven (x / Float32.ulp x)| < 2 ^ 24
  · exact ⟨_, Float32.exponent x - 23, hbig, by omega, rfl⟩
  · have hcase : Float32.nearestEven (x / Float32.ulp x) = 2 ^ 24 ∨
        Float32.nearestEven (x / Float32.ulp x) = -2 ^ 24 := by
      rw [abs_lt, not_and_or] at hbig
      rcases hbig with h | h
      · right; omega
      · left; omega
    have hstep : (2 : ℚ) ^ (Float32.exponent x - 23 + 1) = 2 * Float32.ulp x := by
      unfold Float32.ulp
      rw [zpow_add₀ (by norm_num : (2 : ℚ) ≠ 0)]
      ring
    rcases hcase with h | h
    · refine ⟨2 ^ 23, Float32.exponent x - 23 + 1, by norm_num, by omega, ?_⟩
      unfold Float32.round
      rw [h, hstep]
      push_cast
      ring
    · refine ⟨-2 ^ 23, Float32.exponent x - 23 + 1, by norm_num, by omega, ?_⟩
      unfold Float32.round
      rw [h, hstep]
      push_cast
      ring

/-- Rounding to single precision keeps the order. -/
theorem round_mono (x y : ℚ) (h : x ≤ y) : Float32.round x ≤ Float32.round y := by
  by_contra hlt
  rw [not_le] at hlt
  have h1 := round_nearest (Float32.round x) y (round_representable x)
  have h2 := round_nearest (Float32.round y) x (round_representable y)
  rw [← sq_le_sq] at h1 h2
  have h3 : Float32.round x + Float32.round y ≤ 2 * x := by nlinarith
  have h4 : 2 * y ≤ Float32.round x + Float32.round y := by nlinarith
  have hxy : x = y := by linarith
  rw [hxy] at hlt
  exact lt_irrefl _ hlt

theorem mul13_100 : Float32.mul Float32.lit1_3 100 = 130 := by
  unfold Float32.mul
  rw [round_eq _ 7 8519680 (by norm_num [Float32.lit1_3, abs_of_pos])
    (by norm_num [Float32.lit1_3, abs_of_pos]) (by norm_num)
    (nearestEven_up _ 8519679 (by norm_num [Float32.lit1_3]) (by norm_num [Float32.lit1_3]))]
  norm_num

theorem mul11_100 : Float32.mul Float32.lit1_1 100 = 110 := by
  unfold Float32.mul
  rw [round_eq _ 6 14417920 (by norm_num [Float32.lit1_1, abs_of_pos])
    (by norm_num [Float32.lit1_1, abs_of_pos]) (by norm_num)
    (nearestEven_down _ 14417920 (by norm_num [Float32.lit1_1]) (by norm_num [Float32.lit1_1]))]
  norm_num

theorem mul13_neg10 : Float32.mul Float32.lit1_3 (-10) = -13 := by
  unfold Float32.mul
  rw [round_eq _ 3 (-13631488) (by norm_num [Float32.lit1_3, abs_of_neg])
    (by norm_num [Float32.lit1_3, abs_of_neg]) (by norm_num)
    (by rw [nearestEven_tie _ (-13631488) (by norm_num [Float32.lit1_3])]; decide)]
  norm_num

theorem round_intCast (n : ℤ) (h : |n| < 2 ^ 24) : Float32.round (n : ℚ) = n :=
  round_of_representable _ ⟨n, 0, h, by norm_num, by simp⟩

theorem round_105 : Float32.round 105 = 105 := by
  simpa using round_intCast 105 (by norm_num)

theorem round_115 : Float32.round 115 = 115 := by
  simpa using round_intCast 115 (by norm_num)

theorem round_140 : Float32.round 140 = 140 := by
  simpa using round_intCast 140 (by norm_num)

theorem round_neg12 : Float32.round (-12) = -12 := by
  simpa using round_intCast (-12) (by norm_num)

/-- C3: for an owner that is a creature, `isValidProcess` returns false exactly
when the victim or the owner is absent, or they are the same unit, or the
victim is a player in game-master mode, or one of them is not alive, or they
are not in the same map or not in the same phase, or the ability is present and
has the no-threat attribute; in every other case it returns true. -/
theorem isValidProcess_false_iff (w : World) (victim owner : Option ObjectGuid)
    (ability : Option SpellInfo)
    (hcreature : ∀ o, owner = some o → w.GetTypeId o = TypeID.TYPEID_UNIT) :
    (ThreatCalcHelper.isValidProcess w victim owner ability = some false ↔
      (victim = none ∨ owner = none ∨ victim = owner ∨
        (∃ v, victim = some v ∧ w.GetTypeId v = TypeID.TYPEID_PLAYER ∧ w.IsGameMaster v = true) ∨
        (∃ v, victim = some v ∧ w.IsAlive v = false) ∨
        (∃ o, owner = some o ∧ w.IsAlive o = false) ∨
        (∃ v o, victim = some v ∧ owner = some o ∧
          (w.IsInMap v o = false ∨ w.InSamePhase v o = false)) ∨
        (∃ s, ability = some s ∧ s.noThreat = true))) ∧
    (ThreatCalcHelper.isValidProcess w victim owner ability = some false ∨
      ThreatCalcHelper.isValidProcess w victim owner ability = some true) := by
  cases victim with
  | none => cases owner <;> simp [ThreatCalcHelper.isValidProcess]
  | some v =>
    cases owner with
    | none => simp [ThreatCalcHelper.isValidProcess]
    | some o =>
      have ho := hcreature o rfl
      cases ability with
      | none =>
        simp only [ThreatCalcHelper.isValidProcess, ho]
        split_ifs <;> simp_all
        tauto
      | some s =>
        simp only [ThreatCalcHelper.isValidProcess, ho]
        split_ifs <;> simp_all
        tauto

/-- Witness of C3 in the plain world: a creature is not a valid victim of itself. -/
theorem isValidProcess_false_iff_witness :
    (∀ o, some 1 = some o → World.plain.GetTypeId o = TypeID.TYPEID_UNIT) ∧
    ThreatCalcHelper.isValidProcess World.plain (some 1) (some 1) none = some false :=
  ⟨fun _ _ => rfl,
    (isValidProcess_false_iff World.plain (some 1) (some 1) none (fun _ _ => rfl)).1.2
      (Or.inr (Or.inr (Or.inl rfl)))⟩

/-- C4: `addThreat` for a pair that `isValidProcess` rejects returns the state
it was given: both containers, every reference and its threat, the current
victim, the dirty flag, the timer and the record of delivered events are
unchanged and no reference is allocated. -/
theorem addThreat_ineligible_noop (w : World) (depth : Nat) (m : ThreatMgr)
    (victim : Option ObjectGuid) (amount : ℚ) (school : SpellSchoolMask)
    (ability : Option SpellInfo)
    (h : ThreatCalcHelper.isValidProcess w victim m.iOwner ability = some false) :
    ThreatMgr.addThreat w (depth + 1) m victim amount school ability = some m := by
  simp [ThreatMgr.addThreat, ThreatMgr.addThreatBody, h]

/-- Witness of C4: in the plain world the owner, unit 0, adds threat to itself. -/
theorem addThreat_ineligible_noop_witness :
    ThreatCalcHelper.isValidProcess World.plain (some 0) (ThreatMgr.single 10).iOwner none
        = some false ∧
      ThreatMgr.addThreat World.plain 1 (ThreatMgr.single 10) (some 0) 25
        SPELL_SCHOOL_MASK_NORMAL none = some (ThreatMgr.single 10) :=
  ⟨rfl, addThreat_ineligible_noop World.plain 0 (ThreatMgr.single 10) (some 0) 25
    SPELL_SCHOOL_MASK_NORMAL none rfl⟩

/-! ## Percent modification -/

/-- C7: on a reference whose threat is at most 0, `addThreatPercent` returns the
state unchanged for every percent value, whatever the nested call would do: the
threat stays and nothing is added to the record of delivered events; the same
holds for `modifyThreatPercent` on a victim whose online reference it is. -/
theorem addThreatPercent_nonpositive (w : World)
    (reenter : ThreatMgr → ObjectGuid → Option ThreatMgr) (m : ThreatMgr) (ref : Nat)
    (percent : ℤ) (h : (m.heap ref).iThreat ≤ 0) :
    HostileReference.addThreatPercent w reenter m ref percent = some m ∧
    ∀ (depth : Nat) (victim : Option ObjectGuid),
      m.iThreatContainer.getReferenceByTarget m.heap victim = some ref →
      ThreatMgr.modifyThreatPercent w depth m victim percent = some m := by
  refine ⟨by simp [HostileReference.addThreatPercent, h], ?_⟩
  intro depth victim hv
  simp [ThreatMgr.modifyThreatPercent, ThreatContainer.modifyThreatPercent, hv,
    HostileReference.addThreatPercent, h]

/-- Witness of C7: threat -50 with percent 50 stays -50. -/
theorem addThreatPercent_nonpositive_witness :
    ((ThreatMgr.single (-50)).heap 0).iThreat ≤ 0 ∧
    ThreatMgr.modifyThreatPercent World.plain 0 (ThreatMgr.single (-50)) (some 1) 50
      = some (ThreatMgr.single (-50)) :=
  ⟨by simp [ThreatMgr.single],
    (addThreatPercent_nonpositive World.plain (ThreatMgr.reenter World.plain 0)
      (ThreatMgr.single (-50)) 0 50 (by simp [ThreatMgr.single])).2 0 (some 1) rfl⟩

/-! ## Selection without a previous target -/

/-- With no current victim the first pass, started anywhere before a reference
that is first choice and attack-valid, ends at the first such reference. -/
theorem first_none_eq (w : World) (heap : Nat → HostileReference) (attacker : ObjectGuid)
    (full : List Nat) (e : Nat) (post : List Nat)
    (he : (heap e).linked = true)
    (hchoice : secondChoice w attacker (heap e).iUnitGuid = false)
    (hvalid : attackValid w attacker (heap e).iUnitGuid = true) :
    ∀ pre : List Nat,
      (∀ r ∈ pre, (heap r).linked = true) →
      (∀ r ∈ pre, ¬ (secondChoice w attacker (heap r).iUnitGuid = false ∧
        attackValid w attacker (heap r).iUnitGuid = true)) →
      selectNextVictim.first w heap attacker none full (pre ++ e :: post) = some (some e) := by
  intro pre
  induction pre with
  | nil =>
    intro _ _
    simp [selectNextVictim.first, HostileReference.getTarget, he, hchoice,
      selectNextVictim.consider, hvalid]
  | cons r pre ih =>
    intro hlinked hnot
    have hr : (heap r).linked = true := hlinked r (List.mem_cons_self _ _)
    have ih1 := ih (fun x hx => hlinked x (List.mem_cons_of_mem _ hx))
      (fun x hx => hnot x (List.mem_cons_of_mem _ hx))
    have hq := hnot r (List.mem_cons_self _ _)
    by_cases hc : secondChoice w attacker (heap r).iUnitGuid = true
    · simp [selectNextVictim.first, HostileReference.getTarget, hr, hc, ih1]
    · have hc1 : secondChoice w attacker (heap r).iUnitGuid = false := by simpa using hc
      have hv : attackValid w attacker (heap r).iUnitGuid = false := by
        cases hav : attackValid w attacker (heap r).iUnitGuid
        · rfl
        · exact absurd ⟨hc1, hav⟩ hq
      simp [selectNextVictim.first, HostileReference.getTarget, hr, hc1,
        selectNextVictim.consider, hv, ih1]

/-- C9: with no current victim, if the online list is `pre ++ e :: post`, the
reference `e` is first choice (not immune, no breakable aura, not ignoring the
attacker) and attack-valid, no reference of `pre` is both, and the references
up to `e` have their target (the `ASSERT` of the loop), then `selectNextVictim`
returns `e`; when the list is ordered by non-increasing threat, `e` has the
highest threat among the references that are first choice and attack-valid. -/
theorem selectNextVictim_none_first (w : World) (heap : Nat → HostileReference)
    (c : ThreatContainer) (attacker : ObjectGuid) (pre post : List Nat) (e : Nat)
    (hlist : c.iThreatList = pre ++ e :: post)
    (hpre : ∀ r ∈ pre, (heap r).linked = true)
    (he : (heap e).linked = true)
    (hchoice : secondChoice w attacker (heap e).iUnitGuid = false)
    (hvalid : attackValid w attacker (heap e).iUnitGuid = true)
    (hfirst : ∀ r ∈ pre, ¬ (secondChoice w attacker (heap r).iUnitGuid = false ∧
      attackValid w attacker (heap r).iUnitGuid = true)) :
    c.selectNextVictim w heap attacker none = some (some e) ∧
    (c.iThreatList.Pairwise (fun a b => (heap a).getThreat ≥ (heap b).getThreat) →
      ∀ r ∈ c.iThreatList, secondChoice w attacker (heap r).iUnitGuid = false →
        attackValid w attacker (heap r).iUnitGuid = true →
        (heap r).getThreat ≤ (heap e).getThreat) := by
  constructor
  · simp only [ThreatContainer.selectNextVictim, Option.bind_eq_bind, Option.some_bind, hlist]
    exact first_none_eq w heap attacker _ e post he hchoice hvalid pre hpre hfirst
  · intro hsorted r hr hrc hrv
    rw [hlist] at hsorted hr
    rw [List.pairwise_append] at hsorted
    rcases List.mem_append.1 hr with hr | hr
    · exact absurd ⟨hrc, hrv⟩ (hfirst r hr)
    · rcases List.mem_cons.1 hr with hr | hr
      · rw [hr]
      · exact (List.pairwise_cons.1 hsorted.2.1).1 r hr

/-- Witness of C9: of the references 0 (unit 1, immune) and 1 (unit 2), the
second is returned when every unit can be attacked. -/
theorem selectNextVictim_none_first_witness :
    ThreatContainer.selectNextVictim
      { World.plain with IsImmunedToDamageOrSchool := fun target _ => target == 1 }
      heapTwo ⟨[0, 1], false⟩ 0 none = some (some 1) :=
  (selectNextVictim_none_first
    { World.plain with IsImmunedToDamageOrSchool := fun target _ => target == 1 }
    heapTwo ⟨[0, 1], false⟩ 0 [0] [] 1 rfl (by simp [heapTwo]) (by simp [heapTwo])
    (by simp [secondChoice, heapTwo, World.plain])
    (by simp [attackValid, World.plain])
    (by simp [secondChoice, heapTwo, World.plain])).1

/-- C10, the code at the failing input: the online list holds reference 0
(unit 1: attack-valid, immune) and then reference 1 (unit 2: not immune, cannot
be attacked), there is no current victim. No reference is both first choice and
attack-valid and reference 0 passes the attack-validity test, yet the scan ends
at the last element without a second pass and returns null. -/
theorem selectNextVictim_no_fallback :
    (∀ r ∈ [0, 1], ¬ (secondChoice World.immuneThenUnattackable 0 (heapTwo r).iUnitGuid = false ∧
      attackValid World.immuneThenUnattackable 0 (heapTwo r).iUnitGuid = true)) ∧
    attackValid World.immuneThenUnattackable 0 (heapTwo 0).iUnitGuid = true ∧
    ThreatContainer.selectNextVictim World.immuneThenUnattackable heapTwo ⟨[0, 1], false⟩ 0 none
      = some none := by
  refine ⟨?_, ?_, ?_⟩
  · intro r hr
    simp only [List.mem_cons, List.mem_singleton, List.not_mem_nil, or_false] at hr
    rcases hr with rfl | rfl <;>
      simp [secondChoice, attackValid, heapTwo, World.immuneThenUnattackable, World.plain]
  · simp [attackValid, heapTwo, World.immuneThenUnattackable, World.plain]
  · simp [ThreatContainer.selectNextVictim, selectNextVictim.first, selectNextVictim.consider,
      HostileReference.getTarget, secondChoice, attackValid, heapTwo,
      World.immuneThenUnattackable, World.plain]

/-! ## Lookup by GUID in a well-formed table -/

theorem find_of_nodup (heap : Nat → HostileReference) :
    ∀ l : List Nat, (l.map (fun r => (heap r).iUnitGuid)).Nodup → ∀ r ∈ l,
      l.find? (fun x => (heap x).iUnitGuid == (heap r).iUnitGuid) = some r := by
  intro l
  induction l with
  | nil => intro _ r hr; cases hr
  | cons a t ih =>
    intro hnd r hr
    rw [List.map_cons, List.nodup_cons] at hnd
    rcases List.mem_cons.1 hr with rfl | hrt
    · simp [List.find?]
    · have hne : (heap a).iUnitGuid ≠ (heap r).iUnitGuid := by
        intro heq
        exact hnd.1 (heq ▸ List.mem_map_of_mem (fun r => (heap r).iUnitGuid) hrt)
      have hb : ((heap a).iUnitGuid == (heap r).iUnitGuid) = false := by simpa using hne
      rw [List.find?_cons, hb]
      exact ih hnd.2 r hrt

theorem getThreat_eq_find (m : ThreatMgr) (g : ObjectGuid) :
    m.getThreat (some g) true =
      match m.refs.find? (fun x => (m.heap x).iUnitGuid == g) with
      | some r => (m.heap r).getThreat
      | none => 0 := by
  simp only [ThreatMgr.getThreat, ThreatContainer.getReferenceByTarget, ThreatMgr.refs,
    List.find?_append]
  cases h : m.iThreatContainer.iThreatList.find? (fun x => (m.heap x).iUnitGuid == g) <;> simp

theorem getThreatWithoutTemp_eq_find (m : ThreatMgr) (g : ObjectGuid) :
    m.getThreatWithoutTemp (some g) true =
      match m.refs.find? (fun x => (m.heap x).iUnitGuid == g) with
      | some r => (m.heap r).iThreat
      | none => 0 := by
  simp only [ThreatMgr.getThreatWithoutTemp, ThreatContainer.getReferenceByTarget,
    ThreatMgr.refs, List.find?_append, HostileReference.getThreat]
  cases h : m.iThreatContainer.iThreatList.find? (fun x => (m.heap x).iUnitGuid == g) <;> simp

theorem find_of_mem (m : ThreatMgr) (hwf : m.WellFormed) (r : Nat) (hr : r ∈ m.refs) :
    m.refs.find? (fun x => (m.heap x).iUnitGuid == (m.heap r).iUnitGuid) = some r :=
  find_of_nodup m.heap m.refs hwf.unique r hr

theorem find_none_of_not_mem (m : ThreatMgr) (g : ObjectGuid)
    (h : ∀ r ∈ m.refs, (m.heap r).iUnitGuid ≠ g) :
    m.refs.find? (fun x => (m.heap x).iUnitGuid == g) = none := by
  rw [List.find?_eq_none]
  intro x hx
  simpa using h x hx

theorem mem_or_absent (m : ThreatMgr) (g : ObjectGuid) :
    (∃ r ∈ m.refs, (m.heap r).iUnitGuid = g) ∨ (∀ r ∈ m.refs, (m.heap r).iUnitGuid ≠ g) := by
  by_cases h : ∃ r ∈ m.refs, (m.heap r).iUnitGuid = g
  · exact Or.inl h
  · right
    intro r hr hg
    exact h ⟨r, hr, hg⟩

/-! ## Building and composing summaries -/

theorem modifyRef_heap (m : ThreatMgr) (ref : Nat) (f : HostileReference → HostileReference)
    (x : Nat) : (m.modifyRef ref f).heap x = if x = ref then f (m.heap ref) else m.heap x := by
  by_cases h : x = ref
  · subst h; simp [ThreatMgr.modifyRef]
  · simp [ThreatMgr.modifyRef, Function.update_noteq h, h]

theorem wf_of_same_lists (m m' : ThreatMgr) (hwf : m.WellFormed)
    (hon : m'.iThreatContainer.iThreatList = m.iThreatContainer.iThreatList)
    (hoff : m'.iThreatOfflineContainer.iThreatList = m.iThreatOfflineContainer.iThreatList)
    (hnext : m.nextRef ≤ m'.nextRef)
    (hguid : ∀ r ∈ m.refs, (m'.heap r).iUnitGuid = (m.heap r).iUnitGuid)
    (hflag : ∀ r ∈ m.refs, (m'.heap r).iOnline = (m.heap r).iOnline) :
    m'.WellFormed := by
  have hrefs : m'.refs = m.refs := by simp [ThreatMgr.refs, hon, hoff]
  refine ⟨?_, ?_, ?_, ?_⟩
  · intro r hr
    rw [hrefs] at hr
    exact lt_of_lt_of_le (hwf.allocated r hr) hnext
  · rw [hrefs]
    have : m.refs.map (fun r => (m'.heap r).iUnitGuid)
        = m.refs.map (fun r => (m.heap r).iUnitGuid) :=
      List.map_congr_left (fun r hr => hguid r hr)
    rw [this]
    exact hwf.unique
  · intro r hr
    rw [hon] at hr
    have hmem : r ∈ m.refs := List.mem_append_left _ hr
    rw [hflag r hmem]
    exact hwf.online r hr
  · intro r hr
    rw [hoff] at hr
    have hmem : r ∈ m.refs := List.mem_append_right _ hr
    rw [hflag r hmem]
    exact hwf.offline r hr

theorem adds_of_heap (m m' : ThreatMgr) (victim : Option ObjectGuid) (d : ℚ)
    (hwf : m.WellFormed) (hwf' : m'.WellFormed) (howner : m'.iOwner = m.iOwner)
    (hmem : ∀ r ∈ m.refs, r ∈ m'.refs)
    (hguid : ∀ r ∈ m.refs, (m'.heap r).iUnitGuid = (m.heap r).iUnitGuid)
    (hthreat : ∀ r ∈ m.refs, (m'.heap r).iThreat =
      (m.heap r).iThreat + (if victim = some (m.heap r).iUnitGuid then d else 0))
    (htemp : ∀ r ∈ m.refs,
      (m'.heap r).iTempThreatModifier = (m.heap r).iTempThreatModifier)
    (hnew : ∀ r ∈ m'.refs, r ∉ m.refs →
      (m'.heap r).iThreat = 0 ∧ (m'.heap r).iTempThreatModifier = 0)
    (hpresent : d ≠ 0 → ∀ g, victim = some g → ∃ r ∈ m.refs, (m.heap r).iUnitGuid = g) :
    Adds m m' victim d := by
  have key : ∀ g,
      (m'.getThreatWithoutTemp (some g) true =
        m.getThreatWithoutTemp (some g) true + (if victim = some g then d else 0)) ∧
      (m'.getThreat (some g) true =
        m.getThreat (some g) true + (if victim = some g then d else 0)) := by
    intro g
    rw [getThreatWithoutTemp_eq_find, getThreatWithoutTemp_eq_find, getThreat_eq_find,
      getThreat_eq_find]
    rcases mem_or_absent m g with ⟨r, hr, hg⟩ | habs
    · have h1 := find_of_mem m hwf r hr
      have h2 := find_of_mem m' hwf' r (hmem r hr)
      rw [hguid r hr] at h2
      rw [hg] at h1 h2
      rw [h1, h2]
      have ht := hthreat r hr
      rw [hg] at ht
      simp only [HostileReference.getThreat, ht, htemp r hr]
      constructor
      · trivial
      · ring
    · have h1 := find_none_of_not_mem m g habs
      have hzero : (if victim = some g then d else 0) = 0 := by
        by_cases hv : victim = some g
        · by_cases hd : d = 0
          · simp [hd]
          · obtain ⟨r, hr, hg⟩ := hpresent hd g hv
            exact absurd hg (habs r hr)
        · simp [hv]
      rw [h1, hzero]
      rcases mem_or_absent m' g with ⟨r, hr, hg⟩ | habs'
      · have h2 := find_of_mem m' hwf' r hr
        rw [hg] at h2
        rw [h2]
        have hnot : r ∉ m.refs := by
          intro hin
          exact habs r hin ((hguid r hin).symm.trans hg)
        obtain ⟨h3, h4⟩ := hnew r hr hnot
        simp [HostileReference.getThreat, h3, h4]
      · rw [find_none_of_not_mem m' g habs']
        simp
  exact ⟨hwf', howner, hmem, hguid, fun g => (key g).1, fun g => (key g).2⟩

theorem Adds.unchanged (m : ThreatMgr) (hwf : m.WellFormed) (victim : Option ObjectGuid) :
    Adds m m victim 0 :=
  ⟨hwf, rfl, fun _ h => h, fun _ _ => rfl, fun _ => by simp, fun _ => by simp⟩

theorem Adds.zero_victim {m m' : ThreatMgr} {v : Option ObjectGuid} (h : Adds m m' v 0)
    (v' : Option ObjectGuid) : Adds m m' v' 0 :=
  ⟨h.wf, h.owner, h.mem, h.guid,
    fun g => by have := h.threat g; simpa using this,
    fun g => by have := h.total g; simpa using this⟩

theorem Adds.then_zero {m m1 m2 : ThreatMgr} {v v' : Option ObjectGuid} {d : ℚ}
    (h1 : Adds m m1 v d) (h2 : Adds m1 m2 v' 0) : Adds m m2 v d :=
  ⟨h2.wf, h2.owner.trans h1.owner, fun r hr => h2.mem r (h1.mem r hr),
    fun r hr => (h2.guid r (h1.mem r hr)).trans (h1.guid r hr),
    fun g => by
      have a := h1.threat g
      have b := h2.threat g
      simp only [ite_self, add_zero] at b
      rw [b, a],
    fun g => by
      have a := h1.total g
      have b := h2.total g
      simp only [ite_self, add_zero] at b
      rw [b, a]⟩

theorem Adds.zero_then {m m1 m2 : ThreatMgr} {v v' : Option ObjectGuid} {d : ℚ}
    (h1 : Adds m m1 v' 0) (h2 : Adds m1 m2 v d) : Adds m m2 v d :=
  ⟨h2.wf, h2.owner.trans h1.owner, fun r hr => h2.mem r (h1.mem r hr),
    fun r hr => (h2.guid r (h1.mem r hr)).trans (h1.guid r hr),
    fun g => by
      have a := h1.threat g
      have b := h2.threat g
      simp only [ite_self, add_zero] at a
      rw [b, a],
    fun g => by
      have a := h1.total g
      have b := h2.total g
      simp only [ite_self, add_zero] at a
      rw [b, a]⟩

theorem Quiet.idle (m : ThreatMgr) (hwf : m.WellFormed) : Quiet m m :=
  ⟨Adds.unchanged m hwf none, rfl⟩

theorem Quiet.andThen {m m1 m2 : ThreatMgr} (h1 : Quiet m m1) (h2 : Quiet m1 m2) : Quiet m m2 :=
  ⟨h1.adds.then_zero h2.adds, h2.events.trans h1.events⟩

/-! ## Events -/

theorem threatChanges_append (a b : List Notice) :
    threatChanges (a ++ b) = threatChanges a ++ threatChanges b := by
  induction a with
  | nil => rfl
  | cons n rest ih =>
    cases n with
    | threatEvent ev =>
      obtain ⟨ty, ref, f⟩ := ev
      cases ty <;> simp [threatChanges, ih]
    | changeCurrentVictimOpcode r => simp [threatChanges, ih]
    | removeFromThreatListOpcode r => simp [threatChanges, ih]

theorem processThreatEvent_threatChange (w : World) (m : ThreatMgr) (ref : Nat) (d : ℚ) :
    ∃ m', m.processThreatEvent w ⟨.UEV_THREAT_REF_THREAT_CHANGE, ref, d⟩ = some m' ∧
      m'.heap = m.heap ∧ m'.nextRef = m.nextRef ∧ m'.iOwner = m.iOwner ∧
      m'.iCurrentVictim = m.iCurrentVictim ∧
      m'.iThreatContainer.iThreatList = m.iThreatContainer.iThreatList ∧
      m'.iThreatOfflineContainer = m.iThreatOfflineContainer ∧
      m'.delivered = m.delivered ++
        [Notice.threatEvent ⟨.UEV_THREAT_REF_THREAT_CHANGE, ref, d⟩] := by
  simp only [ThreatMgr.processThreatEvent]
  split_ifs
  · exact ⟨_, rfl, rfl, rfl, rfl, rfl, rfl, rfl, rfl⟩
  · exact ⟨_, rfl, rfl, rfl, rfl, rfl, rfl, rfl, rfl⟩

theorem processThreatEvent_onlineStatus (w : World) (m : ThreatMgr) (ref : Nat) (d : ℚ) :
    ∃ m', m.processThreatEvent w ⟨.UEV_THREAT_REF_ONLINE_STATUS, ref, d⟩ = some m' ∧
      m'.heap = m.heap ∧ m'.nextRef = m.nextRef ∧ m'.iOwner = m.iOwner ∧
      threatChanges m'.delivered = threatChanges m.delivered ∧
      m'.iThreatContainer.iThreatList =
        (if (m.heap ref).iOnline = false then
          m.iThreatContainer.iThreatList.filter (fun r => r != ref)
        else m.iThreatContainer.iThreatList ++ [ref]) ∧
      m'.iThreatOfflineContainer.iThreatList =
        (if (m.heap ref).iOnline = false then
          m.iThreatOfflineContainer.iThreatList ++ [ref]
        else m.iThreatOfflineContainer.iThreatList.filter (fun r => r != ref)) := by
  simp only [ThreatMgr.processThreatEvent]
  by_cases hon : (m.heap ref).iOnline = false
  · simp only [hon, if_true]
    by_cases hcv : some ref = m.iCurrentVictim
    · cases ho : m.iOwner with
      | none =>
        simp [hcv.symm, ThreatMgr.setCurrentVictim, ThreatMgr.setDirty, ho,
          ThreatContainer.remove, ThreatContainer.addReference, threatChanges_append,
          threatChanges]
      | some o =>
        by_cases hs : w.IsInWorld o = true ∧ w.GetUnit o (m.heap ref).iUnitGuid = true ∧
            w.IsInMap o (m.heap ref).iUnitGuid = true
        · simp [hcv.symm, ThreatMgr.setCurrentVictim, ThreatMgr.setDirty, ho, hs,
            ThreatContainer.remove, ThreatContainer.addReference, threatChanges_append,
            threatChanges]
        · simp [hcv.symm, ThreatMgr.setCurrentVictim, ThreatMgr.setDirty, ho, hs,
            ThreatContainer.remove, ThreatContainer.addReference, threatChanges_append,
            threatChanges]
    · cases ho : m.iOwner with
      | none =>
        simp [hcv, ThreatMgr.setCurrentVictim, ThreatMgr.setDirty, ho,
          ThreatContainer.remove, ThreatContainer.addReference, threatChanges_append,
          threatChanges]
      | some o =>
        by_cases hs : w.IsInWorld o = true ∧ w.GetUnit o (m.heap ref).iUnitGuid = true ∧
            w.IsInMap o (m.heap ref).iUnitGuid = true
        · simp [hcv, ThreatMgr.setCurrentVictim, ThreatMgr.setDirty, ho, hs,
            ThreatContainer.remove, ThreatContainer.addReference, threatChanges_append,
            threatChanges]
        · simp [hcv, ThreatMgr.setCurrentVictim, ThreatMgr.setDirty, ho, hs,
            ThreatContainer.remove, ThreatContainer.addReference, threatChanges_append,
            threatChanges]
  · have hon1 : (m.heap ref).iOnline = true := by simpa using hon
    cases hcv : m.iCurrentVictim with
    | none =>
      simp [hon1, hcv, ThreatMgr.setDirty, ThreatContainer.remove, ThreatContainer.addReference,
        threatChanges_append, threatChanges]
    | some cv =>
      by_cases hgt : Float32.round (m.heap ref).getThreat >
          Float32.mul Float32.lit1_1 (m.heap cv).getThreat
      · simp [hon1, hcv, hgt, ThreatMgr.setDirty, ThreatContainer.remove,
          ThreatContainer.addReference, threatChanges_append, threatChanges]
      · simp [hon1, hcv, hgt, ThreatMgr.setDirty, ThreatContainer.remove,
          ThreatContainer.addReference, threatChanges_append, threatChanges]

/-! ## Moving a reference between the two lists -/

theorem perm_move_right (A B : List Nat) (r : Nat) (hA : r ∈ A) (hnd : (A ++ B).Nodup) :
    (A.filter (fun x => x != r) ++ (B ++ [r])).Perm (A ++ B) := by
  rw [List.nodup_append] at hnd
  have h1 : A.filter (fun x => x != r) = A.erase r := by
    rw [hnd.1.erase_eq_filter]
  rw [h1]
  have h2 : (A.erase r ++ (B ++ [r])).Perm (r :: A.erase r ++ B) := by
    rw [← List.append_assoc]
    exact List.perm_append_singleton r _ |>.trans (by simp)
  exact h2.trans ((List.perm_cons_erase hA).symm.append_right B)

theorem perm_move_left (A B : List Nat) (r : Nat) (hB : r ∈ B) (hnd : (A ++ B).Nodup) :
    ((A ++ [r]) ++ B.filter (fun x => x != r)).Perm (A ++ B) := by
  rw [List.nodup_append] at hnd
  have h1 : B.filter (fun x => x != r) = B.erase r := by
    rw [hnd.2.1.erase_eq_filter]
  rw [h1, List.append_assoc]
  exact (List.perm_cons_erase hB).symm.append_left A

theorem ThreatMgr.WellFormed.nodup_refs {m : ThreatMgr} (hwf : m.WellFormed) : m.refs.Nodup :=
  List.Nodup.of_map _ hwf.unique

theorem ThreatMgr.WellFormed.mem_online {m : ThreatMgr} (hwf : m.WellFormed) {r : Nat}
    (hr : r ∈ m.refs)
    (hflag : (m.heap r).iOnline = true) : r ∈ m.iThreatContainer.iThreatList := by
  rcases List.mem_append.1 hr with h | h
  · exact h
  · have := hwf.offline r h
    rw [hflag] at this
    cases this

theorem ThreatMgr.WellFormed.mem_offline {m : ThreatMgr} (hwf : m.WellFormed) {r : Nat}
    (hr : r ∈ m.refs)
    (hflag : (m.heap r).iOnline = false) : r ∈ m.iThreatOfflineContainer.iThreatList := by
  rcases List.mem_append.1 hr with h | h
  · have := hwf.online r h
    rw [hflag] at this
    cases this
  · exact h

/-- Well-formedness after the lists were permuted and only the flag of `ref`
was rewritten to match its new list. -/
theorem wf_of_perm (m m' : ThreatMgr) (ref : Nat) (hwf : m.WellFormed)
    (hnext : m'.nextRef = m.nextRef)
    (hperm : m'.refs.Perm m.refs)
    (hguid : ∀ r, (m'.heap r).iUnitGuid = (m.heap r).iUnitGuid)
    (hflag : ∀ r, r ≠ ref → (m'.heap r).iOnline = (m.heap r).iOnline)
    (hon : ∀ r ∈ m'.iThreatContainer.iThreatList,
      r = ref ∧ (m'.heap ref).iOnline = true ∨ r ≠ ref ∧ r ∈ m.iThreatContainer.iThreatList)
    (hoff : ∀ r ∈ m'.iThreatOfflineContainer.iThreatList,
      r = ref ∧ (m'.heap ref).iOnline = false ∨
        r ≠ ref ∧ r ∈ m.iThreatOfflineContainer.iThreatList) :
    m'.WellFormed := by
  refine ⟨?_, ?_, ?_, ?_⟩
  · intro r hr
    rw [hnext]
    exact hwf.allocated r (hperm.mem_iff.1 hr)
  · have h1 : m'.refs.map (fun r => (m'.heap r).iUnitGuid)
        = m'.refs.map (fun r => (m.heap r).iUnitGuid) :=
      List.map_congr_left (fun r _ => hguid r)
    rw [h1]
    exact (hperm.map _).nodup_iff.2 hwf.unique
  · intro r hr
    rcases hon r hr with ⟨rfl, h⟩ | ⟨hne, h⟩
    · exact h
    · rw [hflag r hne]
      exact hwf.online r h
  · intro r hr
    rcases hoff r hr with ⟨rfl, h⟩ | ⟨hne, h⟩
    · exact h
    · rw [hflag r hne]
      exact hwf.offline r h

theorem setOnlineOfflineState_spec (w : World) (m : ThreatMgr) (ref : Nat) (b : Bool)
    (hwf : m.WellFormed) (hr : ref ∈ m.refs) :
    ∃ m', HostileReference.setOnlineOfflineState w m ref b = some m' ∧ m'.WellFormed ∧
      StatusOnly m m' ∧ (∀ r, (m'.heap r).linked = (m.heap r).linked) ∧
      (m'.heap ref).iOnline = b := by
  by_cases h : (m.heap ref).iOnline = b
  · exact ⟨m, by simp [HostileReference.setOnlineOfflineState, h], hwf,
      ⟨rfl, rfl, fun _ => Iff.rfl, fun _ => rfl, fun _ => rfl, fun _ => rfl, rfl⟩,
      fun _ => rfl, h⟩
  · obtain ⟨m', hm', hheap, hnext, hown, hev, hon, hoff⟩ :=
      processThreatEvent_onlineStatus w
        (m.modifyRef ref (fun e => { e with iOnline := b })) ref 0
    have hh : ∀ x,
        m'.heap x = if x = ref then { m.heap ref with iOnline := b } else m.heap x := by
      intro x
      rw [hheap, modifyRef_heap]
    have hself : (m'.heap ref).iOnline = b := by rw [hh]; simp
    have hguid : ∀ r, (m'.heap r).iUnitGuid = (m.heap r).iUnitGuid := by
      intro r; rw [hh]; split_ifs with hx
      · rw [hx]
      · rfl
    have hthreat : ∀ r, (m'.heap r).iThreat = (m.heap r).iThreat := by
      intro r; rw [hh]; split_ifs with hx
      · rw [hx]
      · rfl
    have htemp : ∀ r, (m'.heap r).iTempThreatModifier = (m.heap r).iTempThreatModifier := by
      intro r; rw [hh]; split_ifs with hx
      · rw [hx]
      · rfl
    have hlinked : ∀ r, (m'.heap r).linked = (m.heap r).linked := by
      intro r; rw [hh]; split_ifs with hx
      · rw [hx]
      · rfl
    have hflag : ∀ r, r ≠ ref → (m'.heap r).iOnline = (m.heap r).iOnline := by
      intro r hne; rw [hh]; simp [hne]
    have hm1 : ((m.modifyRef ref (fun e => { e with iOnline := b })).heap ref).iOnline = b := by
      rw [modifyRef_heap]; simp
    rw [hm1] at hon hoff
    have hperm : m'.refs.Perm m.refs := by
      cases b with
      | false =>
        have hold : (m.heap ref).iOnline = true := by simpa using h
        simp only [if_true] at hon hoff
        unfold ThreatMgr.refs
        rw [hon, hoff]
        exact perm_move_right _ _ ref (hwf.mem_online hr hold) hwf.nodup_refs
      | true =>
        have hold : (m.heap ref).iOnline = false := by simpa using h
        simp only [Bool.true_eq_false, if_false] at hon hoff
        unfold ThreatMgr.refs
        rw [hon, hoff]
        exact perm_move_left _ _ ref (hwf.mem_offline hr hold) hwf.nodup_refs
    refine ⟨m', ?_, ?_, ⟨hown, hnext, fun r => hperm.mem_iff, hguid, hthreat, htemp, hev⟩,
      hlinked, hself⟩
    · simp [HostileReference.setOnlineOfflineState, h, HostileReference.fireStatusChanged, hm']
    · refine wf_of_perm m m' ref hwf hnext hperm hguid hflag ?_ ?_
      · intro r hr'
        rw [hon] at hr'
        cases b with
        | false =>
          simp only [if_true, List.mem_filter, bne_iff_ne, ne_eq] at hr'
          exact Or.inr ⟨hr'.2, hr'.1⟩
        | true =>
          simp only [Bool.true_eq_false, if_false, List.mem_append, List.mem_singleton] at hr'
          rcases hr' with h1 | h1
          · by_cases hx : r = ref
            · exact Or.inl ⟨hx, hself⟩
            · exact Or.inr ⟨hx, h1⟩
          · exact Or.inl ⟨h1, hself⟩
      · intro r hr'
        rw [hoff] at hr'
        cases b with
        | false =>
          simp only [if_true, List.mem_append, List.mem_singleton] at hr'
          rcases hr' with h1 | h1
          · by_cases hx : r = ref
            · exact Or.inl ⟨hx, hself⟩
            · exact Or.inr ⟨hx, h1⟩
          · exact Or.inl ⟨h1, hself⟩
        | true =>
          simp only [Bool.true_eq_false, if_false, List.mem_filter, bne_iff_ne, ne_eq] at hr'
          exact Or.inr ⟨hr'.2, hr'.1⟩

/-! ## Status-only steps -/

theorem StatusOnly.still (m : ThreatMgr) : StatusOnly m m :=
  ⟨rfl, rfl, fun _ => Iff.rfl, fun _ => rfl, fun _ => rfl, fun _ => rfl, rfl⟩

theorem StatusOnly.followedBy {m m1 m2 : ThreatMgr} (h1 : StatusOnly m m1) (h2 : StatusOnly m1 m2) :
    StatusOnly m m2 :=
  ⟨h2.owner.trans h1.owner, h2.nextRef.trans h1.nextRef,
    fun r => (h2.mem r).trans (h1.mem r),
    fun r => (h2.guid r).trans (h1.guid r),
    fun r => (h2.threat r).trans (h1.threat r),
    fun r => (h2.temp r).trans (h1.temp r),
    h2.events.trans h1.events⟩

theorem StatusOnly.quiet {m m' : ThreatMgr} (h : StatusOnly m m') (hwf : m.WellFormed)
    (hwf' : m'.WellFormed) : Quiet m m' :=
  ⟨adds_of_heap m m' none 0 hwf hwf' h.owner (fun r hr => (h.mem r).2 hr)
      (fun r _ => h.guid r) (fun r _ => by simp [h.threat r]) (fun r _ => h.temp r)
      (fun r hr hnot => absurd ((h.mem r).1 hr) hnot) (fun hd => absurd rfl hd),
    h.events⟩

theorem statusOnly_modifyRef (m : ThreatMgr) (ref : Nat) (f : HostileReference → HostileReference)
    (hg : ∀ e, (f e).iUnitGuid = e.iUnitGuid) (ht : ∀ e, (f e).iThreat = e.iThreat)
    (htemp : ∀ e, (f e).iTempThreatModifier = e.iTempThreatModifier) :
    StatusOnly m (m.modifyRef ref f) := by
  refine ⟨rfl, rfl, fun _ => Iff.rfl, ?_, ?_, ?_, rfl⟩
  · intro r; rw [modifyRef_heap]; split_ifs with hx
    · rw [hg, hx]
    · rfl
  · intro r; rw [modifyRef_heap]; split_ifs with hx
    · rw [ht, hx]
    · rfl
  · intro r; rw [modifyRef_heap]; split_ifs with hx
    · rw [htemp, hx]
    · rfl

theorem wf_modifyRef (m : ThreatMgr) (ref : Nat) (f : HostileReference → HostileReference)
    (hwf : m.WellFormed) (hg : ∀ e, (f e).iUnitGuid = e.iUnitGuid)
    (ho : ∀ e, (f e).iOnline = e.iOnline) : (m.modifyRef ref f).WellFormed := by
  refine wf_of_same_lists m _ hwf rfl rfl (le_refl _) ?_ ?_
  · intro r _; rw [modifyRef_heap]; split_ifs with hx
    · rw [hg, hx]
    · rfl
  · intro r _; rw [modifyRef_heap]; split_ifs with hx
    · rw [ho, hx]
    · rfl

theorem relink_spec (w : World) (m m1 : ThreatMgr) (ref : Nat) (hwf : m.WellFormed)
    (h : HostileReference.relink w m ref = some m1) : m1.WellFormed ∧ StatusOnly m m1 := by
  have hm1 : m1 = m ∨ m1 = m.modifyRef ref (fun e => { e with linked := true }) := by
    unfold HostileReference.relink at h
    split_ifs at h with hl
    · cases ho : m.iOwner with
      | none => simp [ho] at h
      | some o =>
        simp only [ho] at h
        split_ifs at h
        · right; exact (Option.some.inj h).symm
        · left; exact (Option.some.inj h).symm
    · left; exact (Option.some.inj h).symm
  rcases hm1 with rfl | rfl
  · exact ⟨hwf, StatusOnly.still _⟩
  · exact ⟨wf_modifyRef m ref _ hwf (fun _ => rfl) (fun _ => rfl),
      statusOnly_modifyRef m ref _ (fun _ => rfl) (fun _ => rfl) (fun _ => rfl)⟩

theorem updateOnlineStatus_spec (w : World) (m m' : ThreatMgr) (ref : Nat)
    (hwf : m.WellFormed) (hr : ref ∈ m.refs)
    (h : HostileReference.updateOnlineStatus w m ref = some m') :
    m'.WellFormed ∧ StatusOnly m m' := by
  simp only [HostileReference.updateOnlineStatus, Option.bind_eq_bind, Option.bind_eq_some] at h
  obtain ⟨m1, h1, online, _, h3⟩ := h
  obtain ⟨hwf1, hs1⟩ := relink_spec w m m1 ref hwf h1
  obtain ⟨m2, hm2, hwf2, hs2, _, _⟩ :=
    setOnlineOfflineState_spec w m1 ref online hwf1 ((hs1.mem ref).2 hr)
  rw [hm2] at h3
  cases Option.some.inj h3
  exact ⟨hwf2, hs1.followedBy hs2⟩

theorem updateOnlineStatus_total (w : World) (m : ThreatMgr) (ref : Nat) (o : ObjectGuid)
    (hwf : m.WellFormed) (hr : ref ∈ m.refs) (ho : m.iOwner = some o)
    (hc : w.GetTypeId o = TypeID.TYPEID_UNIT) :
    ∃ m', HostileReference.updateOnlineStatus w m ref = some m' := by
  have hrelink : ∃ m1, HostileReference.relink w m ref = some m1 := by
    unfold HostileReference.relink
    rw [ho]
    simp only []
    split_ifs
    · exact ⟨_, rfl⟩
    · exact ⟨_, rfl⟩
    · exact ⟨_, rfl⟩
  obtain ⟨m1, h1⟩ := hrelink
  obtain ⟨hwf1, hs1⟩ := relink_spec w m m1 ref hwf h1
  have ho1 : m1.iOwner = some o := hs1.owner.trans ho
  have honline : ∃ online, HostileReference.canReach w m1 ref = some online := by
    unfold HostileReference.canReach
    rw [ho1]
    simp only [hc, if_true]
    split_ifs
    · exact ⟨_, rfl⟩
    · exact ⟨_, rfl⟩
    · exact ⟨_, rfl⟩
  obtain ⟨online, h2⟩ := honline
  obtain ⟨m2, hm2, _⟩ := setOnlineOfflineState_spec w m1 ref online hwf1 ((hs1.mem ref).2 hr)
  refine ⟨m2, ?_⟩
  simp only [HostileReference.updateOnlineStatus, Option.bind_eq_bind]
  rw [h1, Option.some_bind, h2, Option.some_bind, hm2]

/-! ## `HostileReference::addThreat` -/

theorem adds_modifyRef_threat (m : ThreatMgr) (ref : Nat) (d : ℚ) (hwf : m.WellFormed)
    (hr : ref ∈ m.refs) :
    Adds m (m.modifyRef ref (fun e => { e with iThreat := e.iThreat + d }))
      (some (m.heap ref).iUnitGuid) d := by
  have hwf1 := wf_modifyRef m ref (fun e => { e with iThreat := e.iThreat + d }) hwf
    (fun _ => rfl) (fun _ => rfl)
  refine adds_of_heap m _ _ d hwf hwf1 rfl (fun r h => h) ?_ ?_ ?_ ?_ ?_
  · intro r _; rw [modifyRef_heap]; split_ifs with hx
    · rw [hx]
    · rfl
  · intro r hmem
    rw [modifyRef_heap]
    by_cases hx : r = ref
    · subst hx; simp
    · have hne : (m.heap ref).iUnitGuid ≠ (m.heap r).iUnitGuid := by
        intro heq
        have h1 := find_of_mem m hwf r hmem
        have h2 := find_of_mem m hwf ref hr
        rw [heq] at h2
        rw [h1] at h2
        exact hx (Option.some.inj h2)
      simp [hx, hne]
  · intro r _; rw [modifyRef_heap]; split_ifs with hx
    · rw [hx]
    · rfl
  · intro r h hnot; exact absurd h hnot
  · intro _ g hg
    exact ⟨ref, hr, Option.some.inj hg⟩

theorem threatChange_step (w : World) (m m' : ThreatMgr) (ref : Nat) (d : ℚ)
    (hwf : m.WellFormed)
    (h : HostileReference.fireStatusChanged w m ⟨.UEV_THREAT_REF_THREAT_CHANGE, ref, d⟩
      = some m') :
    Adds m m' none 0 ∧ m'.heap = m.heap ∧
      threatChanges m'.delivered = threatChanges m.delivered ++ [(ref, d)] := by
  obtain ⟨m2, hm2, hheap, hnext, hown, _, hon, hoff, hdel⟩ :=
    processThreatEvent_threatChange w m ref d
  unfold HostileReference.fireStatusChanged at h
  rw [hm2] at h
  cases Option.some.inj h
  have hwf2 : m'.WellFormed :=
    wf_of_same_lists m m' hwf hon (by rw [hoff]) (le_of_eq hnext.symm)
      (fun r _ => by rw [hheap]) (fun r _ => by rw [hheap])
  have hrefs : m'.refs = m.refs := by simp [ThreatMgr.refs, hon, hoff]
  refine ⟨?_, hheap, ?_⟩
  · refine adds_of_heap m m' none 0 hwf hwf2 hown (fun r hr => by rw [hrefs]; exact hr)
      (fun r _ => by rw [hheap]) (fun r _ => by rw [hheap]; simp) (fun r _ => by rw [hheap])
      (fun r hr hnot => absurd (hrefs ▸ hr) hnot) (fun hd => absurd rfl hd)
  · rw [hdel, threatChanges_append]
    rfl

theorem hostileAddThreat_spec (w : World) (reenter : ThreatMgr → ObjectGuid → Option ThreatMgr)
    (m m' : ThreatMgr) (ref : Nat) (d : ℚ) (hwf : m.WellFormed) (hr : ref ∈ m.refs)
    (hre : ∀ s u s', s.WellFormed → reenter s u = some s' → Quiet s s')
    (h : HostileReference.addThreat w reenter m ref d = some m') :
    Adds m m' (some (m.heap ref).iUnitGuid) d ∧
      threatChanges m'.delivered =
        threatChanges m.delivered ++ (if d ≠ 0 then [(ref, d)] else []) := by
  simp only [HostileReference.addThreat, Option.bind_eq_bind, Option.bind_eq_some] at h
  obtain ⟨m2, h2, m3, h3, h4⟩ := h
  have a1 := adds_modifyRef_threat m ref d hwf hr
  have q2 : Quiet (m.modifyRef ref (fun e => { e with iThreat := e.iThreat + d })) m2 := by
    split_ifs at h2
    · obtain ⟨hwf2, hs2⟩ := updateOnlineStatus_spec w _ m2 ref a1.wf (a1.mem ref hr) h2
      exact hs2.quiet a1.wf hwf2
    · cases Option.some.inj h2
      exact Quiet.idle _ a1.wf
  have a3 : Adds m2 m3 none 0 ∧ threatChanges m3.delivered =
      threatChanges m2.delivered ++ (if d ≠ 0 then [(ref, d)] else []) := by
    split_ifs at h3 with hd
    · obtain ⟨a, _, e⟩ := threatChange_step w m2 m3 ref d q2.adds.wf h3
      exact ⟨a, by simpa [hd] using e⟩
    · cases Option.some.inj h3
      exact ⟨Adds.unchanged _ q2.adds.wf none, by simp [hd]⟩
  have q4 : Quiet m3 m' := by
    split_ifs at h4
    · cases hco : w.GetCharmerOrOwner (m3.heap ref).iUnitGuid with
      | none =>
        rw [hco] at h4
        cases Option.some.inj h4
        exact Quiet.idle _ a3.1.wf
      | some u =>
        rw [hco] at h4
        simp only [] at h4
        split_ifs at h4
        · exact hre m3 u m' a3.1.wf h4
        · cases Option.some.inj h4
          exact Quiet.idle _ a3.1.wf
    · cases Option.some.inj h4
      exact Quiet.idle _ a3.1.wf
    · cases Option.some.inj h4
      exact Quiet.idle _ a3.1.wf
  refine ⟨((a1.then_zero q2.adds).then_zero a3.1).then_zero q4.adds, ?_⟩
  rw [q4.events, a3.2, q2.events]
  rfl

/-! ## `ThreatMgr::_addThreat` -/

theorem lookup_some (heap : Nat → HostileReference) (c : ThreatContainer) (g : ObjectGuid)
    (ref : Nat) (h : c.getReferenceByTarget heap (some g) = some ref) :
    ref ∈ c.iThreatList ∧ (heap ref).iUnitGuid = g := by
  simp only [ThreatContainer.getReferenceByTarget] at h
  exact ⟨List.mem_of_find?_eq_some h, by simpa using List.find?_some h⟩

theorem lookup_none (heap : Nat → HostileReference) (c : ThreatContainer) (g : ObjectGuid)
    (h : c.getReferenceByTarget heap (some g) = none) :
    ∀ r ∈ c.iThreatList, (heap r).iUnitGuid ≠ g := by
  simp only [ThreatContainer.getReferenceByTarget, List.find?_eq_none] at h
  intro r hr
  simpa using h r hr

/-- The state after `new HostileReference(victim, this, 0)` and `addReference`. -/
theorem create_spec (m : ThreatMgr) (g : ObjectGuid) (hwf : m.WellFormed)
    (habs : ∀ r ∈ m.refs, (m.heap r).iUnitGuid ≠ g) (m4 : ThreatMgr)
    (hm4 : m4 = { m with
      heap := Function.update m.heap m.nextRef ⟨g, 0, 0, true, true⟩
      nextRef := m.nextRef + 1
      iThreatContainer := m.iThreatContainer.addReference m.nextRef }) :
    m4.WellFormed ∧ Adds m m4 none 0 ∧ m.nextRef ∈ m4.refs ∧
      m4.heap m.nextRef = ⟨g, 0, 0, true, true⟩ ∧ m4.delivered = m.delivered := by
  have hheap : ∀ r ∈ m.refs, m4.heap r = m.heap r := by
    intro r hr
    have hne : r ≠ m.nextRef := Nat.ne_of_lt (hwf.allocated r hr)
    rw [hm4]
    exact Function.update_noteq hne _ _
  have hself : m4.heap m.nextRef = ⟨g, 0, 0, true, true⟩ := by
    rw [hm4]
    exact Function.update_same _ _ _
  have hon : m4.iThreatContainer.iThreatList = m.iThreatContainer.iThreatList ++ [m.nextRef] := by
    rw [hm4]; rfl
  have hoff : m4.iThreatOfflineContainer.iThreatList = m.iThreatOfflineContainer.iThreatList := by
    rw [hm4]
  have hperm : m4.refs.Perm (m.nextRef :: m.refs) := by
    unfold ThreatMgr.refs
    rw [hon, hoff, List.append_assoc]
    exact (List.perm_middle).trans (by simp)
  have hmem : ∀ r ∈ m.refs, r ∈ m4.refs := fun r hr =>
    hperm.mem_iff.2 (List.mem_cons_of_mem _ hr)
  have hnew : m.nextRef ∉ m.refs := fun hin => absurd (hwf.allocated _ hin) (lt_irrefl _)
  have hwf4 : m4.WellFormed := by
    refine ⟨?_, ?_, ?_, ?_⟩
    · intro r hr
      have hn : m4.nextRef = m.nextRef + 1 := by rw [hm4]
      rw [hn]
      rcases List.mem_cons.1 (hperm.mem_iff.1 hr) with h | h
      · rw [h]; exact Nat.lt_succ_self _
      · exact Nat.lt_succ_of_lt (hwf.allocated r h)
    · refine (hperm.map _).nodup_iff.2 ?_
      rw [List.map_cons, List.nodup_cons]
      constructor
      · rw [hself]
        intro hin
        obtain ⟨r, hr, hg⟩ := List.mem_map.1 hin
        rw [hheap r hr] at hg
        exact habs r hr hg
      · have : m.refs.map (fun r => (m4.heap r).iUnitGuid)
            = m.refs.map (fun r => (m.heap r).iUnitGuid) :=
          List.map_congr_left (fun r hr => by rw [hheap r hr])
        rw [this]
        exact hwf.unique
    · intro r hr
      rw [hon] at hr
      rcases List.mem_append.1 hr with h | h
      · rw [hheap r (List.mem_append_left _ h)]
        exact hwf.online r h
      · rw [List.mem_singleton.1 h, hself]
    · intro r hr
      rw [hoff] at hr
      rw [hheap r (List.mem_append_right _ hr)]
      exact hwf.offline r hr
  refine ⟨hwf4, ?_, hperm.mem_iff.2 (List.mem_cons_self _ _), hself, by rw [hm4]⟩
  refine adds_of_heap m m4 none 0 hwf hwf4 (by rw [hm4]) hmem
    (fun r hr => by rw [hheap r hr]) (fun r hr => by rw [hheap r hr]; simp)
    (fun r hr => by rw [hheap r hr]) ?_ (fun hd => absurd rfl hd)
  intro r hr hnot
  rcases List.mem_cons.1 (hperm.mem_iff.1 hr) with h | h
  · rw [h, hself]
    exact ⟨rfl, rfl⟩
  · exact absurd h hnot

theorem _addThreat_spec (w : World) (reenter : ThreatMgr → ObjectGuid → Option ThreatMgr)
    (m m' : ThreatMgr) (victim : ObjectGuid) (d : ℚ) (hwf : m.WellFormed)
    (hre : ∀ s u s', s.WellFormed → reenter s u = some s' → Quiet s s')
    (h : ThreatMgr._addThreat w reenter m (some victim) d = some m') :
    Adds m m' (some victim) d ∧
      (d = 0 → threatChanges m'.delivered = threatChanges m.delivered) ∧
      ∃ r ∈ m'.refs, (m'.heap r).iUnitGuid = victim := by
  cases hon : m.iThreatContainer.getReferenceByTarget m.heap (some victim) with
  | some ref =>
    obtain ⟨hmem, hg⟩ := lookup_some _ _ _ _ hon
    cases hA : HostileReference.addThreat w reenter m ref d with
    | none => simp [ThreatMgr._addThreat, ThreatContainer.addThreat, hon, hA] at h
    | some m1 =>
      simp [ThreatMgr._addThreat, ThreatContainer.addThreat, hon, hA] at h
      subst h
      obtain ⟨a, e⟩ := hostileAddThreat_spec w reenter m m1 ref d hwf
        (List.mem_append_left _ hmem) hre hA
      rw [hg] at a
      exact ⟨a, fun hd => by rw [e]; simp [hd],
        ref, a.mem ref (List.mem_append_left _ hmem),
        (a.guid ref (List.mem_append_left _ hmem)).trans hg⟩
  | none =>
    have habs1 := lookup_none _ _ _ hon
    cases hoff : m.iThreatOfflineContainer.getReferenceByTarget m.heap (some victim) with
    | some ref =>
      obtain ⟨hmem, hg⟩ := lookup_some _ _ _ _ hoff
      cases hA : HostileReference.addThreat w reenter m ref d with
      | none => simp [ThreatMgr._addThreat, ThreatContainer.addThreat, hon, hoff, hA] at h
      | some m1 =>
        simp [ThreatMgr._addThreat, ThreatContainer.addThreat, hon, hoff, hA] at h
        subst h
        obtain ⟨a, e⟩ := hostileAddThreat_spec w reenter m m1 ref d hwf
          (List.mem_append_right _ hmem) hre hA
        rw [hg] at a
        exact ⟨a, fun hd => by rw [e]; simp [hd],
          ref, a.mem ref (List.mem_append_right _ hmem),
          (a.guid ref (List.mem_append_right _ hmem)).trans hg⟩
    | none =>
      have habs2 := lookup_none _ _ _ hoff
      have habs : ∀ r ∈ m.refs, (m.heap r).iUnitGuid ≠ victim := by
        intro r hr
        rcases List.mem_append.1 hr with h1 | h1
        · exact habs1 r h1
        · exact habs2 r h1
      obtain ⟨hwf4, a4, hin4, hself4, hdel4⟩ := create_spec m victim hwf habs _ rfl
      simp only [ThreatMgr._addThreat, ThreatContainer.addThreat, hon, hoff,
        Option.bind_eq_bind, Option.some_bind, Option.bind_eq_some] at h
      obtain ⟨m5, h5, h6⟩ := h
      obtain ⟨a5, e5⟩ := hostileAddThreat_spec w reenter _ m5 m.nextRef d hwf4 hin4 hre h5
      have g5 : (m5.heap m.nextRef).iUnitGuid = victim := by
        rw [a5.guid _ hin4, hself4]
      rw [hself4] at a5
      have a45 : Adds m m5 (some victim) d := a4.zero_then a5
      split_ifs at h6
      · obtain ⟨m6, hm6, hwf6, hs6, _, _⟩ :=
          setOnlineOfflineState_spec w m5 m.nextRef false a5.wf (a5.mem _ hin4)
        rw [hm6] at h6
        cases Option.some.inj h6
        have q := hs6.quiet a5.wf hwf6
        exact ⟨a45.then_zero q.adds, fun hd => by rw [q.events, e5, hdel4]; simp [hd],
          m.nextRef, (hs6.mem _).2 (a5.mem _ hin4), (hs6.guid _).trans g5⟩
      · cases Option.some.inj h6
        exact ⟨a45, fun hd => by rw [e5, hdel4]; simp [hd], m.nextRef, a5.mem _ hin4, g5⟩

/-! ## `ThreatMgr::doAddThreat` and `ThreatMgr::addThreat` -/

/-- The three ways through `doAddThreat`: no redirection; redirection to an
eligible target; redirection to a target that `isValidProcess` rejects. -/
theorem doAddThreat_cases (w : World) (reenter : ThreatMgr → ObjectGuid → Option ThreatMgr)
    (m m' : ThreatMgr) (victim : ObjectGuid) (d : ℚ) (hwf : m.WellFormed)
    (hre : ∀ s u s', s.WellFormed → reenter s u = some s' → Quiet s s')
    (h : ThreatMgr.doAddThreat w reenter m victim d = some m') :
    ((¬ (d > 0 ∧ w.GetRedirectThreatPercent victim ≠ 0) ∨
        w.GetRedirectThreatTarget victim = none) ∧
      Adds m m' (some victim) d ∧
      (d = 0 → threatChanges m'.delivered = threatChanges m.delivered)) ∨
    (∃ target, d > 0 ∧ w.GetRedirectThreatPercent victim ≠ 0 ∧
      w.GetRedirectThreatTarget victim = some target ∧
      ThreatCalcHelper.isValidProcess w (some target) m.iOwner none = some true ∧
      ∃ m1, Adds m m1 (some target) (CalculatePct d (w.GetRedirectThreatPercent victim : ℤ)) ∧
        Adds m1 m' (some victim) (d - CalculatePct d (w.GetRedirectThreatPercent victim : ℤ))) ∨
    (∃ target, d > 0 ∧ w.GetRedirectThreatPercent victim ≠ 0 ∧
      w.GetRedirectThreatTarget victim = some target ∧
      ThreatCalcHelper.isValidProcess w (some target) m.iOwner none = some false ∧
      Adds m m' (some victim) (d - CalculatePct d (w.GetRedirectThreatPercent victim : ℤ))) := by
  unfold ThreatMgr.doAddThreat at h
  simp only [] at h
  split_ifs at h with hc
  · cases ht : w.GetRedirectThreatTarget victim with
    | none =>
      rw [ht] at h
      obtain ⟨a, e, _⟩ := _addThreat_spec w reenter m m' victim d hwf hre h
      exact Or.inl ⟨Or.inr rfl, a, e⟩
    | some target =>
      rw [ht] at h
      simp only [Option.bind_eq_bind, Option.bind_eq_some] at h
      obtain ⟨valid, hv, m1, h1, h2⟩ := h
      cases valid with
      | true =>
        simp only [if_true] at h1
        obtain ⟨a1, _⟩ := _addThreat_spec w reenter m m1 target _ hwf hre h1
        obtain ⟨a2, _⟩ := _addThreat_spec w reenter m1 m' victim _ a1.wf hre h2
        exact Or.inr (Or.inl ⟨target, hc.1, hc.2, rfl, hv, m1, a1, a2⟩)
      | false =>
        simp only [Bool.false_eq_true, if_false] at h1
        cases Option.some.inj h1
        obtain ⟨a2, _⟩ := _addThreat_spec w reenter m m' victim _ hwf hre h2
        exact Or.inr (Or.inr ⟨target, hc.1, hc.2, rfl, hv, a2⟩)
  · obtain ⟨a, e, _⟩ := _addThreat_spec w reenter m m' victim d hwf hre h
    exact Or.inl ⟨Or.inl hc, a, e⟩

theorem doAddThreat_wf (w : World) (reenter : ThreatMgr → ObjectGuid → Option ThreatMgr)
    (m m' : ThreatMgr) (victim : ObjectGuid) (d : ℚ) (hwf : m.WellFormed)
    (hre : ∀ s u s', s.WellFormed → reenter s u = some s' → Quiet s s')
    (h : ThreatMgr.doAddThreat w reenter m victim d = some m') : m'.WellFormed := by
  rcases doAddThreat_cases w reenter m m' victim d hwf hre h with
    ⟨_, a, _⟩ | ⟨_, _, _, _, _, _, _, a⟩ | ⟨_, _, _, _, _, a⟩
  · exact a.wf
  · exact a.wf
  · exact a.wf

theorem calcThreat_zero (w : World) (u : ObjectGuid) :
    ThreatCalcHelper.calcThreat w u 0 SPELL_SCHOOL_MASK_NORMAL none = 0 := by
  simp [ThreatCalcHelper.calcThreat, Unit.ApplyTotalThreatModifier]

theorem reenter_quiet (w : World) :
    ∀ (depth : Nat) (s : ThreatMgr) (u : ObjectGuid) (s' : ThreatMgr), s.WellFormed →
      ThreatMgr.reenter w depth s u = some s' → Quiet s s' := by
  intro depth
  induction depth with
  | zero =>
    intro s u s' _ h
    simp [ThreatMgr.reenter, ThreatMgr.addThreat] at h
  | succ n ih =>
    intro s u s' hwf h
    simp only [ThreatMgr.reenter, ThreatMgr.addThreat, ThreatMgr.addThreatBody,
      Option.bind_eq_bind, Option.bind_eq_some] at h
    obtain ⟨valid, _, h2⟩ := h
    cases valid with
    | false =>
      simp only [if_true] at h2
      cases Option.some.inj h2
      exact Quiet.idle _ hwf
    | true =>
      simp only [Bool.true_eq_false, if_false, calcThreat_zero] at h2
      rcases doAddThreat_cases w _ s s' u 0 hwf ih h2 with
        ⟨_, a, e⟩ | ⟨_, hpos, _⟩ | ⟨_, hpos, _⟩
      · exact ⟨a.zero_victim none, e rfl⟩
      · exact absurd hpos (lt_irrefl _)
      · exact absurd hpos (lt_irrefl _)

theorem addThreat_wf (w : World) (depth : Nat) (m m' : ThreatMgr) (victim : Option ObjectGuid)
    (threat : ℚ) (schoolMask : SpellSchoolMask) (threatSpell : Option SpellInfo)
    (hwf : m.WellFormed)
    (h : ThreatMgr.addThreat w depth m victim threat schoolMask threatSpell = some m') :
    m'.WellFormed := by
  cases depth with
  | zero => simp [ThreatMgr.addThreat] at h
  | succ n =>
    simp only [ThreatMgr.addThreat, ThreatMgr.addThreatBody,
      Option.bind_eq_bind, Option.bind_eq_some] at h
    obtain ⟨valid, _, h2⟩ := h
    cases valid with
    | false =>
      simp only [if_true] at h2
      cases Option.some.inj h2
      exact hwf
    | true =>
      simp only [Bool.true_eq_false, if_false] at h2
      cases victim with
      | none => simp at h2
      | some v =>
        exact doAddThreat_wf w _ m m' v _ hwf (reenter_quiet w n) h2

theorem single_wf (threat : ℚ) : (ThreatMgr.single threat).WellFormed :=
  ⟨fun r hr => by
      simp only [ThreatMgr.refs, ThreatMgr.single, List.append_nil, List.mem_singleton] at hr
      rw [hr]
      exact Nat.zero_lt_one,
    by simp [ThreatMgr.refs, ThreatMgr.single],
    fun r _ => rfl,
    fun r hr => by simp [ThreatMgr.single] at hr⟩

theorem new_wf (owner : Option ObjectGuid) : (ThreatMgr.new owner).WellFormed :=
  ⟨fun r hr => by simp [ThreatMgr.refs, ThreatMgr.new] at hr,
    by simp [ThreatMgr.refs, ThreatMgr.new],
    fun r hr => by simp [ThreatMgr.new] at hr,
    fun r hr => by simp [ThreatMgr.new] at hr⟩

/-! ## Calls that return -/

theorem isValidProcess_total (w : World) (victim : Option ObjectGuid) (o : ObjectGuid)
    (ability : Option SpellInfo) (hc : w.GetTypeId o = TypeID.TYPEID_UNIT) :
    ∃ b, ThreatCalcHelper.isValidProcess w victim (some o) ability = some b := by
  cases victim with
  | none => exact ⟨false, rfl⟩
  | some v =>
    simp only [ThreatCalcHelper.isValidProcess, hc]
    split_ifs
    · exact ⟨_, rfl⟩
    · exact ⟨_, rfl⟩
    · exact ⟨_, rfl⟩
    · exact ⟨_, rfl⟩
    · exact ⟨_, rfl⟩
    · exact ⟨_, rfl⟩

theorem hostileAddThreat_total (w : World) (reenter : ThreatMgr → ObjectGuid → Option ThreatMgr)
    (m : ThreatMgr) (ref : Nat) (d : ℚ) (o : ObjectGuid) (hwf : m.WellFormed)
    (hr : ref ∈ m.refs) (ho : m.iOwner = some o) (hc : w.GetTypeId o = TypeID.TYPEID_UNIT)
    (htot : ∀ s u, s.WellFormed → s.iOwner = some o →
      w.GetCharmerOrOwner (m.heap ref).iUnitGuid = some u → ∃ s', reenter s u = some s') :
    ∃ m', HostileReference.addThreat w reenter m ref d = some m' := by
  have a1 := adds_modifyRef_threat m ref d hwf hr
  have g1 : ((m.modifyRef ref (fun e => { e with iThreat := e.iThreat + d })).heap ref).iUnitGuid
      = (m.heap ref).iUnitGuid := a1.guid ref hr
  have h2 : ∃ m2, (if ((m.modifyRef ref (fun e => { e with iThreat := e.iThreat + d })).heap
        ref).iOnline = false then
        HostileReference.updateOnlineStatus w
          (m.modifyRef ref (fun e => { e with iThreat := e.iThreat + d })) ref
      else some (m.modifyRef ref (fun e => { e with iThreat := e.iThreat + d }))) = some m2 ∧
      m2.WellFormed ∧ m2.iOwner = some o ∧ (m2.heap ref).iUnitGuid = (m.heap ref).iUnitGuid := by
    split_ifs
    · obtain ⟨m2, hm2⟩ := updateOnlineStatus_total w _ ref o a1.wf (a1.mem ref hr)
        (a1.owner.trans ho) hc
      obtain ⟨hwf2, hs2⟩ := updateOnlineStatus_spec w _ m2 ref a1.wf (a1.mem ref hr) hm2
      exact ⟨m2, hm2, hwf2, (hs2.owner.trans a1.owner).trans ho, (hs2.guid ref).trans g1⟩
    · exact ⟨_, rfl, a1.wf, a1.owner.trans ho, g1⟩
  obtain ⟨m2, hm2, hwf2, ho2, g2⟩ := h2
  have h3 : ∃ m3, (if d ≠ 0 then
        HostileReference.fireStatusChanged w m2 ⟨.UEV_THREAT_REF_THREAT_CHANGE, ref, d⟩
      else some m2) = some m3 ∧
      m3.WellFormed ∧ m3.iOwner = some o ∧ (m3.heap ref).iUnitGuid = (m.heap ref).iUnitGuid := by
    split_ifs
    · obtain ⟨m3, hm3, _⟩ := processThreatEvent_threatChange w m2 ref d
      obtain ⟨a3, hheap, _⟩ := threatChange_step w m2 m3 ref d hwf2 hm3
      exact ⟨m3, hm3, a3.wf, a3.owner.trans ho2, by rw [hheap]; exact g2⟩
    · exact ⟨_, rfl, hwf2, ho2, g2⟩
  obtain ⟨m3, hm3, hwf3, ho3, g3⟩ := h3
  simp only [HostileReference.addThreat, Option.bind_eq_bind]
  rw [hm2, Option.some_bind, hm3, Option.some_bind]
  split_ifs
  · cases hco : w.GetCharmerOrOwner (m3.heap ref).iUnitGuid with
    | none => exact ⟨_, rfl⟩
    | some u =>
      simp only []
      split_ifs
      · rw [g3] at hco
        exact htot m3 u hwf3 ho3 hco
      · exact ⟨_, rfl⟩
  · exact ⟨_, rfl⟩
  · exact ⟨_, rfl⟩

theorem _addThreat_total (w : World) (reenter : ThreatMgr → ObjectGuid → Option ThreatMgr)
    (m : ThreatMgr) (victim : ObjectGuid) (d : ℚ) (o : ObjectGuid) (hwf : m.WellFormed)
    (ho : m.iOwner = some o) (hc : w.GetTypeId o = TypeID.TYPEID_UNIT)
    (hre : ∀ s u s', s.WellFormed → reenter s u = some s' → Quiet s s')
    (htot : ∀ s u, s.WellFormed → s.iOwner = some o →
      w.GetCharmerOrOwner victim = some u → ∃ s', reenter s u = some s') :
    ∃ m', ThreatMgr._addThreat w reenter m (some victim) d = some m' := by
  cases hon : m.iThreatContainer.getReferenceByTarget m.heap (some victim) with
  | some ref =>
    obtain ⟨hmem, hg⟩ := lookup_some _ _ _ _ hon
    obtain ⟨m1, hm1⟩ := hostileAddThreat_total w reenter m ref d o hwf
      (List.mem_append_left _ hmem) ho hc (by rw [hg]; exact htot)
    exact ⟨m1, by simp [ThreatMgr._addThreat, ThreatContainer.addThreat, hon, hm1]⟩
  | none =>
    have habs1 := lookup_none _ _ _ hon
    cases hoff : m.iThreatOfflineContainer.getReferenceByTarget m.heap (some victim) with
    | some ref =>
      obtain ⟨hmem, hg⟩ := lookup_some _ _ _ _ hoff
      obtain ⟨m1, hm1⟩ := hostileAddThreat_total w reenter m ref d o hwf
        (List.mem_append_right _ hmem) ho hc (by rw [hg]; exact htot)
      exact ⟨m1, by simp [ThreatMgr._addThreat, ThreatContainer.addThreat, hon, hoff, hm1]⟩
    | none =>
      have habs2 := lookup_none _ _ _ hoff
      have habs : ∀ r ∈ m.refs, (m.heap r).iUnitGuid ≠ victim := by
        intro r hr
        rcases List.mem_append.1 hr with h1 | h1
        · exact habs1 r h1
        · exact habs2 r h1
      obtain ⟨hwf4, a4, hin4, hself4, _⟩ := create_spec m victim hwf habs _ rfl
      obtain ⟨m5, hm5⟩ := hostileAddThreat_total w reenter _ m.nextRef d o hwf4 hin4
        (a4.owner.trans ho) hc (by rw [hself4]; exact htot)
      obtain ⟨a5, _⟩ := hostileAddThreat_spec w reenter _ m5 m.nextRef d hwf4 hin4 hre hm5
      simp only [ThreatMgr._addThreat, ThreatContainer.addThreat, hon, hoff,
        Option.bind_eq_bind, Option.some_bind]
      rw [hm5, Option.some_bind]
      split_ifs
      · obtain ⟨m6, hm6, _⟩ :=
          setOnlineOfflineState_spec w m5 m.nextRef false a5.wf (a5.mem _ hin4)
        exact ⟨m6, hm6⟩
      · exact ⟨_, rfl⟩

theorem reenter_total (w : World) (o : ObjectGuid) (hc : w.GetTypeId o = TypeID.TYPEID_UNIT)
    (rank : ObjectGuid → Nat)
    (hrank : ∀ u u', w.GetCharmerOrOwner u = some u' → rank u' < rank u) :
    ∀ (depth : Nat) (s : ThreatMgr) (u : ObjectGuid), s.WellFormed → s.iOwner = some o →
      rank u < depth → ∃ s', ThreatMgr.reenter w depth s u = some s' := by
  intro depth
  induction depth with
  | zero => intro s u _ _ hlt; exact absurd hlt (Nat.not_lt_zero _)
  | succ n ih =>
    intro s u hwf ho hlt
    obtain ⟨valid, hv⟩ := isValidProcess_total w (some u) o none hc
    simp only [ThreatMgr.reenter, ThreatMgr.addThreat, ThreatMgr.addThreatBody,
      Option.bind_eq_bind, ho, hv, Option.some_bind]
    cases valid with
    | false => exact ⟨s, by simp⟩
    | true =>
      simp only [Bool.true_eq_false, if_false, calcThreat_zero, ThreatMgr.doAddThreat,
        gt_iff_lt, lt_self_iff_false, false_and]
      exact _addThreat_total w _ s u 0 o hwf ho hc (reenter_quiet w n)
        (fun s1 u1 hwf1 ho1 hco =>
          ih s1 u1 hwf1 ho1 (Nat.lt_of_lt_of_le (hrank u u1 hco) (Nat.le_of_lt_succ hlt)))

theorem doAddThreat_total (w : World) (reenter : ThreatMgr → ObjectGuid → Option ThreatMgr)
    (m : ThreatMgr) (victim : ObjectGuid) (d : ℚ) (o : ObjectGuid) (hwf : m.WellFormed)
    (ho : m.iOwner = some o) (hc : w.GetTypeId o = TypeID.TYPEID_UNIT)
    (hre : ∀ s u s', s.WellFormed → reenter s u = some s' → Quiet s s')
    (htot : ∀ s u v, s.WellFormed → s.iOwner = some o →
      (v = victim ∨ w.GetRedirectThreatTarget victim = some v) →
      w.GetCharmerOrOwner v = some u → ∃ s', reenter s u = some s') :
    ∃ m', ThreatMgr.doAddThreat w reenter m victim d = some m' := by
  have hV : ∀ s, s.WellFormed → s.iOwner = some o →
      ∃ m', ThreatMgr._addThreat w reenter s (some victim) d = some m' := fun s hs hos =>
    _addThreat_total w reenter s victim d o hs hos hc hre
      (fun s1 u hwf1 ho1 hco => htot s1 u victim hwf1 ho1 (Or.inl rfl) hco)
  unfold ThreatMgr.doAddThreat
  simp only []
  split_ifs with hcnd
  · cases ht : w.GetRedirectThreatTarget victim with
    | none => exact hV m hwf ho
    | some target =>
      obtain ⟨valid, hv⟩ := isValidProcess_total w (some target) o none hc
      simp only [Option.bind_eq_bind, ho, hv, Option.some_bind]
      cases valid with
      | true =>
        simp only [if_true]
        obtain ⟨m1, hm1⟩ := _addThreat_total w reenter m target
          (CalculatePct d (w.GetRedirectThreatPercent victim : ℤ)) o hwf ho hc hre
          (fun s1 u hwf1 ho1 hco => htot s1 u target hwf1 ho1 (Or.inr ht) hco)
        obtain ⟨a1, _, _⟩ := _addThreat_spec w reenter m m1 target _ hwf hre hm1
        rw [hm1, Option.some_bind]
        exact _addThreat_total w reenter m1 victim _ o a1.wf (a1.owner.trans ho) hc hre
          (fun s1 u hwf1 ho1 hco => htot s1 u victim hwf1 ho1 (Or.inl rfl) hco)
      | false =>
        simp only [Bool.false_eq_true, if_false, Option.some_bind]
        exact _addThreat_total w reenter m victim _ o hwf ho hc hre
          (fun s1 u hwf1 ho1 hco => htot s1 u victim hwf1 ho1 (Or.inl rfl) hco)
  · exact hV m hwf ho

theorem Adds.threat_at {m m' : ThreatMgr} {v : Option ObjectGuid} {d : ℚ} (h : Adds m m' v d)
    (hwf : m.WellFormed) {r : Nat} (hr : r ∈ m.refs) :
    (m'.heap r).iThreat =
      (m.heap r).iThreat + (if v = some (m.heap r).iUnitGuid then d else 0) := by
  have h1 := h.threat (m.heap r).iUnitGuid
  rw [getThreatWithoutTemp_eq_find, getThreatWithoutTemp_eq_find, find_of_mem m hwf r hr] at h1
  have h2 := find_of_mem m' h.wf r (h.mem r hr)
  rw [h.guid r hr] at h2
  rw [h2] at h1
  exact h1

theorem Adds.getThreat_at {m m' : ThreatMgr} {v : Option ObjectGuid} {d : ℚ} (h : Adds m m' v d)
    (hwf : m.WellFormed) {r : Nat} (hr : r ∈ m.refs) :
    (m'.heap r).getThreat =
      (m.heap r).getThreat + (if v = some (m.heap r).iUnitGuid then d else 0) := by
  have h1 := h.total (m.heap r).iUnitGuid
  rw [getThreat_eq_find, getThreat_eq_find, find_of_mem m hwf r hr] at h1
  have h2 := find_of_mem m' h.wf r (h.mem r hr)
  rw [h.guid r hr] at h2
  rw [h2] at h1
  exact h1

/-! ## Removal and reset -/

theorem processThreatEvent_remove (w : World) (m m' : ThreatMgr) (ref : Nat) (d : ℚ)
    (h : m.processThreatEvent w ⟨.UEV_THREAT_REF_REMOVE_FROM_LIST, ref, d⟩ = some m') :
    m'.heap = m.heap ∧ m'.nextRef = m.nextRef ∧
      m'.iThreatContainer.iThreatList =
        (if (m.heap ref).iOnline = true then
          m.iThreatContainer.iThreatList.filter (fun r => r != ref)
        else m.iThreatContainer.iThreatList) ∧
      m'.iThreatOfflineContainer.iThreatList =
        (if (m.heap ref).iOnline = true then m.iThreatOfflineContainer.iThreatList
        else m.iThreatOfflineContainer.iThreatList.filter (fun r => r != ref)) := by
  simp only [ThreatMgr.processThreatEvent, Option.bind_eq_bind, Option.bind_eq_some] at h
  obtain ⟨m1, h1, m2, h2, h3⟩ := h
  have f1 : m1.heap = m.heap ∧ m1.nextRef = m.nextRef ∧ m1.iOwner = m.iOwner ∧
      m1.iThreatContainer.iThreatList = m.iThreatContainer.iThreatList ∧
      m1.iThreatOfflineContainer = m.iThreatOfflineContainer := by
    split_ifs at h1
    · simp only [ThreatMgr.setCurrentVictim, Option.map_some', Option.some.injEq] at h1
      subst h1
      exact ⟨rfl, rfl, rfl, rfl, rfl⟩
    · cases Option.some.inj h1
      exact ⟨rfl, rfl, rfl, rfl, rfl⟩
  have f2 : m2.heap = m1.heap ∧ m2.nextRef = m1.nextRef ∧
      m2.iThreatContainer = m1.iThreatContainer ∧
      m2.iThreatOfflineContainer = m1.iThreatOfflineContainer := by
    cases ho : m1.iOwner with
    | none => simp [ho] at h2
    | some o =>
      simp only [ho, Option.some.injEq] at h2
      subst h2
      exact ⟨rfl, rfl, rfl, rfl⟩
  obtain ⟨a1, a2, _, a4, a5⟩ := f1
  obtain ⟨b1, b2, b3, b4⟩ := f2
  rw [b1, a1] at h3
  split_ifs at h3 with hf
  · cases Option.some.inj h3
    simp [ThreatContainer.remove, b1, a1, b2, a2, b3, a4, b4, a5, hf]
  · cases Option.some.inj h3
    simp [ThreatContainer.remove, b1, a1, b2, a2, b3, a4, b4, a5, hf]

theorem wf_of_sublist (m m' : ThreatMgr) (hwf : m.WellFormed) (hheap : m'.heap = m.heap)
    (hnext : m'.nextRef = m.nextRef)
    (hon : m'.iThreatContainer.iThreatList.Sublist m.iThreatContainer.iThreatList)
    (hoff : m'.iThreatOfflineContainer.iThreatList.Sublist
      m.iThreatOfflineContainer.iThreatList) : m'.WellFormed := by
  have hsub : m'.refs.Sublist m.refs := List.Sublist.append hon hoff
  refine ⟨?_, ?_, ?_, ?_⟩
  · intro r hr
    rw [hnext]
    exact hwf.allocated r (hsub.subset hr)
  · rw [hheap]
    exact List.Nodup.sublist (hsub.map _) hwf.unique
  · intro r hr
    rw [hheap]
    exact hwf.online r (hon.subset hr)
  · intro r hr
    rw [hheap]
    exact hwf.offline r (hoff.subset hr)

theorem removeReference_wf (w : World) (m m' : ThreatMgr) (ref : Nat) (hwf : m.WellFormed)
    (hr : ref ∈ m.refs) (h : HostileReference.removeReference w m ref = some m') :
    m'.WellFormed := by
  simp only [HostileReference.removeReference, Option.bind_eq_bind, Option.bind_eq_some,
    HostileReference.fireStatusChanged] at h
  obtain ⟨m1, h1, h2⟩ := h
  obtain ⟨m1', hm1, hwf1, _, _, _⟩ := setOnlineOfflineState_spec w m ref false hwf hr
  rw [hm1] at h1
  cases Option.some.inj h1
  have hwf2 := wf_modifyRef m1 ref (fun e => { e with linked := false }) hwf1
    (fun _ => rfl) (fun _ => rfl)
  obtain ⟨hheap, hnext, hon, hoff⟩ := processThreatEvent_remove w _ m' ref 0 h2
  refine wf_of_sublist _ m' hwf2 hheap hnext ?_ ?_
  · rw [hon]
    split_ifs
    · exact List.filter_sublist _
    · exact List.Sublist.refl _
  · rw [hoff]
    split_ifs
    · exact List.Sublist.refl _
    · exact List.filter_sublist _

theorem clearReferences_wf (m : ThreatMgr) : m.clearReferences.WellFormed :=
  ⟨fun r hr => by simp [ThreatMgr.refs, ThreatMgr.clearReferences] at hr,
    by simp [ThreatMgr.refs, ThreatMgr.clearReferences],
    fun r hr => by simp [ThreatMgr.clearReferences] at hr,
    fun r hr => by simp [ThreatMgr.clearReferences] at hr⟩

theorem reachable_wf (owner : Option ObjectGuid) (m : ThreatMgr) (h : Reachable owner m) :
    m.WellFormed := by
  induction h with
  | init => exact new_wf owner
  | addThreat w depth m m' victim threat schoolMask threatSpell _ hstep ih =>
    exact addThreat_wf w depth m m' victim threat schoolMask threatSpell ih hstep
  | setOnlineOfflineState w m m' ref isOnline _ hr hstep ih =>
    obtain ⟨m2, hm2, hwf2, _⟩ := setOnlineOfflineState_spec w m ref isOnline ih hr
    rw [hm2] at hstep
    cases Option.some.inj hstep
    exact hwf2
  | removeReference w m m' ref _ hr hstep ih =>
    exact removeReference_wf w m m' ref ih hr hstep
  | clearReferences m _ _ => exact clearReferences_wf m

/-! ## The states of the worked examples -/

theorem afterAdd_eq :
    ThreatMgr.addThreat World.plain 1 (ThreatMgr.new (some 0)) (some 1) 10
      SPELL_SCHOOL_MASK_NORMAL none = some ThreatMgr.afterAdd := by
  have h : ThreatMgr.addThreat World.plain 1 (ThreatMgr.new (some 0)) (some 1) 10
      SPELL_SCHOOL_MASK_NORMAL none ≠ none := by
    simp [ThreatMgr.addThreat, ThreatMgr.addThreatBody, ThreatCalcHelper.isValidProcess,
      ThreatCalcHelper.calcThreat, Unit.ApplyTotalThreatModifier, ThreatMgr.doAddThreat,
      ThreatMgr._addThreat, ThreatContainer.addThreat, ThreatContainer.getReferenceByTarget,
      HostileReference.addThreat, HostileReference.fireStatusChanged,
      ThreatMgr.processThreatEvent, ThreatMgr.setDirty, ThreatMgr.modifyRef,
      ThreatContainer.addReference, World.plain, ThreatMgr.new, NPC_EYE_OF_KILROGG,
      SPELL_SCHOOL_MASK_NORMAL]
  exact (Option.getD_of_ne_none h _).symm

theorem afterAdd_refs : ThreatMgr.afterAdd.refs = [0] := by
  simp [ThreatMgr.afterAdd, ThreatMgr.refs,
    ThreatMgr.addThreat, ThreatMgr.addThreatBody, ThreatCalcHelper.isValidProcess,
    ThreatCalcHelper.calcThreat, Unit.ApplyTotalThreatModifier, ThreatMgr.doAddThreat,
    ThreatMgr._addThreat, ThreatContainer.addThreat, ThreatContainer.getReferenceByTarget,
    HostileReference.addThreat, HostileReference.fireStatusChanged,
    ThreatMgr.processThreatEvent, ThreatMgr.setDirty, ThreatMgr.modifyRef,
    ThreatContainer.addReference, World.plain, ThreatMgr.new, NPC_EYE_OF_KILROGG,
    SPELL_SCHOOL_MASK_NORMAL]

theorem afterAdd_reachable : Reachable (some 0) ThreatMgr.afterAdd :=
  Reachable.addThreat World.plain 1 (ThreatMgr.new (some 0)) ThreatMgr.afterAdd (some 1) 10
    SPELL_SCHOOL_MASK_NORMAL none Reachable.init afterAdd_eq

theorem afterOffline_eq :
    HostileReference.setOnlineOfflineState World.plain ThreatMgr.afterAdd 0 false
      = some ThreatMgr.afterOffline := by
  obtain ⟨m', hm', _⟩ := setOnlineOfflineState_spec World.plain ThreatMgr.afterAdd 0 false
    (reachable_wf _ _ afterAdd_reachable) (by rw [afterAdd_refs]; exact List.mem_singleton_self 0)
  have h : HostileReference.setOnlineOfflineState World.plain ThreatMgr.afterAdd 0 false
      ≠ none := by rw [hm']; exact Option.some_ne_none _
  exact (Option.getD_of_ne_none h _).symm

theorem afterOffline_refs : 0 ∈ ThreatMgr.afterOffline.refs := by
  obtain ⟨m', hm', _, hs, _⟩ := setOnlineOfflineState_spec World.plain ThreatMgr.afterAdd 0 false
    (reachable_wf _ _ afterAdd_reachable) (by rw [afterAdd_refs]; exact List.mem_singleton_self 0)
  rw [afterOffline_eq] at hm'
  cases Option.some.inj hm'
  exact (hs.mem 0).2 (by rw [afterAdd_refs]; exact List.mem_singleton_self 0)

/-! ## Uniqueness and ownership -/

/-- C1: in every state reached from an empty manager by `addThreat` calls that
return (with whatever redirection and charmer-or-owner side calls they make), no
GUID occurs twice among the references of the online list followed by those of
the offline list: two listed references with the same GUID are the same
reference, listed once. -/
theorem addThreat_unique (owner : Option ObjectGuid) (m : ThreatMgr)
    (h : ReachableByAddThreat owner m) :
    ((m.iThreatContainer.iThreatList ++ m.iThreatOfflineContainer.iThreatList).map
      (fun r => (m.heap r).iUnitGuid)).Nodup := by
  have hwf : m.WellFormed := by
    induction h with
    | init => exact new_wf owner
    | addThreat w depth m m' victim threat schoolMask threatSpell _ hstep ih =>
      exact addThreat_wf w depth m m' victim threat schoolMask threatSpell ih hstep
  exact hwf.unique

/-- Witness of C1: the table after 10 threat from unit 1. -/
theorem addThreat_unique_witness :
    ((ThreatMgr.afterAdd.iThreatContainer.iThreatList ++
      ThreatMgr.afterAdd.iThreatOfflineContainer.iThreatList).map
      (fun r => (ThreatMgr.afterAdd.heap r).iUnitGuid)).Nodup :=
  addThreat_unique (some 0) ThreatMgr.afterAdd
    (ReachableByAddThreat.addThreat World.plain 1 (ThreatMgr.new (some 0)) ThreatMgr.afterAdd
      (some 1) 10 SPELL_SCHOOL_MASK_NORMAL none ReachableByAddThreat.init afterAdd_eq)

/-- C2: in every state reached from an empty manager through `addThreat`,
`setOnlineOfflineState`, `removeReference` and `clearReferences`, a reference of
the table occurs exactly once over both lists, hence never in both; it is in the
online list exactly when its online flag is true and in the offline list exactly
when the flag is false. -/
theorem ownership_exclusive (owner : Option ObjectGuid) (m : ThreatMgr)
    (h : Reachable owner m) (r : Nat)
    (hr : r ∈ m.iThreatContainer.iThreatList ++ m.iThreatOfflineContainer.iThreatList) :
    (m.iThreatContainer.iThreatList ++ m.iThreatOfflineContainer.iThreatList).count r = 1 ∧
      ¬ (r ∈ m.iThreatContainer.iThreatList ∧ r ∈ m.iThreatOfflineContainer.iThreatList) ∧
      (r ∈ m.iThreatContainer.iThreatList ↔ (m.heap r).iOnline = true) ∧
      (r ∈ m.iThreatOfflineContainer.iThreatList ↔ (m.heap r).iOnline = false) := by
  have hwf := reachable_wf owner m h
  refine ⟨List.count_eq_one_of_mem hwf.nodup_refs hr, ?_, ?_, ?_⟩
  · rintro ⟨h1, h2⟩
    have a := hwf.online r h1
    rw [hwf.offline r h2] at a
    cases a
  · exact ⟨hwf.online r, fun hf => hwf.mem_online hr hf⟩
  · exact ⟨hwf.offline r, fun hf => hwf.mem_offline hr hf⟩

/-- Witness of C2: the table after 10 threat from unit 1 whose reference was then
set offline. -/
theorem ownership_exclusive_witness :
    (ThreatMgr.afterOffline.iThreatContainer.iThreatList ++
        ThreatMgr.afterOffline.iThreatOfflineContainer.iThreatList).count 0 = 1 ∧
      ¬ (0 ∈ ThreatMgr.afterOffline.iThreatContainer.iThreatList ∧
        0 ∈ ThreatMgr.afterOffline.iThreatOfflineContainer.iThreatList) ∧
      (0 ∈ ThreatMgr.afterOffline.iThreatContainer.iThreatList ↔
        (ThreatMgr.afterOffline.heap 0).iOnline = true) ∧
      (0 ∈ ThreatMgr.afterOffline.iThreatOfflineContainer.iThreatList ↔
        (ThreatMgr.afterOffline.heap 0).iOnline = false) :=
  ownership_exclusive (some 0) ThreatMgr.afterOffline
    (Reachable.setOnlineOfflineState World.plain ThreatMgr.afterAdd ThreatMgr.afterOffline 0 false
      afterAdd_reachable (by rw [afterAdd_refs]; exact List.mem_singleton_self 0)
      afterOffline_eq)
    0 afterOffline_refs

/-! ## Fresh references, percent modification and redirection -/

/-- C6: on a well-formed table whose owner is a creature, `_addThreat(victim, d)`
for a victim without reference in either container returns (given enough depth
for the charmer-or-owner chain of the victim, which `rank` shows to end), and
afterwards `getThreat(victim, true)` is exactly `d`: there is exactly one
reference to the victim, it is new, its threat is `d` (0 at construction plus
`d` once) and its temporary modifier is 0. -/
theorem _addThreat_fresh (w : World) (depth : Nat) (m : ThreatMgr) (victim : ObjectGuid) (d : ℚ)
    (o : ObjectGuid) (rank : ObjectGuid → Nat) (hwf : m.WellFormed) (ho : m.iOwner = some o)
    (hc : w.GetTypeId o = TypeID.TYPEID_UNIT)
    (hrank : ∀ u u', w.GetCharmerOrOwner u = some u' → rank u' < rank u)
    (hdepth : rank victim ≤ depth)
    (hon : m.iThreatContainer.getReferenceByTarget m.heap (some victim) = none)
    (hoff : m.iThreatOfflineContainer.getReferenceByTarget m.heap (some victim) = none) :
    ∃ m', ThreatMgr._addThreat w (ThreatMgr.reenter w depth) m (some victim) d = some m' ∧
      m'.getThreat (some victim) true = d ∧
      ∃ r, r ∈ m'.refs ∧ r ∉ m.refs ∧ (m'.heap r).iUnitGuid = victim ∧
        (m'.heap r).iThreat = d ∧ (m'.heap r).iTempThreatModifier = 0 ∧
        ∀ r' ∈ m'.refs, (m'.heap r').iUnitGuid = victim → r' = r := by
  have habs : ∀ r ∈ m.refs, (m.heap r).iUnitGuid ≠ victim := by
    intro r hr
    rcases List.mem_append.1 hr with h1 | h1
    · exact lookup_none _ _ _ hon r h1
    · exact lookup_none _ _ _ hoff r h1
  obtain ⟨m', hm'⟩ := _addThreat_total w (ThreatMgr.reenter w depth) m victim d o hwf ho hc
    (reenter_quiet w depth)
    (fun s u hs hos hco => reenter_total w o hc rank hrank depth s u hs hos
      (Nat.lt_of_lt_of_le (hrank victim u hco) hdepth))
  obtain ⟨a, _, r, hr, hg⟩ := _addThreat_spec w _ m m' victim d hwf (reenter_quiet w depth) hm'
  have hfind := find_of_mem m' a.wf r hr
  rw [hg] at hfind
  have h0 : m.refs.find? (fun x => (m.heap x).iUnitGuid == victim) = none :=
    find_none_of_not_mem m victim habs
  have ht := a.total victim
  rw [getThreat_eq_find m, h0] at ht
  simp only [if_true, zero_add] at ht
  have hw := a.threat victim
  rw [getThreatWithoutTemp_eq_find, getThreatWithoutTemp_eq_find, h0, hfind] at hw
  simp only [if_true, zero_add] at hw
  have ht2 := ht
  rw [getThreat_eq_find, hfind] at ht2
  simp only [HostileReference.getThreat, hw] at ht2
  refine ⟨m', hm', ht, r, hr, ?_, hg, hw, by simpa using ht2, ?_⟩
  · intro hin
    exact habs r hin ((a.guid r hin).symm.trans hg)
  · intro r' hr' hg'
    have h2 := find_of_mem m' a.wf r' hr'
    rw [hg', hfind] at h2
    exact (Option.some.inj h2).symm

/-- Witness of C6: the first 25 threat against unit 1 on an empty table. -/
theorem _addThreat_fresh_witness :
    (ThreatMgr._addThreat World.plain (ThreatMgr.reenter World.plain 0)
      (ThreatMgr.new (some 0)) (some 1) 25).map (fun s => s.getThreat (some 1) true)
      = some 25 := by
  obtain ⟨m', h, ht, _⟩ := _addThreat_fresh World.plain 0 (ThreatMgr.new (some 0)) 1 25 0
    (fun _ => 0) (new_wf _) rfl rfl (fun u u' hco => by simp [World.plain] at hco)
    (le_refl _) rfl rfl
  rw [h, Option.map_some', ht]

/-- C8: on a well-formed table whose owner is a creature, for the online
reference of the victim with threat `t > 0` and every integer percent `p`,
`modifyThreatPercent(victim, p)` is the single call `addThreat(t * p / 100)` on
that reference; it returns (given enough depth for the charmer-or-owner chain),
leaves the reference with threat `t + t * p / 100`, and adds to the delivered
threat-changed events exactly one event with that delta when the delta is not
zero and none when it is zero. -/
theorem modifyThreatPercent_positive (w : World) (depth : Nat) (m : ThreatMgr)
    (victim : ObjectGuid) (ref : Nat) (p : ℤ) (o : ObjectGuid) (rank : ObjectGuid → Nat)
    (hwf : m.WellFormed) (ho : m.iOwner = some o) (hc : w.GetTypeId o = TypeID.TYPEID_UNIT)
    (hrank : ∀ u u', w.GetCharmerOrOwner u = some u' → rank u' < rank u)
    (hdepth : rank victim ≤ depth)
    (href : m.iThreatContainer.getReferenceByTarget m.heap (some victim) = some ref)
    (hpos : 0 < (m.heap ref).iThreat) :
    ∃ m', ThreatMgr.modifyThreatPercent w depth m (some victim) p = some m' ∧
      ThreatMgr.modifyThreatPercent w depth m (some victim) p =
        HostileReference.addThreat w (ThreatMgr.reenter w depth) m ref
          ((m.heap ref).iThreat * p / 100) ∧
      (m'.heap ref).iThreat = (m.heap ref).iThreat + (m.heap ref).iThreat * p / 100 ∧
      threatChanges m'.delivered = threatChanges m.delivered ++
        (if (m.heap ref).iThreat * p / 100 ≠ 0 then [(ref, (m.heap ref).iThreat * p / 100)]
          else []) := by
  obtain ⟨hmem, hg⟩ := lookup_some _ _ _ _ href
  have hr : ref ∈ m.refs := List.mem_append_left _ hmem
  have hdiff : AddPct (m.heap ref).iThreat p - (m.heap ref).iThreat
      = (m.heap ref).iThreat * p / 100 := by
    simp [AddPct, CalculatePct]
  have hcall : ThreatMgr.modifyThreatPercent w depth m (some victim) p =
      HostileReference.addThreat w (ThreatMgr.reenter w depth) m ref
        ((m.heap ref).iThreat * p / 100) := by
    simp only [ThreatMgr.modifyThreatPercent, ThreatContainer.modifyThreatPercent, href,
      HostileReference.addThreatPercent, not_le.2 hpos, if_false, hdiff]
  obtain ⟨m', hm'⟩ := hostileAddThreat_total w (ThreatMgr.reenter w depth) m ref
    ((m.heap ref).iThreat * p / 100) o hwf hr ho hc
    (fun s u hs hos hco => reenter_total w o hc rank hrank depth s u hs hos
      (Nat.lt_of_lt_of_le (hrank _ u hco) (hg ▸ hdepth)))
  obtain ⟨a, e⟩ := hostileAddThreat_spec w _ m m' ref _ hwf hr (reenter_quiet w depth) hm'
  refine ⟨m', hcall.trans hm', hcall, ?_, e⟩
  have := a.threat_at hwf hr
  simpa using this

/-- Witness of C8: threat 200 raised by 10 percent becomes 220, with one
threat-changed event of delta 20. -/
theorem modifyThreatPercent_positive_witness :
    (ThreatMgr.modifyThreatPercent World.plain 0 (ThreatMgr.single 200) (some 1) 10).map
      (fun s => ((s.heap 0).iThreat, threatChanges s.delivered)) = some (220, [(0, 20)]) := by
  obtain ⟨m', h, _, ht, he⟩ := modifyThreatPercent_positive World.plain 0 (ThreatMgr.single 200)
    1 0 10 0 (fun _ => 0)
    (single_wf 200) rfl rfl (fun u u' hco => by simp [World.plain] at hco) (le_refl _) rfl
    (by simp [ThreatMgr.single])
  rw [h, Option.map_some', ht, he]
  simp [ThreatMgr.single, threatChanges]
  norm_num

/-- C5: on a well-formed table whose owner is a creature, `doAddThreat(V, d)`
with `d > 0`, where `V` redirects `pct` percent to a target `S` other than `V`
that `isValidProcess` accepts, returns (given enough depth for the
charmer-or-owner chains of `V` and `S`); the threat of `V` grows by
`d - d * pct / 100` and the threat of `S` by `d * pct / 100`, the two gains
adding up to `d`, whatever redirection `S` itself is configured with. -/
theorem doAddThreat_redirect (w : World) (depth : Nat) (m : ThreatMgr) (V S : ObjectGuid)
    (d : ℚ) (o : ObjectGuid) (rank : ObjectGuid → Nat)
    (hwf : m.WellFormed) (ho : m.iOwner = some o) (hc : w.GetTypeId o = TypeID.TYPEID_UNIT)
    (hrank : ∀ u u', w.GetCharmerOrOwner u = some u' → rank u' < rank u)
    (hdepthV : rank V ≤ depth) (hdepthS : rank S ≤ depth)
    (hd : 0 < d) (htarget : w.GetRedirectThreatTarget V = some S) (hne : S ≠ V)
    (hvalid : ThreatCalcHelper.isValidProcess w (some S) m.iOwner none = some true) :
    ∃ m', ThreatMgr.doAddThreat w (ThreatMgr.reenter w depth) m V d = some m' ∧
      m'.getThreat (some V) true =
        m.getThreat (some V) true + (d - d * (w.GetRedirectThreatPercent V : ℚ) / 100) ∧
      m'.getThreat (some S) true =
        m.getThreat (some S) true + d * (w.GetRedirectThreatPercent V : ℚ) / 100 ∧
      m'.getThreatWithoutTemp (some V) true =
        m.getThreatWithoutTemp (some V) true +
          (d - d * (w.GetRedirectThreatPercent V : ℚ) / 100) ∧
      m'.getThreatWithoutTemp (some S) true =
        m.getThreatWithoutTemp (some S) true + d * (w.GetRedirectThreatPercent V : ℚ) / 100 ∧
      (d - d * (w.GetRedirectThreatPercent V : ℚ) / 100) +
        d * (w.GetRedirectThreatPercent V : ℚ) / 100 = d := by
  have hSV : (some S : Option ObjectGuid) ≠ some V := fun h => hne (Option.some.inj h)
  have hVS : (some V : Option ObjectGuid) ≠ some S := fun h => hne (Option.some.inj h).symm
  obtain ⟨m', hm'⟩ := doAddThreat_total w (ThreatMgr.reenter w depth) m V d o hwf ho hc
    (reenter_quiet w depth)
    (fun s u v hs hos hv hco => by
      refine reenter_total w o hc rank hrank depth s u hs hos ?_
      rcases hv with rfl | hv
      · exact Nat.lt_of_lt_of_le (hrank _ u hco) hdepthV
      · rw [htarget] at hv
        cases Option.some.inj hv
        exact Nat.lt_of_lt_of_le (hrank _ u hco) hdepthS)
  refine ⟨m', hm', ?_⟩
  rcases doAddThreat_cases w _ m m' V d hwf (reenter_quiet w depth) hm' with
    ⟨hno, a, _⟩ | ⟨t, _, _, ht, _, m1, a1, a2⟩ | ⟨t, _, _, ht, hv, _⟩
  · have hpct : w.GetRedirectThreatPercent V = 0 := by
      rcases hno with h | h
      · by_contra hp
        exact h ⟨hd, hp⟩
      · rw [htarget] at h
        cases h
    have t1 := a.total V
    have t2 := a.total S
    have t3 := a.threat V
    have t4 := a.threat S
    simp only [if_true, hVS, if_false, add_zero] at t1 t2 t3 t4
    rw [t1, t2, t3, t4, hpct]
    simp
  · rw [htarget] at ht
    cases Option.some.inj ht
    have t1 := a2.total V
    have t2 := a2.total S
    have t3 := a2.threat V
    have t4 := a2.threat S
    have u1 := a1.total V
    have u2 := a1.total S
    have u3 := a1.threat V
    have u4 := a1.threat S
    simp only [if_true, hVS, hSV, if_false, add_zero] at t1 t2 t3 t4 u1 u2 u3 u4
    rw [t1, t2, t3, t4, u1, u2, u3, u4]
    simp only [CalculatePct, Int.cast_natCast]
    exact ⟨trivial, trivial, trivial, trivial, by ring⟩
  · rw [htarget] at ht
    cases Option.some.inj ht
    rw [hvalid] at hv
    cases hv

/-- Witness of C5: 100 threat against unit 1, which redirects 30 percent to
unit 2, leaves 70 on unit 1 and 30 on unit 2 although unit 2 redirects half of
its own threat to unit 3. -/
theorem doAddThreat_redirect_witness :
    (ThreatMgr.doAddThreat World.redirecting (ThreatMgr.reenter World.redirecting 0)
      (ThreatMgr.new (some 0)) 1 100).map
      (fun s => (s.getThreat (some 1) true, s.getThreat (some 2) true)) = some (70, 30) := by
  obtain ⟨m', h, hV, hS, _⟩ := doAddThreat_redirect World.redirecting 0 (ThreatMgr.new (some 0))
    1 2 100 0 (fun _ => 0) (new_wf _) rfl rfl
    (fun u u' hco => by simp [World.redirecting, World.plain] at hco)
    (le_refl _) (le_refl _) (by norm_num) rfl (by decide) rfl
  rw [h, Option.map_some', hV, hS]
  simp [ThreatMgr.getThreat, ThreatContainer.getReferenceByTarget, ThreatMgr.new,
    World.redirecting, World.plain]
  norm_num

/-! ## Selection with a previous target -/

theorem consider_current (w : World) (heap : Nat → HostileReference) (attacker : ObjectGuid)
    (T r : Nat) (t : ObjectGuid) (C : Nat)
    (h : selectNextVictim.consider w heap attacker (some T) r t = some C) :
    C = T ∨ (C = r ∧ (Float32.round (heap r).getThreat >
        Float32.mul Float32.lit1_3 (heap T).getThreat ∨
      (Float32.round (heap r).getThreat > Float32.mul Float32.lit1_1 (heap T).getThreat ∧
        w.IsWithinMeleeRange attacker t = true))) := by
  unfold selectNextVictim.consider at h
  simp only [] at h
  split_ifs at h with h1 h2 h3 h4 h5
  · left; rw [← Option.some.inj h, h2]
  · right; exact ⟨(Option.some.inj h).symm, Or.inl h3⟩
  · right; exact ⟨(Option.some.inj h).symm, Or.inr ⟨h4, h5⟩⟩
  · left; exact (Option.some.inj h).symm

theorem second_current (w : World) (heap : Nat → HostileReference) (attacker : ObjectGuid)
    (T C : Nat) :
    ∀ l : List Nat,
      selectNextVictim.second w heap attacker (some T) l = some (some C) →
      C = T ∨ ((heap C).linked = true ∧
        (Float32.round (heap C).getThreat > Float32.mul Float32.lit1_3 (heap T).getThreat ∨
          (Float32.round (heap C).getThreat > Float32.mul Float32.lit1_1 (heap T).getThreat ∧
            w.IsWithinMeleeRange attacker (heap C).iUnitGuid = true))) := by
  intro l
  induction l with
  | nil => intro h; simp [selectNextVictim.second] at h
  | cons r rest ih =>
    intro h
    by_cases hl : (heap r).linked = true
    · simp only [selectNextVictim.second, HostileReference.getTarget, hl, if_true] at h
      cases hcon : selectNextVictim.consider w heap attacker (some T) r (heap r).iUnitGuid with
      | none =>
        rw [hcon] at h
        exact ih h
      | some x =>
        rw [hcon] at h
        have hx : x = C := Option.some.inj (Option.some.inj h)
        rw [hx] at hcon
        rcases consider_current w heap attacker T r _ C hcon with h1 | ⟨h1, h2⟩
        · exact Or.inl h1
        · right
          rw [h1]
          exact ⟨hl, h2⟩
    · simp [selectNextVictim.second, HostileReference.getTarget, hl] at h

theorem first_current (w : World) (heap : Nat → HostileReference) (attacker : ObjectGuid)
    (T C : Nat) (full : List Nat) :
    ∀ l : List Nat,
      selectNextVictim.first w heap attacker (some T) full l = some (some C) →
      C = T ∨ ((heap C).linked = true ∧
        (Float32.round (heap C).getThreat > Float32.mul Float32.lit1_3 (heap T).getThreat ∨
          (Float32.round (heap C).getThreat > Float32.mul Float32.lit1_1 (heap T).getThreat ∧
            w.IsWithinMeleeRange attacker (heap C).iUnitGuid = true))) := by
  intro l
  induction l with
  | nil => intro h; simp [selectNextVictim.first] at h
  | cons r rest ih =>
    intro h
    by_cases hl : (heap r).linked = true
    · simp only [selectNextVictim.first, HostileReference.getTarget, hl, if_true] at h
      split_ifs at h with hs hrest
      · exact ih h
      · exact second_current w heap attacker T C full h
      · cases hcon : selectNextVictim.consider w heap attacker (some T) r (heap r).iUnitGuid with
        | none =>
          rw [hcon] at h
          exact ih h
        | some x =>
          rw [hcon] at h
          have hx : x = C := Option.some.inj (Option.some.inj h)
          rw [hx] at hcon
          rcases consider_current w heap attacker T r _ C hcon with h1 | ⟨h1, h2⟩
          · exact Or.inl h1
          · right
            rw [h1]
            exact ⟨hl, h2⟩
    · simp [selectNextVictim.first, HostileReference.getTarget, hl] at h

theorem isValidProcess_true_not_gm (w : World) (v o : ObjectGuid) (spell : Option SpellInfo)
    (h : ThreatCalcHelper.isValidProcess w (some v) (some o) spell = some true) :
    ¬ (w.GetTypeId v = TypeID.TYPEID_PLAYER ∧ w.IsGameMaster v = true) := by
  intro hgm
  simp only [ThreatCalcHelper.isValidProcess] at h
  split_ifs at h <;> simp_all

/-- C13: let the owner `o` be a creature and `V1`, `V2` two eligible units
without master and without redirection, both attack-valid, `V1` first choice and
`V2` immune to the owner's melee school. Starting from the empty table,
recording 50 threat for `V1` and 80 for `V2` and then asking for the target
returns `V1` (the list is sorted to `V2`, `V1` and the first pass skips `V2`);
when the reference of `V1` is then set offline it moves to the offline list and
the current victim is cleared, and the next query returns `V2` through the
second pass. -/
theorem getHostilTarget_scenario (w : World) (o V1 V2 : ObjectGuid) (depth1 depth2 : Nat)
    (a1 a2 : ℚ) (school1 school2 : SpellSchoolMask) (spell1 spell2 : Option SpellInfo)
    (hc : w.GetTypeId o = TypeID.TYPEID_UNIT) (hne : V1 ≠ V2)
    (hv1 : ThreatCalcHelper.isValidProcess w (some V1) (some o) spell1 = some true)
    (hv2 : ThreatCalcHelper.isValidProcess w (some V2) (some o) spell2 = some true)
    (h50 : ThreatCalcHelper.calcThreat w V1 a1 school1 spell1 = 50)
    (h80 : ThreatCalcHelper.calcThreat w V2 a2 school2 spell2 = 80)
    (hr1 : w.GetRedirectThreatPercent V1 = 0) (hr2 : w.GetRedirectThreatPercent V2 = 0)
    (hm1 : w.GetCharmerOrOwner V1 = none) (hm2 : w.GetCharmerOrOwner V2 = none)
    (ha1 : attackValid w o V1 = true) (ha2 : attackValid w o V2 = true)
    (hp1 : secondChoice w o V1 = false)
    (hi2 : w.IsImmunedToDamageOrSchool V2 o = true) :
    ThreatMgr.addThreat w (depth1 + 1) (ThreatMgr.new (some o)) (some V1) a1 school1 spell1
        = some (Scenario.first o V1) ∧
      ThreatMgr.addThreat w (depth2 + 1) (Scenario.first o V1) (some V2) a2 school2 spell2
        = some (Scenario.both o V1 V2) ∧
      ThreatMgr.getHostilTarget w (Scenario.both o V1 V2)
        = some (some V1, Scenario.targeted o V1 V2) ∧
      HostileReference.setOnlineOfflineState w (Scenario.targeted o V1 V2) 0 false
        = some (Scenario.offline w o V1 V2) ∧
      ThreatMgr.getHostilTarget w (Scenario.offline w o V1 V2)
        = some (some V2, Scenario.retargeted w o V1 V2) := by
  have hgm1 := isValidProcess_true_not_gm w V1 o spell1 hv1
  have hgm2 := isValidProcess_true_not_gm w V2 o spell2 hv2
  have hs2 : secondChoice w o V2 = true := by simp [secondChoice, hi2]
  have hne' : V2 ≠ V1 := fun h => hne h.symm
  have hlt : ¬ ((80 : ℚ) ≤ 50) := by norm_num
  refine ⟨?_, ?_, ?_, ?_, ?_⟩
  · simp [Scenario.first, ThreatMgr.addThreat, ThreatMgr.addThreatBody, hv1, h50,
      ThreatMgr.doAddThreat, hr1,
      ThreatMgr._addThreat, ThreatContainer.addThreat, ThreatContainer.getReferenceByTarget,
      HostileReference.addThreat, HostileReference.fireStatusChanged,
      ThreatMgr.processThreatEvent, ThreatMgr.setDirty, ThreatMgr.modifyRef,
      ThreatContainer.addReference, ThreatMgr.new, hm1, hgm1]
  · simp [Scenario.both, Scenario.first, ThreatMgr.addThreat, ThreatMgr.addThreatBody, hv2, h80,
      ThreatMgr.doAddThreat, hr2,
      ThreatMgr._addThreat, ThreatContainer.addThreat, ThreatContainer.getReferenceByTarget,
      HostileReference.addThreat, HostileReference.fireStatusChanged,
      ThreatMgr.processThreatEvent, ThreatMgr.setDirty, ThreatMgr.modifyRef,
      ThreatContainer.addReference, ThreatMgr.new, hm2, hgm2, hne, hne']
  · simp [Scenario.targeted, Scenario.both, Scenario.first,
      ThreatMgr.getHostilTarget, ThreatContainer.update, ThreatContainer.sortByThreat,
      ThreatContainer.selectNextVictim, selectNextVictim.first, selectNextVictim.second,
      selectNextVictim.consider, ThreatMgr.setCurrentVictim, hc, ha1, ha2, hp1, hs2,
      HostileReference.getTarget, HostileReference.getThreat, ThreatMgr.new, hlt]
  · by_cases hsend : w.IsInWorld o = true ∧ w.GetUnit o V1 = true ∧ w.IsInMap o V1 = true
    · simp [Scenario.offline, Scenario.targeted, Scenario.both, Scenario.first,
        HostileReference.setOnlineOfflineState, HostileReference.fireStatusChanged,
        ThreatMgr.processThreatEvent, ThreatMgr.setCurrentVictim, ThreatMgr.setDirty,
        ThreatMgr.modifyRef, ThreatContainer.remove, ThreatContainer.addReference,
        ThreatMgr.new, hsend]
    · simp [Scenario.offline, Scenario.targeted, Scenario.both, Scenario.first,
        HostileReference.setOnlineOfflineState, HostileReference.fireStatusChanged,
        ThreatMgr.processThreatEvent, ThreatMgr.setCurrentVictim, ThreatMgr.setDirty,
        ThreatMgr.modifyRef, ThreatContainer.remove, ThreatContainer.addReference,
        ThreatMgr.new, hsend]
  · simp [Scenario.retargeted, Scenario.offline, Scenario.targeted, Scenario.both,
      Scenario.first,
      ThreatMgr.getHostilTarget, ThreatContainer.update, ThreatContainer.sortByThreat,
      ThreatContainer.selectNextVictim, selectNextVictim.first, selectNextVictim.second,
      selectNextVictim.consider, ThreatMgr.setCurrentVictim, hc, ha1, ha2, hp1, hs2,
      HostileReference.getTarget, HostileReference.getThreat, ThreatMgr.new]

/-- Witness of C13: owner 0, `V1` is unit 1 and `V2` is unit 2, immune, in an
otherwise plain world; the first query returns unit 1, the second unit 2. -/
theorem getHostilTarget_scenario_witness :
    ThreatMgr.getHostilTarget World.secondImmune (Scenario.both 0 1 2)
        = some (some 1, Scenario.targeted 0 1 2) ∧
      ThreatMgr.getHostilTarget World.secondImmune (Scenario.offline World.secondImmune 0 1 2)
        = some (some 2, Scenario.retargeted World.secondImmune 0 1 2) :=
  have h := getHostilTarget_scenario World.secondImmune 0 1 2 0 0 50 80
    SPELL_SCHOOL_MASK_NORMAL SPELL_SCHOOL_MASK_NORMAL none none rfl (by decide) rfl rfl
    (by simp [ThreatCalcHelper.calcThreat, Unit.ApplyTotalThreatModifier, World.secondImmune,
      World.plain])
    (by simp [ThreatCalcHelper.calcThreat, Unit.ApplyTotalThreatModifier, World.secondImmune,
      World.plain])
    rfl rfl rfl rfl rfl rfl rfl rfl
  ⟨h.2.2.1, h.2.2.2.2⟩

/-- C14: on a table whose two lists are empty and that has no current victim,
owned by a unit, `getHostilTarget` returns normally with no target and leaves
the current victim empty, the lists empty and the heap and the record of
delivered events as they were; `getThreat` is 0 for every victim, with and
without the search of the offline list. -/
theorem getHostilTarget_empty (w : World) (m : ThreatMgr) (o : ObjectGuid)
    (hon : m.iThreatContainer.iThreatList = [])
    (hoff : m.iThreatOfflineContainer.iThreatList = [])
    (hcv : m.iCurrentVictim = none) (ho : m.iOwner = some o) :
    (∃ m', m.getHostilTarget w = some (none, m') ∧ m'.iCurrentVictim = none ∧
      m'.iThreatContainer.iThreatList = [] ∧ m'.iThreatOfflineContainer.iThreatList = [] ∧
      m'.heap = m.heap ∧ m'.delivered = m.delivered) ∧
    ∀ (victim : Option ObjectGuid) (b : Bool), m.getThreat victim b = 0 := by
  constructor
  · by_cases hc : w.GetTypeId o = TypeID.TYPEID_UNIT
    · simp [ThreatMgr.getHostilTarget, ThreatContainer.update, hon, hoff, hcv, ho, hc,
        ThreatContainer.selectNextVictim, selectNextVictim.first, ThreatMgr.setCurrentVictim]
    · simp [ThreatMgr.getHostilTarget, ThreatContainer.update, hon, hoff, hcv, ho, hc,
        ThreatMgr.setCurrentVictim]
  · intro victim b
    cases victim with
    | none => simp [ThreatMgr.getThreat, ThreatContainer.getReferenceByTarget]
    | some g => simp [ThreatMgr.getThreat, ThreatContainer.getReferenceByTarget, hon, hoff]

/-- Witness of C14: the freshly constructed table of unit 0. -/
theorem getHostilTarget_empty_witness :
    (ThreatMgr.getHostilTarget World.plain (ThreatMgr.new (some 0))).map (fun r => r.1)
        = some none ∧
      (ThreatMgr.new (some 0)).getThreat (some 1) true = 0 := by
  obtain ⟨⟨m', h, _⟩, ht⟩ := getHostilTarget_empty World.plain (ThreatMgr.new (some 0)) 0
    rfl rfl rfl rfl
  exact ⟨by rw [h]; rfl, ht (some 1) true⟩

/-! ## Reset -/

/-- C15: `clearReferences` leaves both lists empty, no current victim and the
timer at `THREAT_UPDATE_INTERVAL`, whatever references the table held, and the
record of events handed to `processThreatEvent` is what it was: no
threat-changed, online-status or removal event is delivered. -/
theorem clearReferences_reset (m : ThreatMgr) :
    m.clearReferences.iThreatContainer.iThreatList = [] ∧
      m.clearReferences.iThreatOfflineContainer.iThreatList = [] ∧
      m.clearReferences.refs.length = 0 ∧
      m.clearReferences.iCurrentVictim = none ∧
      m.clearReferences.iUpdateTimer = THREAT_UPDATE_INTERVAL ∧
      m.clearReferences.delivered = m.delivered :=
  ⟨rfl, rfl, rfl, rfl, rfl, rfl⟩

theorem zeroThreat_spec :
    ∀ (l : List Nat) (m : ThreatMgr),
      (m.zeroThreat l).iThreatContainer = m.iThreatContainer ∧
        (m.zeroThreat l).iThreatOfflineContainer = m.iThreatOfflineContainer ∧
        (m.zeroThreat l).iCurrentVictim = m.iCurrentVictim ∧
        (m.zeroThreat l).delivered = m.delivered ∧
        ∀ r, (m.zeroThreat l).heap r =
          if r ∈ l then { m.heap r with iThreat := 0 } else m.heap r := by
  intro l
  induction l with
  | nil => intro m; simp [ThreatMgr.zeroThreat]
  | cons a t ih =>
    intro m
    obtain ⟨h1, h2, h3, h4, h5⟩ := ih (m.modifyRef a (fun e => e.setThreat 0))
    simp only [ThreatMgr.zeroThreat, List.foldl_cons] at h1 h2 h3 h4 h5 ⊢
    refine ⟨h1, h2, h3, h4, ?_⟩
    intro r
    rw [h5 r, modifyRef_heap]
    by_cases hra : r = a
    · subst hra
      by_cases hrt : r ∈ t <;> simp [hrt, HostileReference.setThreat]
    · by_cases hrt : r ∈ t <;> simp [hrt, hra]

/-- C16, what the code does: `resetAllAggro` changes neither list, so the table
keeps exactly its references; when the online list is not empty, every reference
of the online list has threat 0 afterwards and the dirty flag is true, and a
reference that is not in the online list keeps its threat; when the online list
is empty the state is unchanged. -/
theorem resetAllAggro_online (m : ThreatMgr) :
    m.resetAllAggro.iThreatContainer.iThreatList = m.iThreatContainer.iThreatList ∧
      m.resetAllAggro.iThreatOfflineContainer.iThreatList
        = m.iThreatOfflineContainer.iThreatList ∧
      (m.iThreatContainer.iThreatList ≠ [] →
        (∀ r ∈ m.iThreatContainer.iThreatList, (m.resetAllAggro.heap r).iThreat = 0) ∧
        m.resetAllAggro.iThreatContainer.iDirty = true) ∧
      (∀ r, r ∉ m.iThreatContainer.iThreatList → m.resetAllAggro.heap r = m.heap r) ∧
      (m.iThreatContainer.iThreatList = [] → m.resetAllAggro = m) := by
  obtain ⟨h1, h2, _, _, h5⟩ := zeroThreat_spec m.iThreatContainer.iThreatList m
  by_cases he : m.iThreatContainer.iThreatList = []
  · simp [ThreatMgr.resetAllAggro, he]
  · refine ⟨?_, ?_, ?_, ?_, fun h => absurd h he⟩
    · simp [ThreatMgr.resetAllAggro, he, ThreatMgr.setDirty, h1]
    · simp [ThreatMgr.resetAllAggro, he, ThreatMgr.setDirty, h2]
    · intro _
      constructor
      · intro r hr
        simp [ThreatMgr.resetAllAggro, he, ThreatMgr.setDirty, h5 r, hr]
      · simp [ThreatMgr.resetAllAggro, he, ThreatMgr.setDirty]
    · intro r hr
      simp [ThreatMgr.resetAllAggro, he, ThreatMgr.setDirty, h5 r, hr]

/-- Witness of C16 as amended: in the table `mixed` the online reference 0 ends
with threat 0 and the dirty flag is set. -/
theorem resetAllAggro_online_witness :
    (ThreatMgr.mixed.resetAllAggro.heap 0).iThreat = 0 ∧
      ThreatMgr.mixed.resetAllAggro.iThreatContainer.iDirty = true :=
  have h := (resetAllAggro_online ThreatMgr.mixed).2.2.1 (by simp [ThreatMgr.mixed])
  ⟨h.1 0 (by simp [ThreatMgr.mixed]), h.2⟩

/-- C16 fails as stated. In the table `mixed` the offline reference 1 keeps its
threat 20 through `resetAllAggro`; in the table `onlyOffline`, which has one
reference, the threat 20 stays and the dirty flag stays false. -/
theorem resetAllAggro_offline_kept :
    1 ∈ ThreatMgr.mixed.resetAllAggro.iThreatOfflineContainer.iThreatList ∧
      (ThreatMgr.mixed.resetAllAggro.heap 1).iThreat = 20 ∧
      0 ∈ ThreatMgr.onlyOffline.resetAllAggro.iThreatOfflineContainer.iThreatList ∧
      (ThreatMgr.onlyOffline.resetAllAggro.heap 0).iThreat = 20 ∧
      ThreatMgr.onlyOffline.resetAllAggro.iThreatContainer.iDirty = false := by
  refine ⟨?_, ?_, ?_, ?_, ?_⟩ <;>
    simp [ThreatMgr.resetAllAggro, ThreatMgr.zeroThreat, ThreatMgr.mixed,
      ThreatMgr.onlyOffline, ThreatMgr.setDirty, ThreatMgr.modifyRef,
      HostileReference.setThreat]

/-! ## Reachability -/

theorem setOnlineOfflineState_heap (w : World) (m : ThreatMgr) (ref : Nat) (b : Bool) :
    ∃ m', HostileReference.setOnlineOfflineState w m ref b = some m' ∧
      m'.iOwner = m.iOwner ∧
      ∀ x, m'.heap x = if x = ref then { m.heap ref with iOnline := b } else m.heap x := by
  by_cases h : (m.heap ref).iOnline = b
  · refine ⟨m, by simp [HostileReference.setOnlineOfflineState, h], rfl, ?_⟩
    intro x
    split_ifs with hx
    · rw [hx, ← h]
    · rfl
  · obtain ⟨m', hm', hheap, _, hown, _⟩ :=
      processThreatEvent_onlineStatus w
        (m.modifyRef ref (fun e => { e with iOnline := b })) ref 0
    refine ⟨m', ?_, hown, ?_⟩
    · simp [HostileReference.setOnlineOfflineState, h, HostileReference.fireStatusChanged, hm']
    · intro x
      rw [hheap, modifyRef_heap]

/-- C17: for a table owned by a creature, `updateOnlineStatus` returns, and
afterwards the reference is valid exactly when it was valid before or the
relink found its unit, and its online flag is true exactly when it is valid, its
unit is not a player in game-master mode, is not in flight, is in the map and
in the phase of the owner, and is in a place accessible to the owner or within
the owner's combat range. -/
theorem updateOnlineStatus_flag (w : World) (m : ThreatMgr) (ref : Nat) (o : ObjectGuid)
    (ho : m.iOwner = some o) (hc : w.GetTypeId o = TypeID.TYPEID_UNIT) :
    ∃ m', HostileReference.updateOnlineStatus w m ref = some m' ∧
      ((m'.heap ref).linked = true ↔
        ((m.heap ref).linked = true ∨ w.GetUnit o (m.heap ref).iUnitGuid = true)) ∧
      ((m'.heap ref).iOnline = true ↔
        ((m'.heap ref).linked = true ∧
          ¬ (w.GetTypeId (m.heap ref).iUnitGuid = TypeID.TYPEID_PLAYER ∧
            w.IsGameMaster (m.heap ref).iUnitGuid = true) ∧
          w.IsInFlight (m.heap ref).iUnitGuid = false ∧
          w.IsInMap (m.heap ref).iUnitGuid o = true ∧
          w.InSamePhase (m.heap ref).iUnitGuid o = true ∧
          (w.isInAccessiblePlaceFor (m.heap ref).iUnitGuid o = true ∨
            w.IsWithinCombatRange o (m.heap ref).iUnitGuid = true))) := by
  -- the relink
  have hrelink : ∃ m1, HostileReference.relink w m ref = some m1 ∧ m1.iOwner = some o ∧
      (m1.heap ref).iUnitGuid = (m.heap ref).iUnitGuid ∧
      ((m1.heap ref).linked = true ↔
        ((m.heap ref).linked = true ∨ w.GetUnit o (m.heap ref).iUnitGuid = true)) := by
    unfold HostileReference.relink
    rw [ho]
    simp only []
    by_cases hl : (m.heap ref).linked = false
    · by_cases hg : w.GetUnit o (m.heap ref).iUnitGuid = true
      · refine ⟨m.modifyRef ref (fun e => { e with linked := true }), by simp [hl, hg], ho,
          ?_, ?_⟩
        · rw [modifyRef_heap]; simp
        · rw [modifyRef_heap]; simp [hg]
      · exact ⟨m, by simp [hl, hg], ho, rfl, by simp [hl, hg]⟩
    · have hl1 : (m.heap ref).linked = true := by simpa using hl
      exact ⟨m, by simp [hl1], ho, rfl, by simp [hl1]⟩
  obtain ⟨m1, h1, ho1, hg1, hl1⟩ := hrelink
  -- the value of `online`
  have honline : ∃ online, HostileReference.canReach w m1 ref = some online ∧
      (online = true ↔
        ((m1.heap ref).linked = true ∧
          ¬ (w.GetTypeId (m.heap ref).iUnitGuid = TypeID.TYPEID_PLAYER ∧
            w.IsGameMaster (m.heap ref).iUnitGuid = true) ∧
          w.IsInFlight (m.heap ref).iUnitGuid = false ∧
          w.IsInMap (m.heap ref).iUnitGuid o = true ∧
          w.InSamePhase (m.heap ref).iUnitGuid o = true ∧
          (w.isInAccessiblePlaceFor (m.heap ref).iUnitGuid o = true ∨
            w.IsWithinCombatRange o (m.heap ref).iUnitGuid = true))) := by
    unfold HostileReference.canReach
    rw [ho1, hg1]
    simp only [hc, if_true]
    split_ifs with ha hb
    · refine ⟨_, rfl, ?_⟩
      simp only [Bool.or_eq_true]
      constructor
      · intro h
        refine ⟨ha.1, ?_, ha.2.2, hb.1, hb.2, h⟩
        rintro ⟨hp, hgm⟩
        rcases ha.2.1 with h2 | h2
        · exact h2 hp
        · rw [hgm] at h2; cases h2
      · intro h
        exact h.2.2.2.2.2
    · refine ⟨false, rfl, ?_⟩
      constructor
      · intro h; cases h
      · intro h
        exact absurd ⟨h.2.2.2.1, h.2.2.2.2.1⟩ hb
    · refine ⟨false, rfl, ?_⟩
      constructor
      · intro h; cases h
      · intro h
        exfalso
        apply ha
        refine ⟨h.1, ?_, h.2.2.1⟩
        by_cases hp : w.GetTypeId (m.heap ref).iUnitGuid = TypeID.TYPEID_PLAYER
        · right
          cases hgm : w.IsGameMaster (m.heap ref).iUnitGuid
          · rfl
          · exact absurd ⟨hp, hgm⟩ h.2.1
        · exact Or.inl hp
  obtain ⟨online, h2, hiff⟩ := honline
  obtain ⟨m2, hm2, _, hheap⟩ := setOnlineOfflineState_heap w m1 ref online
  have hl2 : (m2.heap ref).linked = (m1.heap ref).linked := by rw [hheap]; simp
  have hf2 : (m2.heap ref).iOnline = online := by rw [hheap]; simp
  refine ⟨m2, ?_, ?_, ?_⟩
  · simp only [HostileReference.updateOnlineStatus, Option.bind_eq_bind]
    rw [h1, Option.some_bind, h2, Option.some_bind, hm2]
  · rw [hl2]; exact hl1
  · rw [hf2, hl2]; exact hiff

/-- Witness of C17: in the plain world the reference of the table `onlyOffline`
comes online. -/
theorem updateOnlineStatus_flag_witness :
    (HostileReference.updateOnlineStatus World.plain ThreatMgr.onlyOffline 0).map
      (fun s => (s.heap 0).iOnline) = some true := by
  obtain ⟨m', h, hlink, hf⟩ :=
    updateOnlineStatus_flag World.plain ThreatMgr.onlyOffline 0 0 rfl rfl
  rw [h, Option.map_some']
  have hl : (m'.heap 0).linked = true := hlink.2 (Or.inl rfl)
  exact congrArg some (hf.2 ⟨hl, by simp [World.plain], rfl, rfl, rfl, Or.inl rfl⟩)

/-- C18: on a well-formed table, setting a reference `e` of the online list
offline and then online again returns both times; in between `e` is in the
offline list, and at the end `e` is in the online list and not in the offline
list, with the threat it had, and every other reference has the threat and the
temporary modifier it had. -/
theorem offline_online_roundtrip (w : World) (m : ThreatMgr) (e : Nat) (hwf : m.WellFormed)
    (he : e ∈ m.iThreatContainer.iThreatList) :
    ∃ m1 m2, HostileReference.setOnlineOfflineState w m e false = some m1 ∧
      HostileReference.setOnlineOfflineState w m1 e true = some m2 ∧
      e ∈ m1.iThreatOfflineContainer.iThreatList ∧
      e ∉ m1.iThreatContainer.iThreatList ∧
      e ∈ m2.iThreatContainer.iThreatList ∧
      e ∉ m2.iThreatOfflineContainer.iThreatList ∧
      (m2.heap e).iThreat = (m.heap e).iThreat ∧
      (m2.heap e).getThreat = (m.heap e).getThreat ∧
      ∀ r, (m2.heap r).iThreat = (m.heap r).iThreat ∧
        (m2.heap r).iTempThreatModifier = (m.heap r).iTempThreatModifier := by
  have hr : e ∈ m.refs := List.mem_append_left _ he
  obtain ⟨m1, hm1, hwf1, hs1, _, hf1⟩ := setOnlineOfflineState_spec w m e false hwf hr
  have hr1 : e ∈ m1.refs := (hs1.mem e).2 hr
  obtain ⟨m2, hm2, hwf2, hs2, _, hf2⟩ := setOnlineOfflineState_spec w m1 e true hwf1 hr1
  have hr2 : e ∈ m2.refs := (hs2.mem e).2 hr1
  refine ⟨m1, m2, hm1, hm2, hwf1.mem_offline hr1 hf1, ?_, hwf2.mem_online hr2 hf2, ?_, ?_, ?_,
    ?_⟩
  · intro hin
    have := hwf1.online e hin
    rw [hf1] at this
    cases this
  · intro hin
    have := hwf2.offline e hin
    rw [hf2] at this
    cases this
  · rw [hs2.threat, hs1.threat]
  · simp only [HostileReference.getThreat]
    rw [hs2.threat, hs1.threat, hs2.temp, hs1.temp]
  · intro r
    exact ⟨(hs2.threat r).trans (hs1.threat r), (hs2.temp r).trans (hs1.temp r)⟩

/-- Witness of C18: the reference of the table with one online reference of
threat 30 is online again with threat 30. -/
theorem offline_online_roundtrip_witness :
    ((HostileReference.setOnlineOfflineState World.plain (ThreatMgr.single 30) 0 false).bind
      (fun m1 => HostileReference.setOnlineOfflineState World.plain m1 0 true)).map
      (fun m2 => (decide (0 ∈ m2.iThreatContainer.iThreatList),
        decide (0 ∈ m2.iThreatOfflineContainer.iThreatList), (m2.heap 0).iThreat))
      = some (true, false, 30) := by
  obtain ⟨m1, m2, h1, h2, _, _, h3, h4, h5, _⟩ :=
    offline_online_roundtrip World.plain (ThreatMgr.single 30) 0 (single_wf 30)
      (List.mem_singleton_self 0)
  rw [h1, Option.some_bind, h2, Option.map_some', h5]
  simp [h3, h4, ThreatMgr.single]

/-! ## Threat of resource-generating spells -/

/-- C19, what the code does: for a spell with an energize effect or a
periodic-energize aura, `calcThreat` returns the raw amount multiplied by the
`pctMod` of the spell's threat entry (the raw amount itself when the spell has no
entry), whatever the spell-mod hook of the caster and the total threat modifier
of the victim are. -/
theorem calcThreat_energize (w : World) (hatedUnit : ObjectGuid) (threat : ℚ)
    (schoolMask : SpellSchoolMask) (spell : SpellInfo)
    (h : ∃ e ∈ spell.Effects, e.Effect = SPELL_EFFECT_ENERGIZE ∨
      e.ApplyAuraName = SPELL_AURA_PERIODIC_ENERGIZE) :
    ThreatCalcHelper.calcThreat w hatedUnit threat schoolMask (some spell) =
      threat * (w.GetSpellThreatEntry spell.Id).getD 1 := by
  have hany : spell.Effects.any (fun e =>
      e.Effect == SPELL_EFFECT_ENERGIZE || e.ApplyAuraName == SPELL_AURA_PERIODIC_ENERGIZE)
      = true := by
    rw [List.any_eq_true]
    obtain ⟨e, he, hor⟩ := h
    exact ⟨e, he, by simpa using hor⟩
  simp only [ThreatCalcHelper.calcThreat, hany, if_true]
  cases hentry : w.GetSpellThreatEntry spell.Id with
  | none => simp
  | some pctMod =>
    by_cases hp : pctMod = 1
    · simp [hp]
    · simp [hp]

/-- Witness of C19: without threat entry the raw amount 10 comes back. -/
theorem calcThreat_energize_witness :
    ThreatCalcHelper.calcThreat World.plain 1 10 SPELL_SCHOOL_MASK_NORMAL (some energizeSpell)
      = 10 := by
  have h := calcThreat_energize World.plain 1 10 SPELL_SCHOOL_MASK_NORMAL energizeSpell
    ⟨⟨SPELL_EFFECT_ENERGIZE, 0⟩, by simp [energizeSpell], Or.inl rfl⟩
  rw [h]
  simp [World.plain]

/-- C19 fails as stated: a spell with an energize effect whose threat entry has
`pctMod` 2 turns the raw amount 10 into 20. -/
theorem calcThreat_energize_scaled :
    (∃ e ∈ energizeSpell.Effects, e.Effect = SPELL_EFFECT_ENERGIZE) ∧
      ThreatCalcHelper.calcThreat World.doubledSpells 1 10 SPELL_SCHOOL_MASK_NORMAL
        (some energizeSpell) = 20 ∧
      ThreatCalcHelper.calcThreat World.doubledSpells 1 10 SPELL_SCHOOL_MASK_NORMAL
        (some energizeSpell) ≠ 10 := by
  have h20 : ThreatCalcHelper.calcThreat World.doubledSpells 1 10 SPELL_SCHOOL_MASK_NORMAL
      (some energizeSpell) = 20 := by
    simp [ThreatCalcHelper.calcThreat, World.doubledSpells, energizeSpell]
    norm_num
  refine ⟨⟨⟨SPELL_EFFECT_ENERGIZE, 0⟩, by simp [energizeSpell], rfl⟩, h20, ?_⟩
  rw [h20]
  norm_num

/-! ## Taunt -/

theorem lookup_modifyRef (m : ThreatMgr) (c : ThreatContainer) (ref : Nat)
    (f : HostileReference → HostileReference) (hg : ∀ e, (f e).iUnitGuid = e.iUnitGuid)
    (victim : Option ObjectGuid) :
    c.getReferenceByTarget (m.modifyRef ref f).heap victim
      = c.getReferenceByTarget m.heap victim := by
  cases victim with
  | none => rfl
  | some g =>
    simp only [ThreatContainer.getReferenceByTarget]
    congr 1
    funext x
    rw [modifyRef_heap]
    split_ifs with hx
    · rw [hg, hx]
    · rfl

/-- C20, what the code does: when the taunter has a reference in the online
list, `tauntApply` followed by `tauntFadeOut` leaves that reference with a
temporary modifier of 0 and with the threat it had before. -/
theorem taunt_roundtrip_online (m : ThreatMgr) (taunter : Option ObjectGuid) (ref : Nat)
    (href : m.iThreatContainer.getReferenceByTarget m.heap taunter = some ref) :
    (((m.tauntApply taunter).tauntFadeOut taunter).heap ref).iTempThreatModifier = 0 ∧
      (((m.tauntApply taunter).tauntFadeOut taunter).heap ref).iThreat
        = (m.heap ref).iThreat := by
  have happly : m.tauntApply taunter = m ∨ ∃ t, m.tauntApply taunter =
      m.modifyRef ref (fun e => e.setTempThreat t) := by
    unfold ThreatMgr.tauntApply
    rw [href]
    cases hcv : m.iCurrentVictim with
    | none => exact Or.inl rfl
    | some cv =>
      simp only []
      split_ifs
      · exact Or.inr ⟨_, rfl⟩
      · exact Or.inl rfl
      · exact Or.inl rfl
  rcases happly with h | ⟨t, h⟩
  · rw [h]
    simp [ThreatMgr.tauntFadeOut, href, modifyRef_heap, HostileReference.resetTempThreat]
  · have hlook : ThreatContainer.getReferenceByTarget
        (m.modifyRef ref (fun e => e.setTempThreat t)).heap
        (m.modifyRef ref (fun e => e.setTempThreat t)).iThreatContainer taunter = some ref :=
      (lookup_modifyRef m m.iThreatContainer ref (fun e => e.setTempThreat t) (fun _ => rfl)
        taunter).trans href
    rw [h]
    simp only [ThreatMgr.tauntFadeOut, hlook]
    simp [modifyRef_heap, HostileReference.resetTempThreat, HostileReference.setTempThreat]

/-- Witness of C20: unit 1 (reference 0, threat 10) taunts while unit 2
(threat 100) is the current victim; after the fade the modifier is 0 and the
threat 10. -/
theorem taunt_roundtrip_online_witness :
    ((ThreatMgr.withVictim.tauntApply (some 1)).heap 0).iTempThreatModifier = 100 ∧
      HostileReference.iTempThreatModifier
        (((ThreatMgr.withVictim.tauntApply (some 1)).tauntFadeOut (some 1)).heap 0) = 0 ∧
      HostileReference.iThreat
        (((ThreatMgr.withVictim.tauntApply (some 1)).tauntFadeOut (some 1)).heap 0) = 10 := by
  have h := taunt_roundtrip_online ThreatMgr.withVictim (some 1) 0
    (by simp [ThreatMgr.withVictim, ThreatContainer.getReferenceByTarget])
  refine ⟨?_, h.1, ?_⟩
  · simp [ThreatMgr.tauntApply, ThreatMgr.withVictim, ThreatContainer.getReferenceByTarget,
      ThreatMgr.modifyRef, HostileReference.setTempThreat, HostileReference.getThreat]
    norm_num
  · rw [h.2]
    simp [ThreatMgr.withVictim]

/-- C20 fails as stated: in the table `onlyOffline` the reference of unit 1 is in
the offline list with a temporary modifier of 5; `tauntApply` followed by
`tauntFadeOut` does not find it and the modifier stays 5. -/
theorem taunt_roundtrip_offline :
    0 ∈ ThreatMgr.onlyOffline.iThreatOfflineContainer.iThreatList ∧
      (ThreatMgr.onlyOffline.heap 0).iUnitGuid = 1 ∧
      HostileReference.iTempThreatModifier
        (((ThreatMgr.onlyOffline.tauntApply (some 1)).tauntFadeOut (some 1)).heap 0) = 5 := by
  refine ⟨?_, ?_, ?_⟩ <;>
    simp [ThreatMgr.tauntApply, ThreatMgr.tauntFadeOut, ThreatMgr.onlyOffline,
      ThreatContainer.getReferenceByTarget]

/-! ## `EventMap`: execution and phases -/

theorem shiftRight_small (x : Nat) (h : x < 2 ^ 24) : x >>> 24 = 0 := by
  rw [Nat.shiftRight_eq_div_pow]
  exact Nat.div_eq_of_lt h

theorem and_high_small (x : Nat) (h : x < 2 ^ 24) : x &&& 0xFF000000 = 0 := by
  apply Nat.eq_of_testBit_eq
  intro i
  rw [Nat.testBit_and, Nat.zero_testBit]
  by_cases hi : i < 24
  · have : Nat.testBit 0xFF000000 i = false := by
      interval_cases i <;> rfl
    rw [this, Bool.and_false]
  · have : Nat.testBit x i = false := by
      apply Nat.testBit_eq_false_of_lt
      exact lt_of_lt_of_le h (Nat.pow_le_pow_right (by norm_num) (by omega))
    rw [this, Bool.false_and]

theorem and_low (x : Nat) : x &&& 0x0000FFFF = x % 2 ^ 16 :=
  Nat.and_pow_two_sub_one_eq_mod x 16

theorem shiftRight_or (a b n : Nat) : (a ||| b) >>> n = a >>> n ||| b >>> n := by
  apply Nat.eq_of_testBit_eq
  intro i
  simp only [Nat.testBit_shiftRight, Nat.testBit_or]

/-- The value of `eventId` after the group was packed into it. -/
theorem eventId_group (eventId group : Nat) (hid : eventId < 2 ^ 16) :
    ∃ y, (if group ≠ 0 ∧ group ≤ 8 then eventId ||| (1 <<< (group + 15)) else eventId) = y ∧
      y < 2 ^ 24 ∧ y &&& 0x0000FFFF = eventId := by
  have hlow : eventId &&& 0x0000FFFF = eventId := by
    rw [and_low]; exact Nat.mod_eq_of_lt hid
  refine ⟨_, rfl, ?_, ?_⟩
  · split_ifs with h
    · obtain ⟨h0, h8⟩ := h
      apply Nat.or_lt_two_pow
      · exact lt_trans hid (by norm_num)
      · interval_cases group <;> first | exact absurd rfl h0 | decide
    · exact lt_trans hid (by norm_num)
  · split_ifs with h
    · obtain ⟨h0, h8⟩ := h
      have h2 : (1 <<< (group + 15)) &&& 0x0000FFFF = 0 := by
        interval_cases group <;> first | exact absurd rfl h0 | decide
      rw [Nat.and_distrib_right, hlow, h2, Nat.or_zero]
    · exact hlow

theorem eventId_shift (eventId group phase : Nat) (hid : eventId < 2 ^ 16) :
    EventMap.ScheduleEvent.eventId eventId group phase >>> 24 =
      if phase ≠ 0 ∧ phase ≤ 8 then 1 <<< (phase - 1) else 0 := by
  obtain ⟨y, hy, hlt, -⟩ := eventId_group eventId group hid
  simp only [EventMap.ScheduleEvent.eventId, hy]
  split_ifs with h
  · obtain ⟨h0, h8⟩ := h
    rw [shiftRight_or, shiftRight_small _ hlt, Nat.zero_or]
    interval_cases phase <;> first | exact absurd rfl h0 | decide
  · exact shiftRight_small _ hlt

theorem eventId_low (eventId group phase : Nat) (hid : eventId < 2 ^ 16) :
    EventMap.ScheduleEvent.eventId eventId group phase &&& 0x0000FFFF = eventId := by
  obtain ⟨y, hy, -, hlow⟩ := eventId_group eventId group hid
  simp only [EventMap.ScheduleEvent.eventId, hy]
  split_ifs with h
  · obtain ⟨h0, h8⟩ := h
    have h2 : (1 <<< (phase + 23)) &&& 0x0000FFFF = 0 := by
      interval_cases phase <;> first | exact absurd rfl h0 | decide
    rw [Nat.and_distrib_right, hlow, h2, Nat.or_zero]
  · exact hlow

theorem eventId_nophase (eventId group phase : Nat) (hid : eventId < 2 ^ 16)
    (hp : ¬ (phase ≠ 0 ∧ phase ≤ 8)) :
    EventMap.ScheduleEvent.eventId eventId group phase &&& 0xFF000000 = 0 := by
  obtain ⟨y, hy, hlt, -⟩ := eventId_group eventId group hid
  simp only [EventMap.ScheduleEvent.eventId, hy, if_neg hp]
  exact and_high_small _ hlt

theorem eventId_hasphase (eventId group phase : Nat) (h0 : phase ≠ 0) (h8 : phase ≤ 8) :
    EventMap.ScheduleEvent.eventId eventId group phase &&& 0xFF000000 ≠ 0 := by
  intro h
  have hbit : (EventMap.ScheduleEvent.eventId eventId group phase &&& 0xFF000000).testBit
      (phase + 23) = true := by
    have h1 : Nat.testBit 0xFF000000 (phase + 23) = true := by
      interval_cases phase <;> first | exact absurd rfl h0 | rfl
    simp only [EventMap.ScheduleEvent.eventId, if_pos (And.intro h0 h8), Nat.testBit_and,
      Nat.testBit_or, Nat.testBit_shiftLeft, h1]
    simp
  rw [h, Nat.zero_testBit] at hbit
  cases hbit

theorem insert_mem (s : EventStore) (v x : Nat × Nat) :
    x ∈ EventStore.insert s v ↔ x = v ∨ x ∈ s := by
  induction s with
  | nil => simp [EventStore.insert]
  | cons e rest ih =>
    simp only [EventStore.insert]
    split_ifs with h
    · simp
    · simp only [List.mem_cons, ih]
      tauto

theorem insert_sorted (s : EventStore) (v : Nat × Nat)
    (hs : s.Pairwise (fun a b => a.1 ≤ b.1)) :
    (EventStore.insert s v).Pairwise (fun a b => a.1 ≤ b.1) := by
  induction s with
  | nil => simp [EventStore.insert]
  | cons e rest ih =>
    simp only [EventStore.insert]
    rw [List.pairwise_cons] at hs
    split_ifs with h
    · refine List.pairwise_cons.2 ⟨?_, List.pairwise_cons.2 hs⟩
      intro x hx
      rcases List.mem_cons.1 hx with rfl | hx
      · exact le_of_lt h
      · exact le_trans (le_of_lt h) (hs.1 x hx)
    · refine List.pairwise_cons.2 ⟨?_, ih hs.2⟩
      intro x hx
      rcases (insert_mem rest v x).1 hx with rfl | hx
      · exact not_lt.1 h
      · exact hs.1 x hx

/-- `ScheduleEvent` keeps the entries ordered by time. -/
theorem ScheduleEvent_sorted (m : EventMap) (eventId time group phase : Nat)
    (hs : m._eventMap.Pairwise (fun a b => a.1 ≤ b.1)) :
    (m.ScheduleEvent eventId time group phase)._eventMap.Pairwise (fun a b => a.1 ≤ b.1) :=
  insert_sorted _ _ hs

/-- C21: with phase mask 0 and a first entry whose time is not after the timer,
`ExecuteEvent` returns the low 16 bits of the id of that entry and removes that
entry and no other; on an empty map, or when the time of the first entry is
after the timer, it returns 0 and leaves the map as it was. The first entry is
an earliest one whenever the entries are ordered by time, as `ScheduleEvent`
keeps them. -/
theorem ExecuteEvent_next (m : EventMap) :
    (∀ itr rest, m._eventMap = itr :: rest → m._phase = 0 → itr.1 ≤ m._time →
      m.ExecuteEvent =
        (itr.2 &&& 0x0000FFFF, { m with _lastEvent := itr.2, _eventMap := rest })) ∧
    (m._eventMap = [] ∨ (∃ itr rest, m._eventMap = itr :: rest ∧ itr.1 > m._time) →
      m.ExecuteEvent = (0, m)) ∧
    (∀ itr rest, m._eventMap = itr :: rest → m._eventMap.Pairwise (fun a b => a.1 ≤ b.1) →
      ∀ entry ∈ m._eventMap, itr.1 ≤ entry.1) := by
  refine ⟨?_, ?_, ?_⟩
  · intro itr rest hstore hphase hdue
    have h : ¬ itr.1 > m._time := not_lt.2 hdue
    simp [EventMap.ExecuteEvent, EventMap.ExecuteEvent.loop, hstore, hphase, h]
  · rintro (hempty | ⟨itr, rest, hstore, hlate⟩)
    · simp only [EventMap.ExecuteEvent, EventMap.ExecuteEvent.loop, hempty]
      cases m
      simp_all
    · simp only [EventMap.ExecuteEvent, EventMap.ExecuteEvent.loop, hstore, hlate, if_true]
      cases m
      simp_all
  · intro itr rest hstore hsorted entry hentry
    rw [hstore] at hsorted hentry
    rcases List.mem_cons.1 hentry with rfl | hrest
    · exact le_refl _
    · exact (List.pairwise_cons.1 hsorted).1 entry hrest

/-- Witness of C21. Event 7 is scheduled 5 ms ahead and event 8 is scheduled 6 ms
ahead on a new map; after 10 ms `ExecuteEvent` returns 7 and leaves the entry of
event 8, and after 3 ms it returns 0 and leaves both entries. -/
theorem ExecuteEvent_next_witness :
    ((((⟨0, 0, 0, []⟩ : EventMap).ScheduleEvent 7 5 0 0).ScheduleEvent 8 6 0 0).Update
        10).ExecuteEvent = (7, ⟨10, 0, 7, [(6, 8)]⟩) ∧
      ((((⟨0, 0, 0, []⟩ : EventMap).ScheduleEvent 7 5 0 0).ScheduleEvent 8 6 0 0).Update
        3).ExecuteEvent = (0, ⟨3, 0, 0, [(5, 7), (6, 8)]⟩) :=
  ⟨(ExecuteEvent_next _).1 (5, 7) [(6, 8)] (by decide) (by decide) (by decide),
    (ExecuteEvent_next _).2.1 (Or.inr ⟨(5, 7), [(6, 8)], by decide, by decide⟩)⟩

/-- C22, counterexample. Event 7 is scheduled for phase 1 on a map whose phase
mask is 0: `ExecuteEvent` returns it although `IsInPhase(1)` is false. -/
theorem ExecuteEvent_phase_unset :
    ((⟨0, 0, 0, []⟩ : EventMap).ScheduleEvent 7 0 0 1).ExecuteEvent.1 = 7 ∧
      ((⟨0, 0, 0, []⟩ : EventMap).ScheduleEvent 7 0 0 1).IsInPhase 1 = false := by
  decide

theorem isInPhase_iff (m : EventMap) (eventId group phase : Nat) (hid : eventId < 2 ^ 16)
    (h0 : phase ≠ 0) (h8 : phase ≤ 8) :
    m.IsInPhase phase = true ↔
      (EventMap.ScheduleEvent.eventId eventId group phase >>> 24) &&& m._phase ≠ 0 := by
  rw [eventId_shift eventId group phase hid, if_pos (And.intro h0 h8), Nat.and_comm]
  simp [EventMap.IsInPhase, h0, h8]

/-- C22, amended. For an id below `2 ^ 16`: an entry scheduled with a phase from 1
to 8 is returned by `ExecuteEvent` only in a state whose phase mask is 0 or in
which `IsInPhase` of that phase is true; when it is the first entry and due, it
is returned in such a state and erased without being returned in every other
state. An entry scheduled with phase 0 that is the first entry and due is
returned whatever the phase mask is. -/
theorem ExecuteEvent_phase (m : EventMap) (eventId group phase : Nat)
    (hid : eventId < 2 ^ 16) :
    (phase ≠ 0 → phase ≤ 8 → ∀ t store,
      EventMap.ExecuteEvent.loop m._time m._phase m._eventMap =
        (some (t, EventMap.ScheduleEvent.eventId eventId group phase), store) →
      m._phase = 0 ∨ m.IsInPhase phase = true) ∧
    (phase ≠ 0 → phase ≤ 8 → ∀ t rest,
      m._eventMap = (t, EventMap.ScheduleEvent.eventId eventId group phase) :: rest →
      t ≤ m._time →
      (m._phase = 0 ∨ m.IsInPhase phase = true →
        m.ExecuteEvent = (eventId, { m with
          _lastEvent := EventMap.ScheduleEvent.eventId eventId group phase
          _eventMap := rest })) ∧
      (¬ (m._phase = 0 ∨ m.IsInPhase phase = true) →
        m.ExecuteEvent = { m with _eventMap := rest }.ExecuteEvent)) ∧
    (∀ t rest, m._eventMap = (t, EventMap.ScheduleEvent.eventId eventId group 0) :: rest →
      t ≤ m._time →
      m.ExecuteEvent = (eventId, { m with
        _lastEvent := EventMap.ScheduleEvent.eventId eventId group 0
        _eventMap := rest })) := by
  refine ⟨?_, ?_, ?_⟩
  · intro h0 h8 t store
    have key : ∀ l : EventStore, EventMap.ExecuteEvent.loop m._time m._phase l =
        (some (t, EventMap.ScheduleEvent.eventId eventId group phase), store) →
        m._phase = 0 ∨ m.IsInPhase phase = true := by
      intro l
      induction l with
      | nil => intro h; simp [EventMap.ExecuteEvent.loop] at h
      | cons e rest ih =>
        intro h
        simp only [EventMap.ExecuteEvent.loop] at h
        split_ifs at h with h1 h2
        · simp at h
        · exact ih h
        · have he : e = (t, EventMap.ScheduleEvent.eventId eventId group phase) := by
            simpa using congrArg Prod.fst h
          rw [he] at h2
          by_cases hp : m._phase = 0
          · exact Or.inl hp
          · right
            rw [isInPhase_iff m eventId group phase hid h0 h8]
            intro hz
            exact h2 ⟨hp, eventId_hasphase eventId group phase h0 h8, hz⟩
    exact key _
  · intro h0 h8 t rest hstore hdue
    have h : ¬ t > m._time := not_lt.2 hdue
    constructor
    · intro hin
      have hskip : ¬ (m._phase ≠ 0 ∧
          EventMap.ScheduleEvent.eventId eventId group phase &&& 0xFF000000 ≠ 0 ∧
          (EventMap.ScheduleEvent.eventId eventId group phase >>> 24) &&& m._phase = 0) := by
        rintro ⟨hp, -, hz⟩
        rcases hin with hin | hin
        · exact hp hin
        · exact (isInPhase_iff m eventId group phase hid h0 h8).1 hin hz
      simp only [EventMap.ExecuteEvent, EventMap.ExecuteEvent.loop, hstore, h, if_false, hskip,
        eventId_low eventId group phase hid]
    · intro hout
      have hskip : m._phase ≠ 0 ∧
          EventMap.ScheduleEvent.eventId eventId group phase &&& 0xFF000000 ≠ 0 ∧
          (EventMap.ScheduleEvent.eventId eventId group phase >>> 24) &&& m._phase = 0 := by
        refine ⟨fun hp => hout (Or.inl hp), eventId_hasphase eventId group phase h0 h8, ?_⟩
        by_contra hz
        exact hout (Or.inr ((isInPhase_iff m eventId group phase hid h0 h8).2 hz))
      have hloop : EventMap.ExecuteEvent.loop m._time m._phase
          ((t, EventMap.ScheduleEvent.eventId eventId group phase) :: rest) =
          EventMap.ExecuteEvent.loop m._time m._phase rest := by
        simp only [EventMap.ExecuteEvent.loop]
        rw [if_neg h, if_pos hskip]
      simp only [EventMap.ExecuteEvent, hstore, hloop]
  · intro t rest hstore hdue
    have h : ¬ t > m._time := not_lt.2 hdue
    have hno : EventMap.ScheduleEvent.eventId eventId group 0 &&& 0xFF000000 = 0 :=
      eventId_nophase eventId group 0 hid (by simp)
    simp only [EventMap.ExecuteEvent, EventMap.ExecuteEvent.loop, hstore, h, if_false, hno,
      ne_eq, not_true_eq_false, false_and, and_false, eventId_low eventId group 0 hid]

/-- Witness of C22, amended. Event 7 scheduled for phase 2 is returned in phase
2 and erased unreturned in phase 1; event 7 scheduled without phase is returned
in phase 1. -/
theorem ExecuteEvent_phase_witness :
    ((((⟨0, 0, 0, []⟩ : EventMap).SetPhase 2).ScheduleEvent 7 0 0 2).ExecuteEvent =
        (7, ⟨0, 2, 33554439, []⟩)) ∧
      ((((⟨0, 0, 0, []⟩ : EventMap).SetPhase 1).ScheduleEvent 7 0 0 2).ExecuteEvent =
        (0, ⟨0, 1, 0, []⟩)) ∧
      ((((⟨0, 0, 0, []⟩ : EventMap).SetPhase 1).ScheduleEvent 7 0 0 0).ExecuteEvent =
        (7, ⟨0, 1, 7, []⟩)) :=
  ⟨((ExecuteEvent_phase (((⟨0, 0, 0, []⟩ : EventMap).SetPhase 2).ScheduleEvent 7 0 0 2) 7 0 2
      (by decide)).2.1 (by decide) (by decide) 0 [] (by decide) (by decide)).1
      (Or.inr (by decide)),
    ((ExecuteEvent_phase (((⟨0, 0, 0, []⟩ : EventMap).SetPhase 1).ScheduleEvent 7 0 0 2) 7 0 2
      (by decide)).2.1 (by decide) (by decide) 0 [] (by decide) (by decide)).2 (by decide),
    (ExecuteEvent_phase (((⟨0, 0, 0, []⟩ : EventMap).SetPhase 1).ScheduleEvent 7 0 0 0) 7 0 0
      (by decide)).2.2 0 [] (by decide) (by decide)⟩

/-! ## The first candidate of the scan -/

/-- With a previous target that has its unit, is attack-valid, not immune and
without breakable aura, `selectNextVictim` is the scan with that target. -/
theorem selectNextVictim_kept (w : World) (heap : Nat → HostileReference)
    (c : ThreatContainer) (attacker : ObjectGuid) (T : Nat)
    (hT : (heap T).linked = true)
    (hvalid : attackValid w attacker (heap T).iUnitGuid = true)
    (himmune : w.IsImmunedToDamageOrSchool (heap T).iUnitGuid attacker = false)
    (hbreak : w.HasNegativeAuraWithInterruptFlag (heap T).iUnitGuid = false) :
    c.selectNextVictim w heap attacker (some T) =
      selectNextVictim.first w heap attacker (some T) c.iThreatList c.iThreatList := by
  simp only [ThreatContainer.selectNextVictim, HostileReference.getTarget, hT, if_true, hvalid,
    himmune, hbreak, Bool.true_eq_false, Bool.false_eq_true, or_self, if_false,
    Option.bind_eq_bind, Option.some_bind]

/-- C25: a previous target that has its unit and fails the attack-validity
test, or is immune to the melee school of the attacker, or has a negative aura
that damage breaks, gives the result of `selectNextVictim` without previous
target. -/
theorem selectNextVictim_discarded (w : World) (heap : Nat → HostileReference)
    (c : ThreatContainer) (attacker : ObjectGuid) (cv : Nat)
    (hcv : (heap cv).linked = true)
    (hdiscard : attackValid w attacker (heap cv).iUnitGuid = false ∨
      w.IsImmunedToDamageOrSchool (heap cv).iUnitGuid attacker = true ∨
      w.HasNegativeAuraWithInterruptFlag (heap cv).iUnitGuid = true) :
    c.selectNextVictim w heap attacker (some cv) = c.selectNextVictim w heap attacker none := by
  simp only [ThreatContainer.selectNextVictim, HostileReference.getTarget, hcv, if_true,
    Option.bind_eq_bind, Option.some_bind]
  by_cases hv : attackValid w attacker (heap cv).iUnitGuid = false
  · simp [hv]
  · rcases hdiscard with h | h | h
    · exact absurd h hv
    · simp [hv, h]
    · simp [hv, h]

/-- Witness of C25: with unit 2 immune, the previous target reference 1 (unit
2) gives the result of the scan without previous target, reference 0. -/
theorem selectNextVictim_discarded_witness :
    ThreatContainer.selectNextVictim World.secondImmune heapTwo ⟨[0, 1], false⟩ 0 (some 1) =
        ThreatContainer.selectNextVictim World.secondImmune heapTwo ⟨[0, 1], false⟩ 0 none ∧
      ThreatContainer.selectNextVictim World.secondImmune heapTwo ⟨[0, 1], false⟩ 0 none =
        some (some 0) :=
  ⟨selectNextVictim_discarded World.secondImmune heapTwo ⟨[0, 1], false⟩ 0 1 rfl
      (Or.inr (Or.inl rfl)),
    by simp [ThreatContainer.selectNextVictim, selectNextVictim.first,
      selectNextVictim.consider, HostileReference.getTarget, secondChoice, attackValid,
      heapTwo, World.secondImmune, World.plain]⟩

/-! ## The dirty flag and the maintenance pass -/

/-- C26: `e` receives the delta `d` through `HostileReference::addThreat`; `m2`
is the state after the threat was written and, for an offline `e`, after
`updateOnlineStatus`. The state `m3` after the event step has the threat-changed
event for `e` and `d` appended to the record exactly when `d` is not 0, has the
dirty flag true when `e` is the current victim and `d < 0` or `e` is not the
current victim and `d > 0`, and the dirty flag of `m2` otherwise (so also for
`d = 0`); heap, current victim and both lists are those of `m2`. The call
returns `m3`, or what the nested `addThreat` for the charmer or owner of the
unit of `e` makes of `m3`. -/
theorem addThreat_dirty (w : World) (reenter : ThreatMgr → ObjectGuid → Option ThreatMgr)
    (m : ThreatMgr) (e : Nat) (d : ℚ) (m2 : ThreatMgr)
    (h2 : (if (m.heap e).iOnline = false then
        HostileReference.updateOnlineStatus w
          (m.modifyRef e (fun x => { x with iThreat := x.iThreat + d })) e
      else some (m.modifyRef e (fun x => { x with iThreat := x.iThreat + d }))) = some m2) :
    ∃ m3 : ThreatMgr,
      (HostileReference.addThreat w reenter m e d = some m3 ∨
        ∃ victimOwner, w.GetCharmerOrOwner (m3.heap e).iUnitGuid = some victimOwner ∧
          HostileReference.addThreat w reenter m e d = reenter m3 victimOwner) ∧
      m3.delivered = m2.delivered ++
        (if d ≠ 0 then [Notice.threatEvent ⟨.UEV_THREAT_REF_THREAT_CHANGE, e, d⟩] else []) ∧
      m3.iThreatContainer.iDirty =
        (if (m2.iCurrentVictim = some e ∧ d < 0) ∨ (m2.iCurrentVictim ≠ some e ∧ d > 0) then true
          else m2.iThreatContainer.iDirty) ∧
      m3.heap = m2.heap ∧ m3.iCurrentVictim = m2.iCurrentVictim ∧
      m3.iThreatContainer.iThreatList = m2.iThreatContainer.iThreatList ∧
      m3.iThreatOfflineContainer = m2.iThreatOfflineContainer := by
  have hflag : ((m.modifyRef e (fun x => { x with iThreat := x.iThreat + d })).heap e).iOnline
      = (m.heap e).iOnline := by
    rw [modifyRef_heap]; simp
  have hstep : ∃ m3 : ThreatMgr,
      (if d ≠ 0 then
        HostileReference.fireStatusChanged w m2 ⟨.UEV_THREAT_REF_THREAT_CHANGE, e, d⟩
      else some m2) = some m3 ∧
      m3.delivered = m2.delivered ++
        (if d ≠ 0 then [Notice.threatEvent ⟨.UEV_THREAT_REF_THREAT_CHANGE, e, d⟩] else []) ∧
      m3.iThreatContainer.iDirty =
        (if (m2.iCurrentVictim = some e ∧ d < 0) ∨ (m2.iCurrentVictim ≠ some e ∧ d > 0) then true
          else m2.iThreatContainer.iDirty) ∧
      m3.heap = m2.heap ∧ m3.iCurrentVictim = m2.iCurrentVictim ∧
      m3.iThreatContainer.iThreatList = m2.iThreatContainer.iThreatList ∧
      m3.iThreatOfflineContainer = m2.iThreatOfflineContainer := by
    by_cases hd : d ≠ 0
    · by_cases hc : (m2.iCurrentVictim = some e ∧ d < 0) ∨ (m2.iCurrentVictim ≠ some e ∧ d > 0)
      · refine ⟨ThreatMgr.setDirty { m2 with delivered := m2.delivered ++
            [Notice.threatEvent ⟨.UEV_THREAT_REF_THREAT_CHANGE, e, d⟩] } true, ?_, ?_⟩
        · simp only [hd, if_true, HostileReference.fireStatusChanged,
            ThreatMgr.processThreatEvent, ne_eq, not_false_eq_true]
          rw [if_pos hc]
        · simp [ThreatMgr.setDirty, hd, hc]
      · refine ⟨{ m2 with delivered := m2.delivered ++
            [Notice.threatEvent ⟨.UEV_THREAT_REF_THREAT_CHANGE, e, d⟩] }, ?_, ?_⟩
        · simp only [hd, if_true, HostileReference.fireStatusChanged,
            ThreatMgr.processThreatEvent, ne_eq, not_false_eq_true]
          rw [if_neg hc]
        · simp [hd, hc]
    · have hd0 : d = 0 := by simpa using hd
      refine ⟨m2, by simp [hd0], ?_⟩
      simp [hd0]
  obtain ⟨m3, h3, hrest⟩ := hstep
  refine ⟨m3, ?_, hrest⟩
  simp only [HostileReference.addThreat, Option.bind_eq_bind, hflag, h2, Option.some_bind, h3]
  split_ifs with h4 h5
  · cases hco : w.GetCharmerOrOwner (m3.heap e).iUnitGuid with
    | none => left; rfl
    | some u =>
      simp only []
      split_ifs
      · right; exact ⟨u, rfl, rfl⟩
      · left; rfl
  · left; rfl
  · left; rfl

/-- Witness of C26: in the table whose current victim is reference 1, a delta of
5 on reference 0 sets the dirty flag and a delta of -5 on it leaves the flag
clear. -/
theorem addThreat_dirty_witness :
    (∃ m3, HostileReference.addThreat World.plain (ThreatMgr.reenter World.plain 0)
        ThreatMgr.withVictim 0 5 = some m3 ∧ m3.iThreatContainer.iDirty = true) ∧
      (∃ m3, HostileReference.addThreat World.plain (ThreatMgr.reenter World.plain 0)
        ThreatMgr.withVictim 0 (-5) = some m3 ∧ m3.iThreatContainer.iDirty = false) := by
  constructor
  · obtain ⟨m3, hret, -, hdirty, -, -, -, -⟩ :=
      addThreat_dirty World.plain (ThreatMgr.reenter World.plain 0) ThreatMgr.withVictim 0 5
        (ThreatMgr.withVictim.modifyRef 0 (fun x => { x with iThreat := x.iThreat + 5 }))
        (by simp [ThreatMgr.withVictim])
    refine ⟨m3, ?_, ?_⟩
    · rcases hret with h | ⟨u, hu, -⟩
      · exact h
      · simp [World.plain] at hu
    · rw [hdirty]
      simp [ThreatMgr.withVictim, ThreatMgr.modifyRef]
  · obtain ⟨m3, hret, -, hdirty, -, -, -, -⟩ :=
      addThreat_dirty World.plain (ThreatMgr.reenter World.plain 0) ThreatMgr.withVictim 0 (-5)
        (ThreatMgr.withVictim.modifyRef 0 (fun x => { x with iThreat := x.iThreat + (-5) }))
        (by simp [ThreatMgr.withVictim])
    refine ⟨m3, ?_, ?_⟩
    · rcases hret with h | ⟨u, hu, -⟩
      · exact h
      · simp [World.plain] at hu
    · rw [hdirty]
      simp [ThreatMgr.withVictim, ThreatMgr.modifyRef]

theorem orderedInsert_filter (heap : Nat → HostileReference) (t : ℚ) (a : Nat) :
    ∀ l : List Nat,
      (List.orderedInsert (fun x y => (heap x).getThreat ≥ (heap y).getThreat) a l).filter
          (fun r => decide ((heap r).getThreat = t)) =
        (a :: l).filter (fun r => decide ((heap r).getThreat = t)) := by
  intro l
  induction l with
  | nil => simp
  | cons b l ih =>
    simp only [List.orderedInsert]
    split_ifs with h
    · rfl
    · have hlt : (heap a).getThreat < (heap b).getThreat := not_le.1 h
      by_cases hb : (heap b).getThreat = t
      · have ha : ¬ (heap a).getThreat = t := fun ha => by rw [ha, hb] at hlt; exact lt_irrefl _ hlt
        simp [List.filter_cons, hb, ha] at ih ⊢
        exact ih
      · by_cases ha : (heap a).getThreat = t
        · simp [List.filter_cons, hb, ha] at ih ⊢
          exact ih
        · simp [List.filter_cons, hb, ha] at ih ⊢
          exact ih

theorem sortByThreat_filter (heap : Nat → HostileReference) (t : ℚ) :
    ∀ l : List Nat,
      (ThreatContainer.sortByThreat heap l).filter (fun r => decide ((heap r).getThreat = t)) =
        l.filter (fun r => decide ((heap r).getThreat = t)) := by
  intro l
  induction l with
  | nil => rfl
  | cons a l ih =>
    simp only [ThreatContainer.sortByThreat, List.insertionSort] at ih ⊢
    rw [orderedInsert_filter, List.filter_cons, List.filter_cons, ih]

theorem sortByThreat_perm (heap : Nat → HostileReference) (l : List Nat) :
    (ThreatContainer.sortByThreat heap l).Perm l :=
  List.perm_insertionSort _ l

theorem sortByThreat_sorted (heap : Nat → HostileReference) (l : List Nat) :
    (ThreatContainer.sortByThreat heap l).Pairwise
      (fun a b => (heap a).getThreat ≥ (heap b).getThreat) := by
  haveI : IsTotal Nat (fun a b => (heap a).getThreat ≥ (heap b).getThreat) :=
    ⟨fun a b => le_total _ _⟩
  haveI : IsTrans Nat (fun a b => (heap a).getThreat ≥ (heap b).getThreat) :=
    ⟨fun a b c hab hbc => le_trans hbc hab⟩
  exact List.sorted_insertionSort _ l

/-- C28: after `update` the dirty flag is false. If it was true, the list is a
permutation of the previous list, ordered by non-increasing threat, and for
every threat value the references with that threat are in their previous
order; if it was false, the list is the previous list. -/
theorem update_sorted (heap : Nat → HostileReference) (c : ThreatContainer) :
    (c.update heap).iDirty = false ∧
    (c.iDirty = true →
      (c.update heap).iThreatList.Perm c.iThreatList ∧
      (c.update heap).iThreatList.Pairwise
        (fun a b => (heap a).getThreat ≥ (heap b).getThreat) ∧
      ∀ t : ℚ, (c.update heap).iThreatList.filter (fun r => decide ((heap r).getThreat = t)) =
        c.iThreatList.filter (fun r => decide ((heap r).getThreat = t))) ∧
    (c.iDirty = false → (c.update heap).iThreatList = c.iThreatList) := by
  refine ⟨rfl, ?_, ?_⟩
  · intro hdirty
    by_cases hlen : c.iThreatList.length > 1
    · have hlist : (c.update heap).iThreatList = ThreatContainer.sortByThreat heap c.iThreatList := by
        simp [ThreatContainer.update, hdirty, hlen]
      rw [hlist]
      exact ⟨sortByThreat_perm heap _, sortByThreat_sorted heap _,
        fun t => sortByThreat_filter heap t _⟩
    · have hlist : (c.update heap).iThreatList = c.iThreatList := by
        simp [ThreatContainer.update, hdirty, hlen]
      rw [hlist]
      refine ⟨List.Perm.refl _, ?_, fun _ => rfl⟩
      cases hl : c.iThreatList with
      | nil => exact List.Pairwise.nil
      | cons a rest =>
        cases rest with
        | nil => exact List.pairwise_singleton _ _
        | cons b rest2 =>
          rw [hl] at hlen
          simp at hlen
  · intro hclean
    simp [ThreatContainer.update, hclean]

/-- Witness of C28: the dirty list of the references 1 (threat 50), 0 (threat
80) and 2 (threat 50) becomes 0, 1, 2, and the same list marked clean is kept. -/
theorem update_sorted_witness :
    ((ThreatContainer.update heapTwo ⟨[1, 0, 2], true⟩).iThreatList.Pairwise
        (fun a b => (heapTwo a).getThreat ≥ (heapTwo b).getThreat)) ∧
      ThreatContainer.update heapTwo ⟨[1, 0, 2], true⟩ = ⟨[0, 1, 2], false⟩ ∧
      (ThreatContainer.update heapTwo ⟨[1, 0, 2], false⟩).iThreatList = [1, 0, 2] :=
  ⟨((update_sorted heapTwo ⟨[1, 0, 2], true⟩).2.1 rfl).2.1,
    by
      simp [ThreatContainer.update, ThreatContainer.sortByThreat, List.insertionSort,
        List.orderedInsert, heapTwo, HostileReference.getThreat]
      norm_num,
    (update_sorted heapTwo ⟨[1, 0, 2], false⟩).2.2 rfl⟩

/-! ## Transitions between the two lists -/

/-- C29: setting offline a reference `e` whose online flag is set returns; `e`
is removed from the online list and appended to the offline list. If `e` was
the current victim, there is no current victim afterwards and the dirty flag is
true; otherwise current victim and dirty flag are unchanged. -/
theorem setOffline_moves (w : World) (m : ThreatMgr) (e : Nat)
    (hon : (m.heap e).iOnline = true) :
    ∃ m', HostileReference.setOnlineOfflineState w m e false = some m' ∧
      m'.iThreatContainer.iThreatList = m.iThreatContainer.iThreatList.filter (fun r => r != e) ∧
      e ∉ m'.iThreatContainer.iThreatList ∧
      m'.iThreatOfflineContainer.iThreatList = m.iThreatOfflineContainer.iThreatList ++ [e] ∧
      (m.iCurrentVictim = some e →
        m'.iCurrentVictim = none ∧ m'.iThreatContainer.iDirty = true) ∧
      (m.iCurrentVictim ≠ some e →
        m'.iCurrentVictim = m.iCurrentVictim ∧
        m'.iThreatContainer.iDirty = m.iThreatContainer.iDirty) := by
  have hne : (m.heap e).iOnline ≠ false := by rw [hon]; decide
  have hflag : ((m.modifyRef e (fun x => { x with iOnline := false })).heap e).iOnline
      = false := by
    rw [modifyRef_heap]; simp
  simp only [HostileReference.setOnlineOfflineState, hne, if_true, ne_eq, not_false_eq_true,
    HostileReference.fireStatusChanged, ThreatMgr.processThreatEvent, hflag]
  by_cases hcv : some e = m.iCurrentVictim
  · have hcv1 : m.iCurrentVictim = some e := hcv.symm
    cases ho : m.iOwner with
    | none =>
      simp [ThreatMgr.modifyRef, ThreatMgr.setCurrentVictim, ThreatMgr.setDirty,
        ThreatContainer.remove, ThreatContainer.addReference, hcv1, List.mem_filter, ho]
    | some o =>
      by_cases hs : w.IsInWorld o = true ∧ w.GetUnit o (m.heap e).iUnitGuid = true ∧
          w.IsInMap o (m.heap e).iUnitGuid = true
      · simp [ThreatMgr.modifyRef, ThreatMgr.setCurrentVictim, ThreatMgr.setDirty,
          ThreatContainer.remove, ThreatContainer.addReference, hcv1, List.mem_filter, ho, hs]
      · simp [ThreatMgr.modifyRef, ThreatMgr.setCurrentVictim, ThreatMgr.setDirty,
          ThreatContainer.remove, ThreatContainer.addReference, hcv1, List.mem_filter, ho, hs]
  · have hcv1 : ¬ m.iCurrentVictim = some e := fun h => hcv h.symm
    cases ho : m.iOwner with
    | none =>
      simp [ThreatMgr.modifyRef, ThreatMgr.setCurrentVictim, ThreatMgr.setDirty,
        ThreatContainer.remove, ThreatContainer.addReference, hcv, hcv1, List.mem_filter, ho]
    | some o =>
      by_cases hs : w.IsInWorld o = true ∧ w.GetUnit o (m.heap e).iUnitGuid = true ∧
          w.IsInMap o (m.heap e).iUnitGuid = true
      · simp [ThreatMgr.modifyRef, ThreatMgr.setCurrentVictim, ThreatMgr.setDirty,
          ThreatContainer.remove, ThreatContainer.addReference, hcv, hcv1, List.mem_filter, ho,
          hs]
      · simp [ThreatMgr.modifyRef, ThreatMgr.setCurrentVictim, ThreatMgr.setDirty,
          ThreatContainer.remove, ThreatContainer.addReference, hcv, hcv1, List.mem_filter, ho,
          hs]

/-- Witness of C29: the current victim of the table (reference 1) is set
offline, and so is the other reference. -/
theorem setOffline_moves_witness :
    (∃ m', HostileReference.setOnlineOfflineState World.plain ThreatMgr.withVictim 1 false
        = some m' ∧ m'.iThreatContainer.iThreatList = [0] ∧
        m'.iThreatOfflineContainer.iThreatList = [1] ∧ m'.iCurrentVictim = none ∧
        m'.iThreatContainer.iDirty = true) ∧
      (∃ m', HostileReference.setOnlineOfflineState World.plain ThreatMgr.withVictim 0 false
        = some m' ∧ m'.iThreatContainer.iThreatList = [1] ∧
        m'.iThreatOfflineContainer.iThreatList = [0] ∧ m'.iCurrentVictim = some 1 ∧
        m'.iThreatContainer.iDirty = false) := by
  constructor
  · obtain ⟨m', hm', hon, -, hoff, hcv, -⟩ :=
      setOffline_moves World.plain ThreatMgr.withVictim 1 (by simp [ThreatMgr.withVictim])
    exact ⟨m', hm', by rw [hon]; rfl, by rw [hoff]; rfl, (hcv rfl).1, (hcv rfl).2⟩
  · obtain ⟨m', hm', hon, -, hoff, -, hcv⟩ :=
      setOffline_moves World.plain ThreatMgr.withVictim 0 (by simp [ThreatMgr.withVictim])
    have hne : ThreatMgr.withVictim.iCurrentVictim ≠ some 0 := by
      simp [ThreatMgr.withVictim]
    exact ⟨m', hm', by rw [hon]; rfl, by rw [hoff]; rfl, (hcv hne).1, (hcv hne).2⟩

theorem raised_steps :
    ThreatMgr.addThreat World.secondImmune 1 (ThreatMgr.new (some 0)) (some 1) 50
        SPELL_SCHOOL_MASK_NORMAL none = some (Scenario.first 0 1) ∧
      ThreatMgr.addThreat World.secondImmune 1 (Scenario.first 0 1) (some 2) 80
        SPELL_SCHOOL_MASK_NORMAL none = some (Scenario.both 0 1 2) ∧
      ThreatMgr.getHostilTarget World.secondImmune (Scenario.both 0 1 2)
        = some (some 1, Scenario.targeted 0 1 2) ∧
      ThreatMgr.addThreat World.secondImmune 1 (Scenario.targeted 0 1 2) (some 1) 100
        SPELL_SCHOOL_MASK_NORMAL none = some (Scenario.raised 0 1 2) := by
  have hlt : ¬ ((80 : ℚ) ≤ 50) := by norm_num
  have hsum : (50 : ℚ) + 100 = 150 := by norm_num
  have hpos : ¬ ((100 : ℚ) < 0) := by norm_num
  refine ⟨?_, ?_, ?_, ?_⟩
  · simp [Scenario.first, ThreatMgr.addThreat, ThreatMgr.addThreatBody,
      ThreatCalcHelper.isValidProcess, ThreatCalcHelper.calcThreat,
      Unit.ApplyTotalThreatModifier, ThreatMgr.doAddThreat,
      ThreatMgr._addThreat, ThreatContainer.addThreat, ThreatContainer.getReferenceByTarget,
      HostileReference.addThreat, HostileReference.fireStatusChanged,
      ThreatMgr.processThreatEvent, ThreatMgr.setDirty, ThreatMgr.modifyRef,
      ThreatContainer.addReference, ThreatMgr.new, World.secondImmune, World.plain,
      NPC_EYE_OF_KILROGG, SPELL_SCHOOL_MASK_NORMAL]
  · simp [Scenario.both, Scenario.first, ThreatMgr.addThreat, ThreatMgr.addThreatBody,
      ThreatCalcHelper.isValidProcess, ThreatCalcHelper.calcThreat,
      Unit.ApplyTotalThreatModifier, ThreatMgr.doAddThreat,
      ThreatMgr._addThreat, ThreatContainer.addThreat, ThreatContainer.getReferenceByTarget,
      HostileReference.addThreat, HostileReference.fireStatusChanged,
      ThreatMgr.processThreatEvent, ThreatMgr.setDirty, ThreatMgr.modifyRef,
      ThreatContainer.addReference, ThreatMgr.new, World.secondImmune, World.plain,
      NPC_EYE_OF_KILROGG, SPELL_SCHOOL_MASK_NORMAL]
  · simp [Scenario.targeted, Scenario.both, Scenario.first,
      ThreatMgr.getHostilTarget, ThreatContainer.update, ThreatContainer.sortByThreat,
      ThreatContainer.selectNextVictim, selectNextVictim.first, selectNextVictim.second,
      selectNextVictim.consider, ThreatMgr.setCurrentVictim, attackValid, secondChoice,
      HostileReference.getTarget, HostileReference.getThreat, ThreatMgr.new, hlt,
      World.secondImmune, World.plain]
  · simp [Scenario.raised, Scenario.targeted, Scenario.both, Scenario.first,
      ThreatMgr.addThreat, ThreatMgr.addThreatBody,
      ThreatCalcHelper.isValidProcess, ThreatCalcHelper.calcThreat,
      Unit.ApplyTotalThreatModifier, ThreatMgr.doAddThreat,
      ThreatMgr._addThreat, ThreatContainer.addThreat, ThreatContainer.getReferenceByTarget,
      HostileReference.addThreat, HostileReference.fireStatusChanged,
      ThreatMgr.processThreatEvent, ThreatMgr.setDirty, ThreatMgr.modifyRef,
      ThreatContainer.addReference, ThreatMgr.new, World.secondImmune, World.plain,
      NPC_EYE_OF_KILROGG, SPELL_SCHOOL_MASK_NORMAL, hsum, hpos]

theorem raised_reachable : ReachableInCombat (some 0) (Scenario.raised 0 1 2) :=
  ReachableInCombat.addThreat World.secondImmune 1 _ _ (some 1) 100 SPELL_SCHOOL_MASK_NORMAL none
    (ReachableInCombat.getHostilTarget World.secondImmune _ _ (some 1)
      (ReachableInCombat.addThreat World.secondImmune 1 _ _ (some 2) 80
        SPELL_SCHOOL_MASK_NORMAL none
        (ReachableInCombat.addThreat World.secondImmune 1 _ _ (some 1) 50
          SPELL_SCHOOL_MASK_NORMAL none ReachableInCombat.init raised_steps.1)
        raised_steps.2.1)
      raised_steps.2.2.1)
    raised_steps.2.2.2

/-- C27, counterexample. Unit 2 is immune to the melee school of the owner, unit
0. Unit 1 gets 50 threat and unit 2 gets 80; the target query orders the list
(unit 2, unit 1), clears the flag and takes unit 1 as current victim; 100 more
threat for unit 1 is a positive delta on the current victim and does not set
the flag. The state is reachable, its dirty flag is false and its list holds
the threats 80, 150 in this order. -/
theorem dirty_clear_unsorted :
    ReachableInCombat (some 0) (Scenario.raised 0 1 2) ∧
    (Scenario.raised 0 1 2).iThreatContainer.iDirty = false ∧
    (Scenario.raised 0 1 2).iThreatContainer.iThreatList = [1, 0] ∧
    ((Scenario.raised 0 1 2).heap 1).getThreat = 80 ∧
    ((Scenario.raised 0 1 2).heap 0).getThreat = 150 ∧
    ¬ (Scenario.raised 0 1 2).SortedUnlessDirty := by
  have h80 : ((Scenario.raised 0 1 2).heap 1).getThreat = 80 := by
    simp [Scenario.raised, Scenario.targeted, Scenario.both, Scenario.first,
      HostileReference.getThreat]
  have h150 : ((Scenario.raised 0 1 2).heap 0).getThreat = 150 := by
    simp [Scenario.raised, HostileReference.getThreat]
  refine ⟨raised_reachable, rfl, rfl, h80, h150, ?_⟩
  intro hinv
  have hs := hinv rfl
  have hl : (Scenario.raised 0 1 2).iThreatContainer.iThreatList = [1, 0] := rfl
  rw [hl] at hs
  have h := (List.pairwise_cons.1 hs).1 0 (List.mem_singleton_self 0)
  rw [h80, h150] at h
  norm_num at h

theorem update_ordered (heap : Nat → HostileReference) (c : ThreatContainer)
    (h : c.iDirty = false →
      c.iThreatList.Pairwise (fun a b => (heap a).getThreat ≥ (heap b).getThreat)) :
    (c.update heap).iThreatList.Pairwise
      (fun a b => (heap a).getThreat ≥ (heap b).getThreat) := by
  by_cases hd : c.iDirty = true
  · by_cases hlen : c.iThreatList.length > 1
    · have hlist : (c.update heap).iThreatList = ThreatContainer.sortByThreat heap c.iThreatList := by
        simp [ThreatContainer.update, hd, hlen]
      rw [hlist]
      exact sortByThreat_sorted heap _
    · have hlist : (c.update heap).iThreatList = c.iThreatList := by
        simp [ThreatContainer.update, hd, hlen]
      rw [hlist]
      cases hl : c.iThreatList with
      | nil => exact List.Pairwise.nil
      | cons a rest =>
        cases rest with
        | nil => exact List.pairwise_singleton _ _
        | cons b rest2 =>
          rw [hl] at hlen
          simp at hlen
  · have hd0 : c.iDirty = false := by simpa using hd
    have hlist : (c.update heap).iThreatList = c.iThreatList := by
      simp [ThreatContainer.update, hd0]
    rw [hlist]
    exact h hd0

theorem getHostilTarget_container (w : World) (m m' : ThreatMgr) (target : Option ObjectGuid)
    (h : ThreatMgr.getHostilTarget w m = some (target, m')) :
    m'.heap = m.heap ∧ m'.iThreatContainer = m.iThreatContainer.update m.heap := by
  simp only [ThreatMgr.getHostilTarget, Option.bind_eq_bind, Option.bind_eq_some] at h
  obtain ⟨owner, -, nextVictim, -, m2, h2, h3⟩ := h
  have hm : m2 = m' := (Prod.mk.inj (Option.some.inj h3)).2
  rw [← hm]
  cases nextVictim with
  | none =>
    simp only [ThreatMgr.setCurrentVictim, Option.some.injEq] at h2
    rw [← h2]
    exact ⟨rfl, rfl⟩
  | some ref =>
    simp only [ThreatMgr.setCurrentVictim] at h2
    split_ifs at h2
    · cases ho : m.iOwner with
      | none => simp [ho] at h2
      | some o =>
        simp only [ho, Option.some.injEq] at h2
        rw [← h2]
        exact ⟨rfl, rfl⟩
    · simp only [Option.some.injEq] at h2
      rw [← h2]
      exact ⟨rfl, rfl⟩

/-- A step that leaves a sublist of the online list, keeps every threat and
clears no dirty flag keeps the implication of the flag. -/
theorem sortedUnlessDirty_of_sublist (m m' : ThreatMgr)
    (hsub : m'.iThreatContainer.iThreatList.Sublist m.iThreatContainer.iThreatList)
    (hthreat : ∀ r, (m'.heap r).getThreat = (m.heap r).getThreat)
    (hdirty : m'.iThreatContainer.iDirty = false → m.iThreatContainer.iDirty = false)
    (hinv : m.SortedUnlessDirty) : m'.SortedUnlessDirty := by
  intro hclean
  have hs := (hinv (hdirty hclean)).sublist hsub
  exact hs.imp (fun {a b} hab => by rw [hthreat a, hthreat b]; exact hab)

theorem setOffline_step (w : World) (m : ThreatMgr) (e : Nat)
    (hon : (m.heap e).iOnline = true) :
    ∃ m', HostileReference.setOnlineOfflineState w m e false = some m' ∧
      m'.iThreatContainer.iThreatList = m.iThreatContainer.iThreatList.filter (fun r => r != e) ∧
      (∀ r, (m'.heap r).getThreat = (m.heap r).getThreat) ∧
      (m'.iThreatContainer.iDirty = false → m.iThreatContainer.iDirty = false) := by
  have hne : (m.heap e).iOnline ≠ false := by rw [hon]; decide
  have hflag : ((m.modifyRef e (fun x => { x with iOnline := false })).heap e).iOnline
      = false := by
    rw [modifyRef_heap]; simp
  have hthreat : ∀ r, (Function.update m.heap e { m.heap e with iOnline := false } r).getThreat
      = (m.heap r).getThreat := by
    intro r
    by_cases hr : r = e
    · rw [hr, Function.update_same]; rfl
    · rw [Function.update_noteq hr]
  simp only [HostileReference.setOnlineOfflineState, hne, if_true, ne_eq, not_false_eq_true,
    HostileReference.fireStatusChanged, ThreatMgr.processThreatEvent, hflag]
  by_cases hcv : some e = m.iCurrentVictim
  · have hcv1 : m.iCurrentVictim = some e := hcv.symm
    cases ho : m.iOwner with
    | none =>
      simp [ThreatMgr.modifyRef, ThreatMgr.setCurrentVictim, ThreatMgr.setDirty,
        ThreatContainer.remove, ThreatContainer.addReference, hcv1, ho, hthreat]
    | some o =>
      by_cases hs : w.IsInWorld o = true ∧ w.GetUnit o (m.heap e).iUnitGuid = true ∧
          w.IsInMap o (m.heap e).iUnitGuid = true
      · simp [ThreatMgr.modifyRef, ThreatMgr.setCurrentVictim, ThreatMgr.setDirty,
          ThreatContainer.remove, ThreatContainer.addReference, hcv1, ho, hs, hthreat]
      · simp [ThreatMgr.modifyRef, ThreatMgr.setCurrentVictim, ThreatMgr.setDirty,
          ThreatContainer.remove, ThreatContainer.addReference, hcv1, ho, hs, hthreat]
  · have hcv1 : ¬ m.iCurrentVictim = some e := fun h => hcv h.symm
    cases ho : m.iOwner with
    | none =>
      simp [ThreatMgr.modifyRef, ThreatMgr.setCurrentVictim, ThreatMgr.setDirty,
        ThreatContainer.remove, ThreatContainer.addReference, hcv, hcv1, ho, hthreat]
    | some o =>
      by_cases hs : w.IsInWorld o = true ∧ w.GetUnit o (m.heap e).iUnitGuid = true ∧
          w.IsInMap o (m.heap e).iUnitGuid = true
      · simp [ThreatMgr.modifyRef, ThreatMgr.setCurrentVictim, ThreatMgr.setDirty,
          ThreatContainer.remove, ThreatContainer.addReference, hcv, hcv1, ho, hs, hthreat]
      · simp [ThreatMgr.modifyRef, ThreatMgr.setCurrentVictim, ThreatMgr.setDirty,
          ThreatContainer.remove, ThreatContainer.addReference, hcv, hcv1, ho, hs, hthreat]

theorem setOffline_sublist (w : World) (m m' : ThreatMgr) (e : Nat)
    (h : HostileReference.setOnlineOfflineState w m e false = some m') :
    m'.iThreatContainer.iThreatList.Sublist m.iThreatContainer.iThreatList ∧
      (∀ r, (m'.heap r).getThreat = (m.heap r).getThreat) ∧
      (m'.iThreatContainer.iDirty = false → m.iThreatContainer.iDirty = false) := by
  by_cases hon : (m.heap e).iOnline = false
  · simp only [HostileReference.setOnlineOfflineState, hon, ne_eq, not_true_eq_false,
      if_false, Option.some.injEq] at h
    rw [← h]
    exact ⟨List.Sublist.refl _, fun _ => rfl, fun hc => hc⟩
  · have hon1 : (m.heap e).iOnline = true := by simpa using hon
    obtain ⟨m2, h2, hlist, hthreat, hdirty⟩ := setOffline_step w m e hon1
    rw [h2] at h
    cases Option.some.inj h
    refine ⟨?_, hthreat, hdirty⟩
    rw [hlist]
    exact List.filter_sublist _

theorem remove_sublist (w : World) (m m' : ThreatMgr) (e : Nat) (d : ℚ)
    (h : m.processThreatEvent w ⟨.UEV_THREAT_REF_REMOVE_FROM_LIST, e, d⟩ = some m') :
    m'.iThreatContainer.iThreatList.Sublist m.iThreatContainer.iThreatList ∧
      m'.heap = m.heap ∧
      (m'.iThreatContainer.iDirty = false → m.iThreatContainer.iDirty = false) := by
  obtain ⟨hheap, -, hon, -⟩ := processThreatEvent_remove w m m' e d h
  refine ⟨?_, hheap, ?_⟩
  · rw [hon]
    split_ifs
    · exact List.filter_sublist _
    · exact List.Sublist.refl _
  · simp only [ThreatMgr.processThreatEvent, Option.bind_eq_bind, Option.bind_eq_some] at h
    obtain ⟨m1, h1, m2, h2, h3⟩ := h
    have f1 : m1.iThreatContainer.iDirty = false → m.iThreatContainer.iDirty = false := by
      split_ifs at h1
      · simp only [ThreatMgr.setCurrentVictim, Option.map_some', Option.some.injEq] at h1
        rw [← h1]
        intro hc
        simp [ThreatMgr.setDirty] at hc
      · cases Option.some.inj h1
        exact fun hc => hc
    have f2 : m2.iThreatContainer = m1.iThreatContainer := by
      cases ho : m1.iOwner with
      | none => simp [ho] at h2
      | some o =>
        simp only [ho, Option.some.injEq] at h2
        rw [← h2]
    intro hc
    apply f1
    rw [← f2]
    split_ifs at h3
    · rw [← Option.some.inj h3] at hc
      exact hc
    · rw [← Option.some.inj h3] at hc
      exact hc

/-- C27, amended. The implication from a clear dirty flag to a list ordered by
non-increasing threat holds in the empty table and is kept by
`getHostilTarget`, which also clears the flag, by setting a reference offline
and by `removeReference`. -/
theorem sortedUnlessDirty_kept (w : World) (m m' : ThreatMgr) (hinv : m.SortedUnlessDirty) :
    (∀ owner, (ThreatMgr.new owner).SortedUnlessDirty) ∧
    (∀ target, ThreatMgr.getHostilTarget w m = some (target, m') →
      m'.iThreatContainer.iDirty = false ∧ m'.SortedUnlessDirty) ∧
    (∀ e, HostileReference.setOnlineOfflineState w m e false = some m' →
      m'.SortedUnlessDirty) ∧
    (∀ e, HostileReference.removeReference w m e = some m' → m'.SortedUnlessDirty) := by
  refine ⟨?_, ?_, ?_, ?_⟩
  · intro owner _
    exact List.Pairwise.nil
  · intro target h
    obtain ⟨hheap, hcont⟩ := getHostilTarget_container w m m' target h
    refine ⟨by rw [hcont]; rfl, ?_⟩
    intro _
    rw [hcont, hheap]
    exact update_ordered m.heap m.iThreatContainer hinv
  · intro e h
    obtain ⟨hsub, hthreat, hdirty⟩ := setOffline_sublist w m m' e h
    exact sortedUnlessDirty_of_sublist m m' hsub hthreat hdirty hinv
  · intro e h
    simp only [HostileReference.removeReference, HostileReference.fireStatusChanged,
      Option.bind_eq_bind, Option.bind_eq_some] at h
    obtain ⟨m1, h1, h2⟩ := h
    obtain ⟨hsub1, hthreat1, hdirty1⟩ := setOffline_sublist w m m1 e h1
    have hinv1 := sortedUnlessDirty_of_sublist m m1 hsub1 hthreat1 hdirty1 hinv
    obtain ⟨hsub2, hheap2, hdirty2⟩ := remove_sublist w _ m' e 0 h2
    have hinv2 : (m1.modifyRef e (fun x => { x with linked := false })).SortedUnlessDirty := by
      refine sortedUnlessDirty_of_sublist m1 _ (List.Sublist.refl _) ?_ (fun hc => hc) hinv1
      intro r
      rw [modifyRef_heap]
      split_ifs with hr
      · rw [hr]; rfl
      · rfl
    exact sortedUnlessDirty_of_sublist _ m' hsub2 (fun r => by rw [hheap2]) hdirty2 hinv2

/-- Witness of C27, amended: the table after the first target query of the
scenario is clean and ordered, and stays ordered when its current victim is set
offline. -/
theorem sortedUnlessDirty_kept_witness :
    (Scenario.targeted 0 1 2).iThreatContainer.iDirty = false ∧
      (Scenario.targeted 0 1 2).SortedUnlessDirty ∧
      (Scenario.offline World.secondImmune 0 1 2).SortedUnlessDirty := by
  have hboth : (Scenario.both 0 1 2).SortedUnlessDirty := by
    intro h
    simp [Scenario.both] at h
  have h1 := (sortedUnlessDirty_kept World.secondImmune (Scenario.both 0 1 2)
    (Scenario.targeted 0 1 2) hboth).2.1 (some 1) raised_steps.2.2.1
  have hoff : HostileReference.setOnlineOfflineState World.secondImmune
      (Scenario.targeted 0 1 2) 0 false = some (Scenario.offline World.secondImmune 0 1 2) := by
    simp [Scenario.offline, Scenario.targeted, Scenario.both, Scenario.first,
      HostileReference.setOnlineOfflineState, HostileReference.fireStatusChanged,
      ThreatMgr.processThreatEvent, ThreatMgr.setCurrentVictim, ThreatMgr.setDirty,
      ThreatMgr.modifyRef, ThreatContainer.remove, ThreatContainer.addReference,
      ThreatMgr.new, World.secondImmune, World.plain]
  exact ⟨h1.1, h1.2,
    (sortedUnlessDirty_kept World.secondImmune (Scenario.targeted 0 1 2)
      (Scenario.offline World.secondImmune 0 1 2) h1.2).2.2.1 0 hoff⟩

/-! ## Removal of a reference -/

/-- The state after a reference with the online flag set was set offline. -/
theorem setOffline_full (w : World) (m : ThreatMgr) (e : Nat)
    (hon : (m.heap e).iOnline = true) :
    ∃ m', HostileReference.setOnlineOfflineState w m e false = some m' ∧
      m'.heap = Function.update m.heap e { m.heap e with iOnline := false } ∧
      m'.nextRef = m.nextRef ∧ m'.iOwner = m.iOwner ∧ m'.iUpdateTimer = m.iUpdateTimer ∧
      m'.iThreatContainer.iThreatList = m.iThreatContainer.iThreatList.filter (fun r => r != e) ∧
      m'.iThreatOfflineContainer.iThreatList = m.iThreatOfflineContainer.iThreatList ++ [e] ∧
      m'.iCurrentVictim = (if m.iCurrentVictim = some e then none else m.iCurrentVictim) ∧
      m'.iThreatContainer.iDirty =
        (if m.iCurrentVictim = some e then true else m.iThreatContainer.iDirty) := by
  have hne : (m.heap e).iOnline ≠ false := by rw [hon]; decide
  have hflag : ((m.modifyRef e (fun x => { x with iOnline := false })).heap e).iOnline
      = false := by
    rw [modifyRef_heap]; simp
  simp only [HostileReference.setOnlineOfflineState, hne, if_true, ne_eq, not_false_eq_true,
    HostileReference.fireStatusChanged, ThreatMgr.processThreatEvent, hflag]
  by_cases hcv : some e = m.iCurrentVictim
  · have hcv1 : m.iCurrentVictim = some e := hcv.symm
    cases ho : m.iOwner with
    | none =>
      simp [ThreatMgr.modifyRef, ThreatMgr.setCurrentVictim, ThreatMgr.setDirty,
        ThreatContainer.remove, ThreatContainer.addReference, hcv1, ho]
    | some o =>
      by_cases hs : w.IsInWorld o = true ∧ w.GetUnit o (m.heap e).iUnitGuid = true ∧
          w.IsInMap o (m.heap e).iUnitGuid = true
      · simp [ThreatMgr.modifyRef, ThreatMgr.setCurrentVictim, ThreatMgr.setDirty,
          ThreatContainer.remove, ThreatContainer.addReference, hcv1, ho, hs]
      · simp [ThreatMgr.modifyRef, ThreatMgr.setCurrentVictim, ThreatMgr.setDirty,
          ThreatContainer.remove, ThreatContainer.addReference, hcv1, ho, hs]
  · have hcv1 : ¬ m.iCurrentVictim = some e := fun h => hcv h.symm
    cases ho : m.iOwner with
    | none =>
      simp [ThreatMgr.modifyRef, ThreatMgr.setCurrentVictim, ThreatMgr.setDirty,
        ThreatContainer.remove, ThreatContainer.addReference, hcv, hcv1, ho]
    | some o =>
      by_cases hs : w.IsInWorld o = true ∧ w.GetUnit o (m.heap e).iUnitGuid = true ∧
          w.IsInMap o (m.heap e).iUnitGuid = true
      · simp [ThreatMgr.modifyRef, ThreatMgr.setCurrentVictim, ThreatMgr.setDirty,
          ThreatContainer.remove, ThreatContainer.addReference, hcv, hcv1, ho, hs]
      · simp [ThreatMgr.modifyRef, ThreatMgr.setCurrentVictim, ThreatMgr.setDirty,
          ThreatContainer.remove, ThreatContainer.addReference, hcv, hcv1, ho, hs]

/-- The state after the removal event of a reference, for a manager with owner. -/
theorem remove_full (w : World) (m : ThreatMgr) (e : Nat) (d : ℚ) (o : ObjectGuid)
    (ho : m.iOwner = some o) :
    ∃ m', m.processThreatEvent w ⟨.UEV_THREAT_REF_REMOVE_FROM_LIST, e, d⟩ = some m' ∧
      m'.heap = m.heap ∧ m'.nextRef = m.nextRef ∧ m'.iOwner = m.iOwner ∧
      m'.iUpdateTimer = m.iUpdateTimer ∧
      m'.iThreatContainer.iThreatList =
        (if (m.heap e).iOnline = true then
          m.iThreatContainer.iThreatList.filter (fun r => r != e)
        else m.iThreatContainer.iThreatList) ∧
      m'.iThreatOfflineContainer.iThreatList =
        (if (m.heap e).iOnline = true then m.iThreatOfflineContainer.iThreatList
        else m.iThreatOfflineContainer.iThreatList.filter (fun r => r != e)) ∧
      m'.iCurrentVictim = (if m.iCurrentVictim = some e then none else m.iCurrentVictim) ∧
      m'.iThreatContainer.iDirty =
        (if m.iCurrentVictim = some e then true else m.iThreatContainer.iDirty) ∧
      m'.delivered = m.delivered ++
        [Notice.threatEvent ⟨.UEV_THREAT_REF_REMOVE_FROM_LIST, e, d⟩,
          Notice.removeFromThreatListOpcode e] := by
  simp only [ThreatMgr.processThreatEvent]
  by_cases hcv : some e = m.iCurrentVictim
  · have hcv1 : m.iCurrentVictim = some e := hcv.symm
    by_cases hf : (m.heap e).iOnline = true
    · simp [ThreatMgr.setCurrentVictim, ThreatMgr.setDirty, ThreatContainer.remove, hcv1, ho, hf]
    · simp [ThreatMgr.setCurrentVictim, ThreatMgr.setDirty, ThreatContainer.remove, hcv1, ho, hf]
  · have hcv1 : ¬ m.iCurrentVictim = some e := fun h => hcv h.symm
    by_cases hf : (m.heap e).iOnline = true
    · simp [ThreatMgr.setCurrentVictim, ThreatMgr.setDirty, ThreatContainer.remove, hcv, hcv1,
        ho, hf]
    · simp [ThreatMgr.setCurrentVictim, ThreatMgr.setDirty, ThreatContainer.remove, hcv, hcv1,
        ho, hf]

/-- C31: on a well-formed table with owner, `removeReference` on a reference `e`
returns and the removal event for `e` is delivered. Afterwards both
lists are the previous lists without `e`, so `e` is in neither and every other
reference is where it was, and the heap entries of the other references are
unchanged. If `e` was the current victim there is no current victim and the
dirty flag is true; otherwise current victim and dirty flag are unchanged. -/
theorem removeReference_effect (w : World) (m : ThreatMgr) (e : Nat) (o : ObjectGuid)
    (hwf : m.WellFormed) (ho : m.iOwner = some o) :
    ∃ m', HostileReference.removeReference w m e = some m' ∧
      m'.iThreatContainer.iThreatList = m.iThreatContainer.iThreatList.filter (fun r => r != e) ∧
      m'.iThreatOfflineContainer.iThreatList =
        m.iThreatOfflineContainer.iThreatList.filter (fun r => r != e) ∧
      e ∉ m'.iThreatContainer.iThreatList ∧ e ∉ m'.iThreatOfflineContainer.iThreatList ∧
      Notice.threatEvent ⟨.UEV_THREAT_REF_REMOVE_FROM_LIST, e, 0⟩ ∈ m'.delivered ∧
      (m.iCurrentVictim = some e →
        m'.iCurrentVictim = none ∧ m'.iThreatContainer.iDirty = true) ∧
      (m.iCurrentVictim ≠ some e →
        m'.iCurrentVictim = m.iCurrentVictim ∧
        m'.iThreatContainer.iDirty = m.iThreatContainer.iDirty) ∧
      (∀ r, r ≠ e → m'.heap r = m.heap r) := by
  have key : ∃ m', HostileReference.removeReference w m e = some m' ∧
      m'.iThreatContainer.iThreatList = m.iThreatContainer.iThreatList.filter (fun r => r != e) ∧
      m'.iThreatOfflineContainer.iThreatList =
        m.iThreatOfflineContainer.iThreatList.filter (fun r => r != e) ∧
      Notice.threatEvent ⟨.UEV_THREAT_REF_REMOVE_FROM_LIST, e, 0⟩ ∈ m'.delivered ∧
      m'.iCurrentVictim = (if m.iCurrentVictim = some e then none else m.iCurrentVictim) ∧
      m'.iThreatContainer.iDirty =
        (if m.iCurrentVictim = some e then true else m.iThreatContainer.iDirty) ∧
      (∀ r, r ≠ e → m'.heap r = m.heap r) := by
    by_cases hon : (m.heap e).iOnline = true
    · obtain ⟨m1, h1, hheap1, -, ho1, -, hl1, hoff1, hcv1, hd1⟩ := setOffline_full w m e hon
      have hflag : ((m1.modifyRef e (fun x => { x with linked := false })).heap e).iOnline
          = false := by
        rw [modifyRef_heap, hheap1]; simp
      obtain ⟨m', h2, hheap2, -, -, -, hl2, hoff2, hcv2, hd2, hdel2⟩ :=
        remove_full w (m1.modifyRef e (fun x => { x with linked := false })) e 0 o
          (by rw [← ho, ← ho1]; rfl)
      have hnot : ¬ ((m1.modifyRef e (fun x => { x with linked := false })).heap e).iOnline
          = true := by rw [hflag]; decide
      rw [if_neg hnot] at hl2 hoff2
      refine ⟨m', ?_, ?_, ?_, ?_, ?_, ?_, ?_⟩
      · simp only [HostileReference.removeReference, HostileReference.fireStatusChanged, h1,
          Option.bind_eq_bind, Option.some_bind]
        exact h2
      · rw [hl2]; exact hl1
      · rw [hoff2]
        show List.filter (fun r => r != e) m1.iThreatOfflineContainer.iThreatList = _
        rw [hoff1, List.filter_append]
        simp
      · rw [hdel2]; simp
      · rw [hcv2]
        show (if m1.iCurrentVictim = some e then none else m1.iCurrentVictim) = _
        rw [hcv1]
        by_cases hc : m.iCurrentVictim = some e
        · simp [hc]
        · simp [hc]
      · rw [hd2]
        show (if m1.iCurrentVictim = some e then true else m1.iThreatContainer.iDirty) = _
        rw [hcv1, hd1]
        by_cases hc : m.iCurrentVictim = some e
        · simp [hc]
        · simp [hc]
      · intro r hr
        rw [hheap2, modifyRef_heap, if_neg hr, hheap1, Function.update_noteq hr]
    · have hoff : (m.heap e).iOnline = false := by simpa using hon
      have hnotin : e ∉ m.iThreatContainer.iThreatList := by
        intro hin
        have := hwf.online e hin
        rw [hoff] at this
        cases this
      have h1 : HostileReference.setOnlineOfflineState w m e false = some m := by
        simp [HostileReference.setOnlineOfflineState, hoff]
      have hflag : ((m.modifyRef e (fun x => { x with linked := false })).heap e).iOnline
          = false := by
        rw [modifyRef_heap]; simp [hoff]
      obtain ⟨m', h2, hheap2, -, -, -, hl2, hoff2, hcv2, hd2, hdel2⟩ :=
        remove_full w (m.modifyRef e (fun x => { x with linked := false })) e 0 o
          (by rw [← ho]; rfl)
      have hnot : ¬ ((m.modifyRef e (fun x => { x with linked := false })).heap e).iOnline
          = true := by rw [hflag]; decide
      rw [if_neg hnot] at hl2 hoff2
      refine ⟨m', ?_, ?_, ?_, ?_, ?_, ?_, ?_⟩
      · simp only [HostileReference.removeReference, HostileReference.fireStatusChanged, h1,
          Option.bind_eq_bind, Option.some_bind]
        exact h2
      · rw [hl2]
        show m.iThreatContainer.iThreatList = _
        rw [List.filter_eq_self.2]
        intro a ha
        simp only [bne_iff_ne, ne_eq]
        intro hae
        exact hnotin (hae ▸ ha)
      · rw [hoff2]; rfl
      · rw [hdel2]; simp
      · rw [hcv2]; rfl
      · rw [hd2]; rfl
      · intro r hr
        rw [hheap2, modifyRef_heap, if_neg hr]
  obtain ⟨m', h, hl, hoff, hdel, hcv, hd, hheap⟩ := key
  refine ⟨m', h, hl, hoff, ?_, ?_, hdel, ?_, ?_, hheap⟩
  · rw [hl]; simp [List.mem_filter]
  · rw [hoff]; simp [List.mem_filter]
  · intro hc
    rw [hcv, hd]
    simp [hc]
  · intro hc
    rw [hcv, hd]
    simp [hc]

/-- Witness of C31: removing the current victim (reference 1) of the table
leaves reference 0 alone in the online list, no current victim and the dirty
flag set. -/
theorem removeReference_effect_witness :
    ∃ m', HostileReference.removeReference World.plain ThreatMgr.withVictim 1 = some m' ∧
      m'.iThreatContainer.iThreatList = [0] ∧ m'.iThreatOfflineContainer.iThreatList = [] ∧
      m'.iCurrentVictim = none ∧ m'.iThreatContainer.iDirty = true ∧
      m'.heap 0 = ThreatMgr.withVictim.heap 0 := by
  have hwf : ThreatMgr.withVictim.WellFormed := by
    refine ⟨?_, ?_, ?_, ?_⟩
    · intro r hr
      simp [ThreatMgr.refs, ThreatMgr.withVictim] at hr
      rcases hr with rfl | rfl <;> simp [ThreatMgr.withVictim]
    · simp [ThreatMgr.refs, ThreatMgr.withVictim]
    · intro r hr
      simp [ThreatMgr.withVictim] at hr
      rcases hr with rfl | rfl <;> simp [ThreatMgr.withVictim]
    · intro r hr
      simp [ThreatMgr.withVictim] at hr
  obtain ⟨m', h, hl, hoff, -, -, -, hcv, -, hheap⟩ :=
    removeReference_effect World.plain ThreatMgr.withVictim 1 0 hwf rfl
  exact ⟨m', h, by rw [hl]; rfl, by rw [hoff]; rfl, (hcv rfl).1, (hcv rfl).2,
    hheap 0 (by decide)⟩

/-! ## Deltas that are not redirected -/

/-- On a well-formed table owned by a creature, `_addThreat` for a unit returns,
given enough depth for its charmer-or-owner chain, and changes the reported
threat of that unit by the delta and of no other unit. -/
theorem _addThreat_gain (w : World) (depth : Nat) (m : ThreatMgr) (V : ObjectGuid)
    (d : ℚ) (o : ObjectGuid) (rank : ObjectGuid → Nat)
    (hwf : m.WellFormed) (ho : m.iOwner = some o) (hc : w.GetTypeId o = TypeID.TYPEID_UNIT)
    (hrank : ∀ u u', w.GetCharmerOrOwner u = some u' → rank u' < rank u)
    (hdepth : rank V ≤ depth) :
    ∃ m', ThreatMgr._addThreat w (ThreatMgr.reenter w depth) m (some V) d = some m' ∧
      (∀ g, m'.getThreat (some g) true =
        m.getThreat (some g) true + (if g = V then d else 0)) ∧
      (∀ g, m'.getThreatWithoutTemp (some g) true =
        m.getThreatWithoutTemp (some g) true + (if g = V then d else 0)) := by
  obtain ⟨m', hm'⟩ := _addThreat_total w (ThreatMgr.reenter w depth) m V d o hwf ho hc
    (reenter_quiet w depth)
    (fun s u hs hos hco => reenter_total w o hc rank hrank depth s u hs hos
      (Nat.lt_of_lt_of_le (hrank _ u hco) hdepth))
  obtain ⟨a, -, -⟩ := _addThreat_spec w _ m m' V d hwf (reenter_quiet w depth) hm'
  refine ⟨m', hm', ?_, ?_⟩
  · intro g
    rw [a.total g]
    by_cases hg : g = V
    · simp [hg]
    · have hg1 : ¬ V = g := fun h => hg h.symm
      simp [hg, hg1]
  · intro g
    rw [a.threat g]
    by_cases hg : g = V
    · simp [hg]
    · have hg1 : ¬ V = g := fun h => hg h.symm
      simp [hg, hg1]

/-- C32: on a well-formed table owned by a creature, `doAddThreat(V, d)` with
`d <= 0` is `_addThreat(V, d)` whatever the redirect percentage and the redirect
target of `V` are: it returns (given enough depth for the charmer-or-owner
chain of `V`), the reported threat of `V` changes by `d` and that of every
other unit, the redirect target included, is unchanged. -/
theorem doAddThreat_nonpositive (w : World) (depth : Nat) (m : ThreatMgr) (V : ObjectGuid)
    (d : ℚ) (o : ObjectGuid) (rank : ObjectGuid → Nat)
    (hwf : m.WellFormed) (ho : m.iOwner = some o) (hc : w.GetTypeId o = TypeID.TYPEID_UNIT)
    (hrank : ∀ u u', w.GetCharmerOrOwner u = some u' → rank u' < rank u)
    (hdepth : rank V ≤ depth) (hd : d ≤ 0) :
    ThreatMgr.doAddThreat w (ThreatMgr.reenter w depth) m V d =
        ThreatMgr._addThreat w (ThreatMgr.reenter w depth) m (some V) d ∧
      ∃ m', ThreatMgr.doAddThreat w (ThreatMgr.reenter w depth) m V d = some m' ∧
        (∀ g, m'.getThreat (some g) true =
          m.getThreat (some g) true + (if g = V then d else 0)) ∧
        (∀ g, m'.getThreatWithoutTemp (some g) true =
          m.getThreatWithoutTemp (some g) true + (if g = V then d else 0)) := by
  have heq : ThreatMgr.doAddThreat w (ThreatMgr.reenter w depth) m V d =
      ThreatMgr._addThreat w (ThreatMgr.reenter w depth) m (some V) d := by
    have hnot : ¬ (d > 0 ∧ w.GetRedirectThreatPercent V ≠ 0) := fun h => not_lt.2 hd h.1
    simp only [ThreatMgr.doAddThreat]
    rw [if_neg hnot]
  refine ⟨heq, ?_⟩
  rw [heq]
  exact _addThreat_gain w depth m V d o rank hwf ho hc hrank hdepth

/-- Witness of C32: a delta of -20 against unit 1, which redirects 30 percent to
unit 2, lowers the threat of unit 1 by 20 and leaves unit 2 without threat. -/
theorem doAddThreat_nonpositive_witness :
    ∃ m', ThreatMgr.doAddThreat World.redirecting (ThreatMgr.reenter World.redirecting 0)
        (ThreatMgr.single 200) 1 (-20) = some m' ∧
      m'.getThreat (some 1) true = (ThreatMgr.single 200).getThreat (some 1) true + (-20) ∧
      m'.getThreat (some 2) true = (ThreatMgr.single 200).getThreat (some 2) true := by
  obtain ⟨m', h, ht, -⟩ := (doAddThreat_nonpositive World.redirecting 0 (ThreatMgr.single 200)
    1 (-20) 0 (fun _ => 0) (single_wf 200) rfl rfl
    (fun u u' hco => by simp [World.redirecting, World.plain] at hco) (le_refl _)
    (by norm_num)).2
  refine ⟨m', h, ?_, ?_⟩
  · rw [ht 1]; simp
  · rw [ht 2]; simp

/-- C38: on a well-formed table owned by a creature, `doAddThreat(V, d)` with
`d > 0` and a non-zero redirect percentage `pct` of `V` returns (given enough
depth for the charmer-or-owner chain of `V`). When the redirect target is
rejected by `isValidProcess`, the reported threat of `V` grows by
`d - d * pct / 100` and that of every other unit is unchanged; when there is no
redirect target, the reported threat of `V` grows by `d` and that of every
other unit is unchanged. -/
theorem doAddThreat_lost (w : World) (depth : Nat) (m : ThreatMgr) (V : ObjectGuid)
    (d : ℚ) (o : ObjectGuid) (rank : ObjectGuid → Nat)
    (hwf : m.WellFormed) (ho : m.iOwner = some o) (hc : w.GetTypeId o = TypeID.TYPEID_UNIT)
    (hrank : ∀ u u', w.GetCharmerOrOwner u = some u' → rank u' < rank u)
    (hdepth : rank V ≤ depth) (hd : 0 < d) (hpct : w.GetRedirectThreatPercent V ≠ 0) :
    (∀ S, w.GetRedirectThreatTarget V = some S →
      ThreatCalcHelper.isValidProcess w (some S) m.iOwner none = some false →
      ∃ m', ThreatMgr.doAddThreat w (ThreatMgr.reenter w depth) m V d = some m' ∧
        (∀ g, m'.getThreat (some g) true = m.getThreat (some g) true +
          (if g = V then d - d * (w.GetRedirectThreatPercent V : ℚ) / 100 else 0)) ∧
        (∀ g, m'.getThreatWithoutTemp (some g) true = m.getThreatWithoutTemp (some g) true +
          (if g = V then d - d * (w.GetRedirectThreatPercent V : ℚ) / 100 else 0))) ∧
    (w.GetRedirectThreatTarget V = none →
      ∃ m', ThreatMgr.doAddThreat w (ThreatMgr.reenter w depth) m V d = some m' ∧
        (∀ g, m'.getThreat (some g) true =
          m.getThreat (some g) true + (if g = V then d else 0)) ∧
        (∀ g, m'.getThreatWithoutTemp (some g) true =
          m.getThreatWithoutTemp (some g) true + (if g = V then d else 0))) := by
  have hcond : d > 0 ∧ w.GetRedirectThreatPercent V ≠ 0 := ⟨hd, hpct⟩
  constructor
  · intro S hS hinvalid
    have heq : ThreatMgr.doAddThreat w (ThreatMgr.reenter w depth) m V d =
        ThreatMgr._addThreat w (ThreatMgr.reenter w depth) m (some V)
          (d - d * (w.GetRedirectThreatPercent V : ℚ) / 100) := by
      simp only [ThreatMgr.doAddThreat]
      rw [if_pos hcond]
      simp [hS, hinvalid, CalculatePct]
    rw [heq]
    exact _addThreat_gain w depth m V _ o rank hwf ho hc hrank hdepth
  · intro hnone
    have heq : ThreatMgr.doAddThreat w (ThreatMgr.reenter w depth) m V d =
        ThreatMgr._addThreat w (ThreatMgr.reenter w depth) m (some V) d := by
      simp only [ThreatMgr.doAddThreat]
      rw [if_pos hcond]
      simp [hnone]
    rw [heq]
    exact _addThreat_gain w depth m V d o rank hwf ho hc hrank hdepth

/-- Witness of C38: 100 threat against unit 1, which redirects 30 percent to the
dead unit 2, leaves 70 on unit 1 and nothing on unit 2. -/
theorem doAddThreat_lost_witness :
    ∃ m', ThreatMgr.doAddThreat World.redirectingToDead
        (ThreatMgr.reenter World.redirectingToDead 0) (ThreatMgr.new (some 0)) 1 100 = some m' ∧
      m'.getThreat (some 1) true = 70 ∧ m'.getThreat (some 2) true = 0 := by
  obtain ⟨m', h, ht, -⟩ := (doAddThreat_lost World.redirectingToDead 0 (ThreatMgr.new (some 0))
    1 100 0 (fun _ => 0) (new_wf (some 0)) rfl rfl
    (fun u u' hco => by simp [World.redirectingToDead, World.plain] at hco) (le_refl _)
    (by norm_num) (by simp [World.redirectingToDead])).1 2
    (by simp [World.redirectingToDead])
    (by simp [ThreatCalcHelper.isValidProcess, World.redirectingToDead, World.plain,
      ThreatMgr.new])
  refine ⟨m', h, ?_, ?_⟩
  · rw [ht 1]
    simp [ThreatMgr.getThreat, ThreatContainer.getReferenceByTarget, ThreatMgr.new,
      World.redirectingToDead]
    norm_num
  · rw [ht 2]
    simp [ThreatMgr.getThreat, ThreatContainer.getReferenceByTarget, ThreatMgr.new]

/-! ## Taunt application -/

/-- C34, counterexample. The current victim of the table is reference 1; when
no unit can be attacked `getHostilTarget` returns no unit and leaves no current
victim, so the cached value has changed, and the record of notifications is as
it was. -/
theorem getHostilTarget_silent :
    ∃ m', ThreatMgr.getHostilTarget World.unattackable ThreatMgr.withVictim = some (none, m') ∧
      ThreatMgr.withVictim.iCurrentVictim = some 1 ∧ m'.iCurrentVictim = none ∧
      m'.delivered = ThreatMgr.withVictim.delivered := by
  refine ⟨{ ThreatMgr.withVictim with iCurrentVictim := none }, ?_, rfl, rfl, rfl⟩
  simp [ThreatMgr.getHostilTarget, ThreatContainer.update, ThreatContainer.selectNextVictim,
    selectNextVictim.first, selectNextVictim.consider, ThreatMgr.setCurrentVictim,
    HostileReference.getTarget, secondChoice, attackValid, ThreatMgr.withVictim,
    World.unattackable, World.plain]

/-- C34, amended. For a table owned by a creature, when `selectNextVictim` on
the updated online list returns `nextVictim`, `getHostilTarget` returns the
unit of `nextVictim` (no unit when it is empty) and leaves `nextVictim` as
current victim, the online container updated and heap and offline container
unchanged; the change-of-victim opcode for `nextVictim` is appended to the
record exactly when `nextVictim` is a reference other than the previous current
victim, and nothing is appended otherwise. -/
theorem getHostilTarget_caches (w : World) (m : ThreatMgr) (o : ObjectGuid)
    (nextVictim : Option Nat)
    (ho : m.iOwner = some o) (hc : w.GetTypeId o = TypeID.TYPEID_UNIT)
    (hsel : (m.iThreatContainer.update m.heap).selectNextVictim w m.heap o m.iCurrentVictim
      = some nextVictim) :
    ∃ m', m.getHostilTarget w =
        some ((match nextVictim with
          | some ref => (m.heap ref).getTarget
          | none => none), m') ∧
      m'.iCurrentVictim = nextVictim ∧
      m'.delivered = m.delivered ++
        (match nextVictim with
          | some ref =>
            if some ref ≠ m.iCurrentVictim then [Notice.changeCurrentVictimOpcode ref] else []
          | none => []) ∧
      m'.heap = m.heap ∧ m'.iThreatContainer = m.iThreatContainer.update m.heap ∧
      m'.iThreatOfflineContainer = m.iThreatOfflineContainer := by
  cases nextVictim with
  | none =>
    refine ⟨{ m with iThreatContainer := m.iThreatContainer.update m.heap
                     iCurrentVictim := none }, ?_, rfl, by simp, rfl, rfl, rfl⟩
    simp [ThreatMgr.getHostilTarget, ho, hc, hsel, ThreatMgr.setCurrentVictim]
  | some ref =>
    by_cases hne : some ref ≠ m.iCurrentVictim
    · refine ⟨{ m with iThreatContainer := m.iThreatContainer.update m.heap
                       iCurrentVictim := some ref
                       delivered := m.delivered ++ [Notice.changeCurrentVictimOpcode ref] },
        ?_, rfl, by simp [hne], rfl, rfl, rfl⟩
      simp [ThreatMgr.getHostilTarget, ho, hc, hsel, ThreatMgr.setCurrentVictim, hne]
    · have heq : m.iCurrentVictim = some ref := (not_not.1 hne).symm
      refine ⟨{ m with iThreatContainer := m.iThreatContainer.update m.heap
                       iCurrentVictim := some ref }, ?_, rfl, by simp [heq], rfl, rfl, rfl⟩
      have hsel1 := hsel
      rw [heq] at hsel1
      simp [ThreatMgr.getHostilTarget, ho, hc, hsel1, ThreatMgr.setCurrentVictim, heq]

/-- Witness of C34, amended: the second query of the scenario takes reference 1
as current victim, returns unit 2 and appends one opcode to the record. -/
theorem getHostilTarget_caches_witness :
    ∃ m', ThreatMgr.getHostilTarget World.secondImmune (Scenario.offline World.secondImmune 0 1 2)
        = some (some 2, m') ∧ m'.iCurrentVictim = some 1 ∧
      m'.delivered = (Scenario.offline World.secondImmune 0 1 2).delivered ++
        [Notice.changeCurrentVictimOpcode 1] := by
  have hsel : ((Scenario.offline World.secondImmune 0 1 2).iThreatContainer.update
      (Scenario.offline World.secondImmune 0 1 2).heap).selectNextVictim World.secondImmune
      (Scenario.offline World.secondImmune 0 1 2).heap 0
      (Scenario.offline World.secondImmune 0 1 2).iCurrentVictim = some (some 1) := by
    simp [Scenario.offline, Scenario.targeted, Scenario.both, Scenario.first,
      ThreatContainer.update, ThreatContainer.sortByThreat,
      ThreatContainer.selectNextVictim, selectNextVictim.first, selectNextVictim.second,
      selectNextVictim.consider, attackValid, secondChoice,
      HostileReference.getTarget, ThreatMgr.new, World.secondImmune, World.plain]
  obtain ⟨m', h, hcv, hdel, -, -, -⟩ := getHostilTarget_caches World.secondImmune
    (Scenario.offline World.secondImmune 0 1 2) 0 (some 1) rfl rfl hsel
  refine ⟨m', ?_, hcv, ?_⟩
  · rw [h]
    simp [Scenario.offline, Scenario.targeted, Scenario.both, Scenario.first,
      HostileReference.getTarget, ThreatMgr.new]
  · rw [hdel]
    simp [Scenario.offline]

/-! ## Percent modification of offline references -/

/-- C39: on a well-formed table, for a unit whose reference is in the offline
list or that has no reference at all, `modifyThreatPercent` returns the state it
was given, for every percentage and whatever the threat of that reference
is. -/
theorem modifyThreatPercent_offline (w : World) (depth : Nat) (m : ThreatMgr)
    (victim : ObjectGuid) (percent : ℤ) (hwf : m.WellFormed)
    (h : (∃ r ∈ m.iThreatOfflineContainer.iThreatList, (m.heap r).iUnitGuid = victim) ∨
      (∀ r ∈ m.refs, (m.heap r).iUnitGuid ≠ victim)) :
    ThreatMgr.modifyThreatPercent w depth m (some victim) percent = some m := by
  have hnone : m.iThreatContainer.getReferenceByTarget m.heap (some victim) = none := by
    simp only [ThreatContainer.getReferenceByTarget, List.find?_eq_none]
    intro x hx
    have hxg : (m.heap x).iUnitGuid ≠ victim := by
      rcases h with ⟨r, hr, hg⟩ | h
      · intro hxv
        have hnd := hwf.unique
        unfold ThreatMgr.refs at hnd
        rw [List.map_append, List.nodup_append] at hnd
        exact hnd.2.2 (List.mem_map.2 ⟨x, hx, rfl⟩)
          (List.mem_map.2 ⟨r, hr, by rw [hg, hxv]⟩)
      · exact h x (List.mem_append_left _ hx)
    simpa using hxg
  simp [ThreatMgr.modifyThreatPercent, ThreatContainer.modifyThreatPercent, hnone]

/-- Witness of C39: halving the threat of unit 2, whose reference with threat 20
is in the offline list, changes nothing. -/
theorem modifyThreatPercent_offline_witness :
    ThreatMgr.modifyThreatPercent World.plain 0 ThreatMgr.mixed (some 2) (-50)
      = some ThreatMgr.mixed :=
  modifyThreatPercent_offline World.plain 0 ThreatMgr.mixed 2 (-50)
    (by
      refine ⟨?_, ?_, ?_, ?_⟩
      · intro r hr
        simp [ThreatMgr.refs, ThreatMgr.mixed] at hr
        rcases hr with rfl | rfl <;> simp [ThreatMgr.mixed]
      · simp [ThreatMgr.refs, ThreatMgr.mixed]
      · intro r hr
        simp [ThreatMgr.mixed] at hr
        simp [hr, ThreatMgr.mixed]
      · intro r hr
        simp [ThreatMgr.mixed] at hr
        simp [hr, ThreatMgr.mixed])
    (Or.inl ⟨1, by simp [ThreatMgr.mixed], by simp [ThreatMgr.mixed]⟩)

/-! ## The notification timer -/

theorem timer_reachable (owner : Option ObjectGuid) (m : ThreatMgr)
    (h : ReachableByTimer owner m) :
    0 < m.iUpdateTimer ∧ m.iUpdateTimer ≤ THREAT_UPDATE_INTERVAL := by
  induction h with
  | init => simp [ThreatMgr.new, THREAT_UPDATE_INTERVAL]
  | isNeedUpdateToClient m time _ ih =>
    simp only [ThreatMgr.isNeedUpdateToClient]
    split_ifs with h1 h2
    · exact ih
    · simp [THREAT_UPDATE_INTERVAL]
    · have hlt : time < m.iUpdateTimer := not_le.1 h2
      have hbound : m.iUpdateTimer ≤ 1000 := ih.2
      have heq : (m.iUpdateTimer + 2 ^ 32 - time) % 2 ^ 32 = m.iUpdateTimer - time := by
        have : m.iUpdateTimer + 2 ^ 32 - time = (m.iUpdateTimer - time) + 2 ^ 32 := by omega
        rw [this, Nat.add_mod_right]
        exact Nat.mod_eq_of_lt (by omega)
      simp only [heq]
      constructor
      · omega
      · simp only [THREAT_UPDATE_INTERVAL]; omega
  | clearReferences m _ _ => simp [ThreatMgr.clearReferences, THREAT_UPDATE_INTERVAL]
  | other m m' _ heq ih => rw [heq]; exact ih

/-- C40: in every state reached from construction through `isNeedUpdateToClient`,
`clearReferences` and steps that do not write the timer, the timer is positive
and at most `THREAT_UPDATE_INTERVAL`. In such a state `isNeedUpdateToClient(t)`
returns true exactly when the online list is not empty and `t` is at least the
timer, and then the timer is `THREAT_UPDATE_INTERVAL` afterwards and nothing
else has changed; with an empty online list it returns false and the state is
unchanged; with a non-empty list and `t` below the timer it returns false and
the wrapping subtraction leaves the timer minus `t`, which is positive. -/
theorem isNeedUpdateToClient_timer (owner : Option ObjectGuid) (m : ThreatMgr) (t : Nat)
    (h : ReachableByTimer owner m) :
    (0 < m.iUpdateTimer ∧ m.iUpdateTimer ≤ THREAT_UPDATE_INTERVAL) ∧
    ((m.isNeedUpdateToClient t).1 = true ↔
      (m.iThreatContainer.iThreatList ≠ [] ∧ t ≥ m.iUpdateTimer)) ∧
    ((m.isNeedUpdateToClient t).1 = true →
      (m.isNeedUpdateToClient t).2 = { m with iUpdateTimer := THREAT_UPDATE_INTERVAL }) ∧
    (m.iThreatContainer.iThreatList = [] → m.isNeedUpdateToClient t = (false, m)) ∧
    (m.iThreatContainer.iThreatList ≠ [] → t < m.iUpdateTimer →
      m.isNeedUpdateToClient t = (false, { m with iUpdateTimer := m.iUpdateTimer - t }) ∧
      0 < m.iUpdateTimer - t) := by
  have hinv := timer_reachable owner m h
  have hbound : m.iUpdateTimer ≤ 1000 := hinv.2
  refine ⟨hinv, ?_, ?_, ?_, ?_⟩
  · by_cases hl : m.iThreatContainer.iThreatList = []
    · simp [ThreatMgr.isNeedUpdateToClient, ThreatMgr.isThreatListEmpty, hl]
    · by_cases ht : t ≥ m.iUpdateTimer
      · simp [ThreatMgr.isNeedUpdateToClient, ThreatMgr.isThreatListEmpty, hl, ht]
      · simp [ThreatMgr.isNeedUpdateToClient, ThreatMgr.isThreatListEmpty, hl, ht]
  · by_cases hl : m.iThreatContainer.iThreatList = []
    · simp [ThreatMgr.isNeedUpdateToClient, ThreatMgr.isThreatListEmpty, hl]
    · by_cases ht : t ≥ m.iUpdateTimer
      · simp [ThreatMgr.isNeedUpdateToClient, ThreatMgr.isThreatListEmpty, hl, ht]
      · simp [ThreatMgr.isNeedUpdateToClient, ThreatMgr.isThreatListEmpty, hl, ht]
  · intro hl
    simp [ThreatMgr.isNeedUpdateToClient, ThreatMgr.isThreatListEmpty, hl]
  · intro hl ht
    have hnot : ¬ t ≥ m.iUpdateTimer := not_le.2 ht
    have heq : (m.iUpdateTimer + 2 ^ 32 - t) % 2 ^ 32 = m.iUpdateTimer - t := by
      have : m.iUpdateTimer + 2 ^ 32 - t = (m.iUpdateTimer - t) + 2 ^ 32 := by omega
      rw [this, Nat.add_mod_right]
      exact Nat.mod_eq_of_lt (by omega)
    constructor
    · simp [ThreatMgr.isNeedUpdateToClient, ThreatMgr.isThreatListEmpty, hl, hnot]
      simpa using heq
    · omega

/-- Witness of C40: on the table with one reference and a full timer, 400 ms
leave 600 on the timer and return false, and 1000 ms return true. -/
theorem isNeedUpdateToClient_timer_witness :
    (ThreatMgr.single 10).isNeedUpdateToClient 400 =
        (false, { ThreatMgr.single 10 with iUpdateTimer := 600 }) ∧
      ((ThreatMgr.single 10).isNeedUpdateToClient 1000).1 = true := by
  have hreach : ReachableByTimer (some 0) (ThreatMgr.single 10) :=
    ReachableByTimer.other (ThreatMgr.new (some 0)) (ThreatMgr.single 10)
      ReachableByTimer.init rfl
  have h400 := (isNeedUpdateToClient_timer (some 0) (ThreatMgr.single 10) 400 hreach).2.2.2.2
    (by simp [ThreatMgr.single]) (by simp [ThreatMgr.single, THREAT_UPDATE_INTERVAL])
  have h1000 := (isNeedUpdateToClient_timer (some 0) (ThreatMgr.single 10) 1000 hreach).2.1
  refine ⟨?_, ?_⟩
  · rw [h400.1]
    simp [ThreatMgr.single, THREAT_UPDATE_INTERVAL]
  · rw [h1000]
    simp [ThreatMgr.single, THREAT_UPDATE_INTERVAL]

/-! ## What the scan can return -/

theorem consider_result (w : World) (heap : Nat → HostileReference) (attacker : ObjectGuid)
    (cv : Option Nat) (cur : Nat) (target : ObjectGuid) (r : Nat)
    (h : selectNextVictim.consider w heap attacker cv cur target = some r) :
    attackValid w attacker target = true ∧ (r = cur ∨ cv = some r) := by
  unfold selectNextVictim.consider at h
  by_cases hv : attackValid w attacker target = true
  · refine ⟨hv, ?_⟩
    rw [if_pos hv] at h
    cases cv with
    | none =>
      simp only [Option.some.injEq] at h
      exact Or.inl h.symm
    | some T =>
      simp only [] at h
      split_ifs at h
      · exact Or.inl (Option.some.inj h).symm
      · exact Or.inl (Option.some.inj h).symm
      · exact Or.inl (Option.some.inj h).symm
      · exact Or.inr (by rw [← Option.some.inj h])
  · rw [if_neg hv] at h
    cases h

theorem second_result (w : World) (heap : Nat → HostileReference) (attacker : ObjectGuid)
    (cv : Option Nat) (r : Nat) :
    ∀ l : List Nat, selectNextVictim.second w heap attacker cv l = some (some r) →
      (r ∈ l ∧ (heap r).linked = true ∧ attackValid w attacker (heap r).iUnitGuid = true) ∨
        cv = some r := by
  intro l
  induction l with
  | nil => intro h; simp [selectNextVictim.second] at h
  | cons x rest ih =>
    intro h
    by_cases hl : (heap x).linked = true
    · simp only [selectNextVictim.second, HostileReference.getTarget, hl, if_true] at h
      cases hcon : selectNextVictim.consider w heap attacker cv x (heap x).iUnitGuid with
      | none =>
        rw [hcon] at h
        rcases ih h with ⟨h1, h2⟩ | h1
        · exact Or.inl ⟨List.mem_cons_of_mem _ h1, h2⟩
        · exact Or.inr h1
      | some y =>
        rw [hcon] at h
        have hy : y = r := Option.some.inj (Option.some.inj h)
        rw [hy] at hcon
        obtain ⟨hv, hr | hr⟩ := consider_result w heap attacker cv x _ r hcon
        · left
          rw [hr]
          exact ⟨List.mem_cons_self _ _, hl, hv⟩
        · exact Or.inr hr
    · simp [selectNextVictim.second, HostileReference.getTarget, hl] at h

theorem first_result (w : World) (heap : Nat → HostileReference) (attacker : ObjectGuid)
    (cv : Option Nat) (full : List Nat) (r : Nat) :
    ∀ l : List Nat, selectNextVictim.first w heap attacker cv full l = some (some r) →
      ((r ∈ l ∨ r ∈ full) ∧ (heap r).linked = true ∧
        attackValid w attacker (heap r).iUnitGuid = true) ∨ cv = some r := by
  intro l
  induction l with
  | nil => intro h; simp [selectNextVictim.first] at h
  | cons x rest ih =>
    intro h
    by_cases hl : (heap x).linked = true
    · simp only [selectNextVictim.first, HostileReference.getTarget, hl, if_true] at h
      split_ifs at h with hs hrest
      · rcases ih h with ⟨h1 | h1, h2⟩ | h1
        · exact Or.inl ⟨Or.inl (List.mem_cons_of_mem _ h1), h2⟩
        · exact Or.inl ⟨Or.inr h1, h2⟩
        · exact Or.inr h1
      · rcases second_result w heap attacker cv r full h with ⟨h1, h2⟩ | h1
        · exact Or.inl ⟨Or.inr h1, h2⟩
        · exact Or.inr h1
      · cases hcon : selectNextVictim.consider w heap attacker cv x (heap x).iUnitGuid with
        | none =>
          rw [hcon] at h
          rcases ih h with ⟨h1 | h1, h2⟩ | h1
          · exact Or.inl ⟨Or.inl (List.mem_cons_of_mem _ h1), h2⟩
          · exact Or.inl ⟨Or.inr h1, h2⟩
          · exact Or.inr h1
        | some y =>
          rw [hcon] at h
          have hy : y = r := Option.some.inj (Option.some.inj h)
          rw [hy] at hcon
          obtain ⟨hv, hr | hr⟩ := consider_result w heap attacker cv x _ r hcon
          · left
            rw [hr]
            exact ⟨Or.inl (List.mem_cons_self _ _), hl, hv⟩
          · exact Or.inr hr
    · simp [selectNextVictim.first, HostileReference.getTarget, hl] at h

/-- A reference returned by `selectNextVictim` is in the list or is the previous
target; it has its unit and the unit passes the attack-validity test. -/
theorem selectNextVictim_member (w : World) (heap : Nat → HostileReference)
    (c : ThreatContainer) (attacker : ObjectGuid) (previous : Option Nat) (r : Nat)
    (h : c.selectNextVictim w heap attacker previous = some (some r)) :
    (r ∈ c.iThreatList ∨ previous = some r) ∧ (heap r).linked = true ∧
      attackValid w attacker (heap r).iUnitGuid = true := by
  simp only [ThreatContainer.selectNextVictim, Option.bind_eq_bind, Option.bind_eq_some] at h
  obtain ⟨cv, hcv, hfirst⟩ := h
  rcases first_result w heap attacker cv c.iThreatList r c.iThreatList hfirst with
    ⟨h1, h2⟩ | h1
  · exact ⟨Or.inl (by rcases h1 with h1 | h1 <;> exact h1), h2⟩
  · cases previous with
    | none =>
      simp only [Option.some.injEq] at hcv
      rw [← hcv] at h1
      cases h1
    | some p =>
      simp only [] at hcv
      by_cases hl : (heap p).linked = true
      · simp only [HostileReference.getTarget, hl, if_true] at hcv
        split_ifs at hcv with hv hi
        · rw [← Option.some.inj hcv] at h1
          cases h1
        · rw [← Option.some.inj hcv] at h1
          cases h1
        · have hp : p = r := by
            rw [← Option.some.inj hcv] at h1
            exact Option.some.inj h1
          rw [← hp]
          exact ⟨Or.inr rfl, hl, by simpa using hv⟩
      · simp [HostileReference.getTarget, hl] at hcv

/-- C36: when `selectNextVictim` returns a reference, it is a reference of the
list or the previous target that was passed in, it has its unit, and that unit
passes the attack-validity test (the attacker detects it and can attack
it). -/
theorem selectNextVictim_valid (w : World) (heap : Nat → HostileReference)
    (c : ThreatContainer) (attacker : ObjectGuid) (previous : Option Nat) (r : Nat)
    (h : c.selectNextVictim w heap attacker previous = some (some r)) :
    (r ∈ c.iThreatList ∨ previous = some r) ∧
      (heap r).getTarget = some (heap r).iUnitGuid ∧
      w._CanDetectFeignDeathOf attacker (heap r).iUnitGuid = true ∧
      w.CanCreatureAttack attacker (heap r).iUnitGuid = true := by
  obtain ⟨hmem, hl, hv⟩ := selectNextVictim_member w heap c attacker previous r h
  refine ⟨hmem, by simp [HostileReference.getTarget, hl], ?_, ?_⟩
  · simp only [attackValid, Bool.and_eq_true] at hv
    exact hv.1
  · simp only [attackValid, Bool.and_eq_true] at hv
    exact hv.2

/-- Witness of C36: the candidate at 140 returned against the previous target
(reference 1) is in the list and can be attacked. -/
theorem selectNextVictim_valid_witness :
    (0 ∈ [0, 1] ∨ some 1 = some 0) ∧
      (heapCandidate 140 0).getTarget = some (heapCandidate 140 0).iUnitGuid ∧
      World.outOfMelee._CanDetectFeignDeathOf 0 (heapCandidate 140 0).iUnitGuid = true ∧
      World.outOfMelee.CanCreatureAttack 0 (heapCandidate 140 0).iUnitGuid = true :=
  selectNextVictim_valid World.outOfMelee (heapCandidate 140) ⟨[0, 1], false⟩ 0 (some 1) 0
    (by
      simp [ThreatContainer.selectNextVictim, selectNextVictim.first, selectNextVictim.consider,
        HostileReference.getTarget, HostileReference.getThreat, secondChoice, attackValid,
        heapCandidate, World.outOfMelee, World.plain, mul13_100, mul11_100, round_105, round_115,
      round_140]
      norm_num)

/-! ## Threat of the returned reference -/

/-- C37, counterexample. The list holds reference 0 (unit 1, threat -10) and
then reference 1 (unit 2, threat -12), in non-increasing order; the previous
target is reference 0, attack-valid, not immune, without breakable aura, and
its unit ignores the attacker. The first pass skips it, and reference 1 is
above the float32 product `1.3f * -10`, which is -13, so `selectNextVictim`
returns reference 1, whose threat is lower. -/
theorem selectNextVictim_downgrade :
    [0, 1].Pairwise (fun a b => (heapNegative a).getThreat ≥ (heapNegative b).getThreat) ∧
    attackValid World.firstIgnores 0 (heapNegative 0).iUnitGuid = true ∧
    World.firstIgnores.IsImmunedToDamageOrSchool (heapNegative 0).iUnitGuid 0 = false ∧
    World.firstIgnores.HasNegativeAuraWithInterruptFlag (heapNegative 0).iUnitGuid = false ∧
    ThreatContainer.selectNextVictim World.firstIgnores heapNegative ⟨[0, 1], false⟩ 0 (some 0)
      = some (some 1) ∧
    (heapNegative 1).getThreat < (heapNegative 0).getThreat := by
  refine ⟨?_, ?_, ?_, ?_, ?_, ?_⟩
  · simp [heapNegative, HostileReference.getThreat]
    norm_num
  · simp [attackValid, World.firstIgnores, World.plain]
  · simp [World.firstIgnores, World.plain]
  · simp [World.firstIgnores, World.plain]
  · simp [ThreatContainer.selectNextVictim, selectNextVictim.first, selectNextVictim.consider,
      HostileReference.getTarget, HostileReference.getThreat, secondChoice, attackValid,
      heapNegative, World.firstIgnores, World.plain, mul13_neg10, round_neg12]
    norm_num
  · simp [heapNegative, HostileReference.getThreat]
    norm_num

/-- With a previous target that is first choice and attack-valid, the scan of a
list in which it occurs returns it or a reference listed before it. -/
theorem first_before (w : World) (heap : Nat → HostileReference) (attacker : ObjectGuid)
    (T r : Nat) (full post : List Nat)
    (hT : (heap T).linked = true)
    (hvalid : attackValid w attacker (heap T).iUnitGuid = true)
    (hchoice : secondChoice w attacker (heap T).iUnitGuid = false) :
    ∀ pre : List Nat,
      selectNextVictim.first w heap attacker (some T) full (pre ++ T :: post) = some (some r) →
      r = T ∨ r ∈ pre := by
  have hself : selectNextVictim.consider w heap attacker (some T) T (heap T).iUnitGuid
      = some T := by
    simp [selectNextVictim.consider, hvalid]
  intro pre
  induction pre with
  | nil =>
    intro h
    simp only [List.nil_append, selectNextVictim.first, HostileReference.getTarget, hT, if_true,
      hchoice, Bool.false_eq_true, if_false, hself] at h
    exact Or.inl (Option.some.inj (Option.some.inj h)).symm
  | cons x pre ih =>
    intro h
    by_cases hl : (heap x).linked = true
    · simp only [List.cons_append, selectNextVictim.first, HostileReference.getTarget, hl,
        if_true] at h
      have hne : pre ++ T :: post ≠ [] := by simp
      split_ifs at h with hs hrest
      · rcases ih h with h1 | h1
        · exact Or.inl h1
        · exact Or.inr (List.mem_cons_of_mem _ h1)
      · exact absurd hne hrest
      · cases hcon : selectNextVictim.consider w heap attacker (some T) x (heap x).iUnitGuid with
        | none =>
          rw [hcon] at h
          rcases ih h with h1 | h1
          · exact Or.inl h1
          · exact Or.inr (List.mem_cons_of_mem _ h1)
        | some y =>
          rw [hcon] at h
          have hy : y = r := Option.some.inj (Option.some.inj h)
          rw [hy] at hcon
          obtain ⟨-, hr | hr⟩ := consider_result w heap attacker (some T) x _ r hcon
          · exact Or.inr (by rw [hr]; exact List.mem_cons_self _ _)
          · exact Or.inl (Option.some.inj hr).symm
    · simp [selectNextVictim.first, HostileReference.getTarget, hl] at h

/-- C37, amended. The online list is ordered by non-increasing threat and
contains the previous target `T`, which is attack-valid, not immune and without
breakable aura, and the threat of `T` is not negative or the unit of `T` does
not ignore the attacker. Then every reference `selectNextVictim` returns has at
least the threat of `T`. -/
theorem selectNextVictim_no_downgrade (w : World) (heap : Nat → HostileReference)
    (c : ThreatContainer) (attacker : ObjectGuid) (T r : Nat)
    (hsorted : c.iThreatList.Pairwise (fun a b => (heap a).getThreat ≥ (heap b).getThreat))
    (hmem : T ∈ c.iThreatList)
    (hvalid : attackValid w attacker (heap T).iUnitGuid = true)
    (himmune : w.IsImmunedToDamageOrSchool (heap T).iUnitGuid attacker = false)
    (hbreak : w.HasNegativeAuraWithInterruptFlag (heap T).iUnitGuid = false)
    (hcase : (heap T).getThreat ≥ 0 ∨
      w.HasAuraTypeWithCaster (heap T).iUnitGuid attacker = false)
    (hres : c.selectNextVictim w heap attacker (some T) = some (some r)) :
    (heap r).getThreat ≥ (heap T).getThreat := by
  have hT : (heap T).linked = true := by
    by_contra hl
    simp [ThreatContainer.selectNextVictim, HostileReference.getTarget, hl] at hres
  rw [selectNextVictim_kept w heap c attacker T hT hvalid himmune hbreak] at hres
  rcases hcase with hpos | hignore
  · rcases first_current w heap attacker T r _ _ hres with h | ⟨-, h | ⟨h, -⟩⟩
    · rw [h]
    · by_contra hlow
      have hle : (heap r).getThreat ≤ Float32.lit1_3 * (heap T).getThreat := by
        norm_num [Float32.lit1_3]; linarith
      exact absurd h (not_lt.2 (round_mono _ _ hle))
    · by_contra hlow
      have hle : (heap r).getThreat ≤ Float32.lit1_1 * (heap T).getThreat := by
        norm_num [Float32.lit1_1]; linarith
      exact absurd h (not_lt.2 (round_mono _ _ hle))
  · have hchoice : secondChoice w attacker (heap T).iUnitGuid = false := by
      simp [secondChoice, himmune, hbreak, hignore]
    obtain ⟨pre, post, hlist⟩ := List.append_of_mem hmem
    nth_rewrite 2 [hlist] at hres
    rcases first_before w heap attacker T r c.iThreatList post hT hvalid hchoice pre hres with
      h | h
    · rw [h]
    · rw [hlist, List.pairwise_append] at hsorted
      exact hsorted.2.2 r h T (List.mem_cons_self _ _)

/-- Witness of C37, amended: the candidate at 140 returned against the previous
target (reference 1) at 100 has at least its threat. -/
theorem selectNextVictim_no_downgrade_witness :
    (heapCandidate 140 0).getThreat ≥ (heapCandidate 140 1).getThreat :=
  selectNextVictim_no_downgrade World.outOfMelee (heapCandidate 140) ⟨[0, 1], false⟩ 0 1 0
    (by simp [heapCandidate, HostileReference.getThreat, mul13_100, mul11_100, round_105,
        round_115, round_140]; norm_num)
    (by simp) rfl rfl rfl
    (Or.inl (by simp [heapCandidate, HostileReference.getThreat]))
    (by
      simp [ThreatContainer.selectNextVictim, selectNextVictim.first, selectNextVictim.consider,
        HostileReference.getTarget, HostileReference.getThreat, secondChoice, attackValid,
        heapCandidate, World.outOfMelee, World.plain, mul13_100, mul11_100, round_105, round_115,
      round_140]
      norm_num)

/-! ## The current victim is online -/

theorem victimOnline_of_subset (m m' : ThreatMgr)
    (hcv : m'.iCurrentVictim = m.iCurrentVictim)
    (hsub : ∀ r ∈ m.iThreatContainer.iThreatList, r ∈ m'.iThreatContainer.iThreatList)
    (hinv : m.VictimOnline) : m'.VictimOnline := by
  intro cv hc
  rw [hcv] at hc
  exact hsub cv (hinv cv hc)

/-- The lists and the current victim after an online-status event. -/
theorem onlineStatus_full (w : World) (m : ThreatMgr) (e : Nat) (d : ℚ) :
    ∃ m', m.processThreatEvent w ⟨.UEV_THREAT_REF_ONLINE_STATUS, e, d⟩ = some m' ∧
      m'.iThreatContainer.iThreatList =
        (if (m.heap e).iOnline = false then
          m.iThreatContainer.iThreatList.filter (fun r => r != e)
        else m.iThreatContainer.iThreatList ++ [e]) ∧
      m'.iCurrentVictim =
        (if (m.heap e).iOnline = false ∧ m.iCurrentVictim = some e then none
          else m.iCurrentVictim) := by
  simp only [ThreatMgr.processThreatEvent]
  by_cases hon : (m.heap e).iOnline = false
  · simp only [hon, if_true]
    by_cases hcv : some e = m.iCurrentVictim
    · cases ho : m.iOwner with
      | none =>
        simp [hcv.symm, ThreatMgr.setCurrentVictim, ThreatMgr.setDirty, ho,
          ThreatContainer.remove, ThreatContainer.addReference]
      | some o =>
        by_cases hs : w.IsInWorld o = true ∧ w.GetUnit o (m.heap e).iUnitGuid = true ∧
            w.IsInMap o (m.heap e).iUnitGuid = true
        · simp [hcv.symm, ThreatMgr.setCurrentVictim, ThreatMgr.setDirty, ho, hs,
            ThreatContainer.remove, ThreatContainer.addReference]
        · simp [hcv.symm, ThreatMgr.setCurrentVictim, ThreatMgr.setDirty, ho, hs,
            ThreatContainer.remove, ThreatContainer.addReference]
    · have hcv1 : ¬ m.iCurrentVictim = some e := fun h => hcv h.symm
      cases ho : m.iOwner with
      | none =>
        simp [hcv, hcv1, ThreatMgr.setCurrentVictim, ThreatMgr.setDirty, ho,
          ThreatContainer.remove, ThreatContainer.addReference]
      | some o =>
        by_cases hs : w.IsInWorld o = true ∧ w.GetUnit o (m.heap e).iUnitGuid = true ∧
            w.IsInMap o (m.heap e).iUnitGuid = true
        · simp [hcv, hcv1, ThreatMgr.setCurrentVictim, ThreatMgr.setDirty, ho, hs,
            ThreatContainer.remove, ThreatContainer.addReference]
        · simp [hcv, hcv1, ThreatMgr.setCurrentVictim, ThreatMgr.setDirty, ho, hs,
            ThreatContainer.remove, ThreatContainer.addReference]
  · have hon1 : (m.heap e).iOnline = true := by simpa using hon
    cases hcv : m.iCurrentVictim with
    | none =>
      simp [hon1, hcv, ThreatMgr.setDirty, ThreatContainer.remove, ThreatContainer.addReference]
    | some cv =>
      by_cases hgt : Float32.round (m.heap e).getThreat >
          Float32.mul Float32.lit1_1 (m.heap cv).getThreat
      · simp [hon1, hcv, hgt, ThreatMgr.setDirty, ThreatContainer.remove,
          ThreatContainer.addReference]
      · simp [hon1, hcv, hgt, ThreatMgr.setDirty, ThreatContainer.remove,
          ThreatContainer.addReference]

theorem processThreatEvent_victim (w : World) (m m' : ThreatMgr)
    (ev : ThreatRefStatusChangeEvent) (hinv : m.VictimOnline)
    (h : m.processThreatEvent w ev = some m') : m'.VictimOnline := by
  obtain ⟨ty, e, d⟩ := ev
  cases ty with
  | UEV_THREAT_REF_THREAT_CHANGE =>
    obtain ⟨m2, hm2, -, -, -, hcv, hon, -⟩ := processThreatEvent_threatChange w m e d
    rw [hm2] at h
    cases Option.some.inj h
    exact victimOnline_of_subset m _ hcv (fun r hr => by rw [hon]; exact hr) hinv
  | UEV_THREAT_REF_ONLINE_STATUS =>
    obtain ⟨m2, hm2, hl, hcv⟩ := onlineStatus_full w m e d
    rw [hm2] at h
    cases Option.some.inj h
    intro cv hc
    rw [hcv] at hc
    rw [hl]
    by_cases hon : (m.heap e).iOnline = false
    · by_cases hce : m.iCurrentVictim = some e
      · simp [hon, hce] at hc
      · have hcond : ¬ ((m.heap e).iOnline = false ∧ m.iCurrentVictim = some e) :=
          fun hx => hce hx.2
        rw [if_neg hcond] at hc
        rw [if_pos hon, List.mem_filter]
        refine ⟨hinv cv hc, ?_⟩
        simp only [bne_iff_ne, ne_eq]
        intro hcve
        exact hce (by rw [hc, hcve])
    · have hcond : ¬ ((m.heap e).iOnline = false ∧ m.iCurrentVictim = some e) :=
        fun hx => hon hx.1
      rw [if_neg hcond] at hc
      rw [if_neg hon]
      exact List.mem_append_left _ (hinv cv hc)
  | UEV_THREAT_REF_REMOVE_FROM_LIST =>
    cases ho : m.iOwner with
    | none =>
      simp only [ThreatMgr.processThreatEvent, Option.bind_eq_bind, Option.bind_eq_some] at h
      obtain ⟨m1, h1, m2, h2, -⟩ := h
      have hown : m1.iOwner = none := by
        split_ifs at h1
        · simp only [ThreatMgr.setCurrentVictim, Option.map_some', Option.some.injEq] at h1
          rw [← h1]
          exact ho
        · cases Option.some.inj h1
          exact ho
      simp [hown] at h2
    | some o =>
      obtain ⟨m2, hm2, -, -, -, -, hl, -, hcv, -, -⟩ := remove_full w m e d o ho
      rw [hm2] at h
      cases Option.some.inj h
      intro cv hc
      rw [hcv] at hc
      rw [hl]
      by_cases hce : m.iCurrentVictim = some e
      · simp [hce] at hc
      · rw [if_neg hce] at hc
        split_ifs
        · rw [List.mem_filter]
          refine ⟨hinv cv hc, ?_⟩
          simp only [bne_iff_ne, ne_eq]
          intro hcve
          exact hce (by rw [hc, hcve])
        · exact hinv cv hc

theorem setOnlineOfflineState_victim (w : World) (m m' : ThreatMgr) (ref : Nat) (b : Bool)
    (hinv : m.VictimOnline)
    (h : HostileReference.setOnlineOfflineState w m ref b = some m') : m'.VictimOnline := by
  simp only [HostileReference.setOnlineOfflineState, HostileReference.fireStatusChanged] at h
  split_ifs at h
  · have hmod : (m.modifyRef ref (fun e => { e with iOnline := b })).VictimOnline :=
      victimOnline_of_subset m _ rfl (fun _ hr => hr) hinv
    exact processThreatEvent_victim w _ m' _ hmod h
  · cases Option.some.inj h
    exact hinv

theorem updateOnlineStatus_victim (w : World) (m m' : ThreatMgr) (ref : Nat)
    (hinv : m.VictimOnline)
    (h : HostileReference.updateOnlineStatus w m ref = some m') : m'.VictimOnline := by
  simp only [HostileReference.updateOnlineStatus, Option.bind_eq_bind, Option.bind_eq_some] at h
  obtain ⟨m1, h1, online, -, h3⟩ := h
  have hinv1 : m1.VictimOnline := by
    simp only [HostileReference.relink] at h1
    split_ifs at h1
    · cases ho : m.iOwner with
      | none => simp [ho] at h1
      | some o =>
        simp only [ho] at h1
        split_ifs at h1
        · cases Option.some.inj h1
          exact victimOnline_of_subset m _ rfl (fun _ hr => hr) hinv
        · cases Option.some.inj h1
          exact hinv
    · cases Option.some.inj h1
      exact hinv
  exact setOnlineOfflineState_victim w m1 m' ref online hinv1 h3

theorem hostileAddThreat_victim (w : World)
    (reenter : ThreatMgr → ObjectGuid → Option ThreatMgr)
    (m m' : ThreatMgr) (ref : Nat) (d : ℚ)
    (hre : ∀ s u s', s.VictimOnline → reenter s u = some s' → s'.VictimOnline)
    (hinv : m.VictimOnline)
    (h : HostileReference.addThreat w reenter m ref d = some m') : m'.VictimOnline := by
  simp only [HostileReference.addThreat, Option.bind_eq_bind, Option.bind_eq_some] at h
  obtain ⟨m2, h2, m3, h3, h4⟩ := h
  have hinv1 : (m.modifyRef ref (fun e => { e with iThreat := e.iThreat + d })).VictimOnline :=
    victimOnline_of_subset m _ rfl (fun _ hr => hr) hinv
  have hinv2 : m2.VictimOnline := by
    split_ifs at h2
    · exact updateOnlineStatus_victim w _ m2 ref hinv1 h2
    · cases Option.some.inj h2
      exact hinv1
  have hinv3 : m3.VictimOnline := by
    split_ifs at h3
    · exact processThreatEvent_victim w m2 m3 _ hinv2 h3
    · cases Option.some.inj h3
      exact hinv2
  split_ifs at h4
  · cases hco : w.GetCharmerOrOwner (m3.heap ref).iUnitGuid with
    | none =>
      rw [hco] at h4
      cases Option.some.inj h4
      exact hinv3
    | some u =>
      rw [hco] at h4
      simp only [] at h4
      split_ifs at h4
      · exact hre m3 u m' hinv3 h4
      · cases Option.some.inj h4
        exact hinv3
  · cases Option.some.inj h4
    exact hinv3
  · cases Option.some.inj h4
    exact hinv3

theorem _addThreat_victim (w : World) (reenter : ThreatMgr → ObjectGuid → Option ThreatMgr)
    (m m' : ThreatMgr) (victim : Option ObjectGuid) (d : ℚ)
    (hre : ∀ s u s', s.VictimOnline → reenter s u = some s' → s'.VictimOnline)
    (hinv : m.VictimOnline)
    (h : ThreatMgr._addThreat w reenter m victim d = some m') : m'.VictimOnline := by
  cases hon : m.iThreatContainer.getReferenceByTarget m.heap victim with
  | some ref =>
    cases hA : HostileReference.addThreat w reenter m ref d with
    | none => simp [ThreatMgr._addThreat, ThreatContainer.addThreat, hon, hA] at h
    | some m1 =>
      simp [ThreatMgr._addThreat, ThreatContainer.addThreat, hon, hA] at h
      subst h
      exact hostileAddThreat_victim w reenter m m1 ref d hre hinv hA
  | none =>
    cases hoff : m.iThreatOfflineContainer.getReferenceByTarget m.heap victim with
    | some ref =>
      cases hA : HostileReference.addThreat w reenter m ref d with
      | none => simp [ThreatMgr._addThreat, ThreatContainer.addThreat, hon, hoff, hA] at h
      | some m1 =>
        simp [ThreatMgr._addThreat, ThreatContainer.addThreat, hon, hoff, hA] at h
        subst h
        exact hostileAddThreat_victim w reenter m m1 ref d hre hinv hA
    | none =>
      cases victim with
      | none =>
        simp [ThreatMgr._addThreat, ThreatContainer.addThreat, hon, hoff] at h
      | some guid =>
        simp only [ThreatMgr._addThreat, ThreatContainer.addThreat, hon, hoff,
          Option.bind_eq_bind, Option.some_bind, Option.bind_eq_some] at h
        obtain ⟨m5, h5, h6⟩ := h
        have hinv5 : m5.VictimOnline := by
          refine hostileAddThreat_victim w reenter _ m5 m.nextRef d hre ?_ h5
          exact victimOnline_of_subset m _ rfl
            (fun r hr => by
              simp only [ThreatContainer.addReference]
              exact List.mem_append_left _ hr) hinv
        split_ifs at h6
        · exact setOnlineOfflineState_victim w m5 m' m.nextRef false hinv5 h6
        · cases Option.some.inj h6
          exact hinv5

theorem doAddThreat_victim (w : World) (reenter : ThreatMgr → ObjectGuid → Option ThreatMgr)
    (m m' : ThreatMgr) (victim : ObjectGuid) (d : ℚ)
    (hre : ∀ s u s', s.VictimOnline → reenter s u = some s' → s'.VictimOnline)
    (hinv : m.VictimOnline)
    (h : ThreatMgr.doAddThreat w reenter m victim d = some m') : m'.VictimOnline := by
  unfold ThreatMgr.doAddThreat at h
  simp only [] at h
  split_ifs at h with hc
  · cases ht : w.GetRedirectThreatTarget victim with
    | none =>
      rw [ht] at h
      exact _addThreat_victim w reenter m m' _ d hre hinv h
    | some target =>
      rw [ht] at h
      simp only [Option.bind_eq_bind, Option.bind_eq_some] at h
      obtain ⟨valid, -, m1, h1, h2⟩ := h
      have hinv1 : m1.VictimOnline := by
        split_ifs at h1
        · exact _addThreat_victim w reenter m m1 _ _ hre hinv h1
        · cases Option.some.inj h1
          exact hinv
      exact _addThreat_victim w reenter m1 m' _ _ hre hinv1 h2
  · exact _addThreat_victim w reenter m m' _ d hre hinv h

theorem addThreat_victim (w : World) :
    ∀ (depth : Nat) (m m' : ThreatMgr) (victim : Option ObjectGuid) (threat : ℚ)
      (schoolMask : SpellSchoolMask) (threatSpell : Option SpellInfo), m.VictimOnline →
      ThreatMgr.addThreat w depth m victim threat schoolMask threatSpell = some m' →
      m'.VictimOnline := by
  intro depth
  induction depth with
  | zero =>
    intro m m' victim threat schoolMask threatSpell _ h
    simp [ThreatMgr.addThreat] at h
  | succ n ih =>
    intro m m' victim threat schoolMask threatSpell hinv h
    simp only [ThreatMgr.addThreat, ThreatMgr.addThreatBody,
      Option.bind_eq_bind, Option.bind_eq_some] at h
    obtain ⟨valid, -, h2⟩ := h
    cases valid with
    | false =>
      simp only [if_true] at h2
      cases Option.some.inj h2
      exact hinv
    | true =>
      simp only [Bool.true_eq_false, if_false] at h2
      cases victim with
      | none => simp at h2
      | some v =>
        exact doAddThreat_victim w _ m m' v _
          (fun s u s' hs hr => ih s s' (some u) 0 SPELL_SCHOOL_MASK_NORMAL none hs hr) hinv h2

theorem modifyThreatPercent_victim (w : World) (depth : Nat) (m m' : ThreatMgr)
    (victim : Option ObjectGuid) (percent : ℤ) (hinv : m.VictimOnline)
    (h : ThreatMgr.modifyThreatPercent w depth m victim percent = some m') :
    m'.VictimOnline := by
  simp only [ThreatMgr.modifyThreatPercent, ThreatContainer.modifyThreatPercent] at h
  cases hon : m.iThreatContainer.getReferenceByTarget m.heap victim with
  | none =>
    rw [hon] at h
    cases Option.some.inj h
    exact hinv
  | some ref =>
    rw [hon] at h
    simp only [HostileReference.addThreatPercent] at h
    split_ifs at h
    · cases Option.some.inj h
      exact hinv
    · exact hostileAddThreat_victim w _ m m' ref _
        (fun s u s' hs hr => addThreat_victim w depth s s' (some u) 0 SPELL_SCHOOL_MASK_NORMAL
          none hs hr) hinv h

theorem update_mem (heap : Nat → HostileReference) (c : ThreatContainer) (r : Nat) :
    r ∈ (c.update heap).iThreatList ↔ r ∈ c.iThreatList := by
  simp only [ThreatContainer.update]
  split_ifs
  · exact (sortByThreat_perm heap c.iThreatList).mem_iff
  · exact Iff.rfl

theorem getHostilTarget_victim (w : World) (m m' : ThreatMgr) (target : Option ObjectGuid)
    (hinv : m.VictimOnline)
    (h : ThreatMgr.getHostilTarget w m = some (target, m')) : m'.VictimOnline := by
  obtain ⟨-, hcont⟩ := getHostilTarget_container w m m' target h
  simp only [ThreatMgr.getHostilTarget, Option.bind_eq_bind, Option.bind_eq_some] at h
  obtain ⟨owner, -, nextVictim, hnext, m2, h2, h3⟩ := h
  have hm : m2 = m' := (Prod.mk.inj (Option.some.inj h3)).2
  have hcv : m'.iCurrentVictim = nextVictim := by
    rw [← hm]
    cases nextVictim with
    | none =>
      simp only [ThreatMgr.setCurrentVictim, Option.some.injEq] at h2
      rw [← h2]
    | some ref =>
      simp only [ThreatMgr.setCurrentVictim] at h2
      split_ifs at h2
      · cases ho : m.iOwner with
        | none => simp [ho] at h2
        | some o =>
          simp only [ho, Option.some.injEq] at h2
          rw [← h2]
      · simp only [Option.some.injEq] at h2
        rw [← h2]
  intro cv hc
  rw [hcv] at hc
  rw [hcont, update_mem]
  rw [hc] at hnext
  split_ifs at hnext with hcreature hempty
  · obtain ⟨hmem, -, -⟩ := selectNextVictim_member w m.heap _ owner m.iCurrentVictim cv hnext
    rcases hmem with hmem | hmem
    · exact (update_mem m.heap m.iThreatContainer cv).1 hmem
    · exact hinv cv hmem
  · cases Option.some.inj hnext

theorem removeReference_victim (w : World) (m m' : ThreatMgr) (ref : Nat)
    (hinv : m.VictimOnline)
    (h : HostileReference.removeReference w m ref = some m') : m'.VictimOnline := by
  simp only [HostileReference.removeReference, HostileReference.fireStatusChanged,
    Option.bind_eq_bind, Option.bind_eq_some] at h
  obtain ⟨m1, h1, h2⟩ := h
  have hinv1 := setOnlineOfflineState_victim w m m1 ref false hinv h1
  have hmod : (m1.modifyRef ref (fun e => { e with linked := false })).VictimOnline :=
    victimOnline_of_subset m1 _ rfl (fun _ hr => hr) hinv1
  exact processThreatEvent_victim w _ m' _ hmod h2

theorem zeroThreat_lists (l : List Nat) :
    ∀ m : ThreatMgr, (m.zeroThreat l).iCurrentVictim = m.iCurrentVictim ∧
      (m.zeroThreat l).iThreatContainer = m.iThreatContainer := by
  induction l with
  | nil => intro m; exact ⟨rfl, rfl⟩
  | cons x rest ih =>
    intro m
    simp only [ThreatMgr.zeroThreat, List.foldl_cons]
    exact ih (m.modifyRef x (fun e => e.setThreat 0))

theorem resetAllAggro_victim (m : ThreatMgr) (hinv : m.VictimOnline) :
    m.resetAllAggro.VictimOnline := by
  simp only [ThreatMgr.resetAllAggro]
  split_ifs
  · exact hinv
  · obtain ⟨hcv, hcont⟩ := zeroThreat_lists m.iThreatContainer.iThreatList m
    refine victimOnline_of_subset m _ hcv ?_ hinv
    intro r hr
    simp only [ThreatMgr.setDirty, hcont]
    exact hr

theorem modifyThreatPercent_wf (w : World) (depth : Nat) (m m' : ThreatMgr)
    (victim : Option ObjectGuid) (percent : ℤ) (hwf : m.WellFormed)
    (h : ThreatMgr.modifyThreatPercent w depth m victim percent = some m') :
    m'.WellFormed := by
  simp only [ThreatMgr.modifyThreatPercent, ThreatContainer.modifyThreatPercent] at h
  cases victim with
  | none =>
    simp only [ThreatContainer.getReferenceByTarget] at h
    cases Option.some.inj h
    exact hwf
  | some g =>
    cases hon : m.iThreatContainer.getReferenceByTarget m.heap (some g) with
    | none =>
      rw [hon] at h
      cases Option.some.inj h
      exact hwf
    | some ref =>
      rw [hon] at h
      obtain ⟨hmem, -⟩ := lookup_some _ _ _ _ hon
      simp only [HostileReference.addThreatPercent] at h
      split_ifs at h
      · cases Option.some.inj h
        exact hwf
      · exact (hostileAddThreat_spec w _ m m' ref _ hwf (List.mem_append_left _ hmem)
          (reenter_quiet w depth) h).1.wf

theorem getHostilTarget_frame (w : World) (m m' : ThreatMgr) (target : Option ObjectGuid)
    (h : ThreatMgr.getHostilTarget w m = some (target, m')) :
    m'.nextRef = m.nextRef ∧ m'.iThreatOfflineContainer = m.iThreatOfflineContainer := by
  simp only [ThreatMgr.getHostilTarget, Option.bind_eq_bind, Option.bind_eq_some] at h
  obtain ⟨owner, -, nextVictim, -, m2, h2, h3⟩ := h
  have hm : m2 = m' := (Prod.mk.inj (Option.some.inj h3)).2
  rw [← hm]
  cases nextVictim with
  | none =>
    simp only [ThreatMgr.setCurrentVictim, Option.some.injEq] at h2
    rw [← h2]
    exact ⟨rfl, rfl⟩
  | some ref =>
    simp only [ThreatMgr.setCurrentVictim] at h2
    split_ifs at h2
    · cases ho : m.iOwner with
      | none => simp [ho] at h2
      | some o =>
        simp only [ho, Option.some.injEq] at h2
        rw [← h2]
        exact ⟨rfl, rfl⟩
    · simp only [Option.some.injEq] at h2
      rw [← h2]
      exact ⟨rfl, rfl⟩

theorem update_perm (heap : Nat → HostileReference) (c : ThreatContainer) :
    (c.update heap).iThreatList.Perm c.iThreatList := by
  simp only [ThreatContainer.update]
  split_ifs
  · exact sortByThreat_perm heap c.iThreatList
  · exact List.Perm.refl _

theorem getHostilTarget_wf (w : World) (m m' : ThreatMgr) (target : Option ObjectGuid)
    (hwf : m.WellFormed)
    (h : ThreatMgr.getHostilTarget w m = some (target, m')) : m'.WellFormed := by
  obtain ⟨hheap, hcont⟩ := getHostilTarget_container w m m' target h
  obtain ⟨hnext, hoff⟩ := getHostilTarget_frame w m m' target h
  have hperm : m'.refs.Perm m.refs := by
    unfold ThreatMgr.refs
    rw [hcont, hoff]
    exact (update_perm m.heap m.iThreatContainer).append_right _
  refine ⟨?_, ?_, ?_, ?_⟩
  · intro r hr
    rw [hnext]
    exact hwf.allocated r (hperm.mem_iff.1 hr)
  · rw [hheap]
    exact (hperm.map _).nodup_iff.2 hwf.unique
  · intro r hr
    rw [hcont, update_mem] at hr
    rw [hheap]
    exact hwf.online r hr
  · intro r hr
    rw [hoff] at hr
    rw [hheap]
    exact hwf.offline r hr

theorem zeroThreat_nextRef (l : List Nat) :
    ∀ m : ThreatMgr, (m.zeroThreat l).nextRef = m.nextRef := by
  induction l with
  | nil => intro m; rfl
  | cons x rest ih =>
    intro m
    simp only [ThreatMgr.zeroThreat, List.foldl_cons]
    exact ih (m.modifyRef x (fun e => e.setThreat 0))

theorem resetAllAggro_wf (m : ThreatMgr) (hwf : m.WellFormed) : m.resetAllAggro.WellFormed := by
  simp only [ThreatMgr.resetAllAggro]
  split_ifs
  · exact hwf
  · obtain ⟨hcont, hoff, -, -, hheap⟩ := zeroThreat_spec m.iThreatContainer.iThreatList m
    refine wf_of_same_lists m _ hwf ?_ ?_ ?_ ?_ ?_
    · simp only [ThreatMgr.setDirty, hcont]
    · simp only [ThreatMgr.setDirty, hoff]
    · simp only [ThreatMgr.setDirty]
      exact le_of_eq (zeroThreat_nextRef _ m).symm
    · intro r _
      simp only [ThreatMgr.setDirty, hheap]
      split_ifs <;> rfl
    · intro r _
      simp only [ThreatMgr.setDirty, hheap]
      split_ifs <;> rfl

theorem reachableInUse_wf (owner : Option ObjectGuid) (m : ThreatMgr)
    (h : ReachableInUse owner m) : m.WellFormed := by
  induction h with
  | init => exact new_wf owner
  | addThreat w depth m m' victim threat schoolMask threatSpell _ hstep ih =>
    exact addThreat_wf w depth m m' victim threat schoolMask threatSpell ih hstep
  | modifyThreatPercent w depth m m' victim percent _ hstep ih =>
    exact modifyThreatPercent_wf w depth m m' victim percent ih hstep
  | getHostilTarget w m m' target _ hstep ih =>
    exact getHostilTarget_wf w m m' target ih hstep
  | setOnlineOfflineState w m m' ref isOnline _ hr hstep ih =>
    obtain ⟨m2, hm2, hwf2, _⟩ := setOnlineOfflineState_spec w m ref isOnline ih hr
    rw [hm2] at hstep
    cases Option.some.inj hstep
    exact hwf2
  | updateOnlineStatus w m m' ref _ hr hstep ih =>
    exact (updateOnlineStatus_spec w m m' ref ih hr hstep).1
  | removeReference w m m' ref _ hr hstep ih =>
    exact removeReference_wf w m m' ref ih hr hstep
  | clearReferences m _ _ => exact clearReferences_wf m
  | resetAllAggro m _ ih => exact resetAllAggro_wf m ih

theorem targeted_reachable : ReachableInUse (some 0) (Scenario.targeted 0 1 2) :=
  ReachableInUse.getHostilTarget World.secondImmune _ _ (some 1)
    (ReachableInUse.addThreat World.secondImmune 1 _ _ (some 2) 80 SPELL_SCHOOL_MASK_NORMAL none
      (ReachableInUse.addThreat World.secondImmune 1 _ _ (some 1) 50 SPELL_SCHOOL_MASK_NORMAL
        none ReachableInUse.init raised_steps.1)
      raised_steps.2.1)
    raised_steps.2.2.1

/-- C35: in every state reached from an empty manager through `addThreat`,
`modifyThreatPercent`, `getHostilTarget`, `setOnlineOfflineState`,
`updateOnlineStatus`, `removeReference`, `clearReferences` and `resetAllAggro`
calls that return, the current victim is empty or a reference of the online
list that is not in the offline list. -/
theorem victim_online (owner : Option ObjectGuid) (m : ThreatMgr)
    (h : ReachableInUse owner m) :
    m.iCurrentVictim = none ∨
      ∃ cv, m.iCurrentVictim = some cv ∧ cv ∈ m.iThreatContainer.iThreatList ∧
        cv ∉ m.iThreatOfflineContainer.iThreatList := by
  have hinv : m.VictimOnline := by
    induction h with
    | init => intro cv hc; simp [ThreatMgr.new] at hc
    | addThreat w depth m m' victim threat schoolMask threatSpell _ hstep ih =>
      exact addThreat_victim w depth m m' victim threat schoolMask threatSpell ih hstep
    | modifyThreatPercent w depth m m' victim percent _ hstep ih =>
      exact modifyThreatPercent_victim w depth m m' victim percent ih hstep
    | getHostilTarget w m m' target _ hstep ih =>
      exact getHostilTarget_victim w m m' target ih hstep
    | setOnlineOfflineState w m m' ref isOnline _ _ hstep ih =>
      exact setOnlineOfflineState_victim w m m' ref isOnline ih hstep
    | updateOnlineStatus w m m' ref _ _ hstep ih =>
      exact updateOnlineStatus_victim w m m' ref ih hstep
    | removeReference w m m' ref _ _ hstep ih =>
      exact removeReference_victim w m m' ref ih hstep
    | clearReferences m _ _ => intro cv hc; simp [ThreatMgr.clearReferences] at hc
    | resetAllAggro m _ ih => exact resetAllAggro_victim m ih
  have hwf := reachableInUse_wf owner m h
  cases hcv : m.iCurrentVictim with
  | none => exact Or.inl rfl
  | some cv =>
    refine Or.inr ⟨cv, rfl, hinv cv hcv, ?_⟩
    intro hoff
    have hflag := hwf.offline cv hoff
    rw [hwf.online cv (hinv cv hcv)] at hflag
    cases hflag

/-- Witness of C35: after the first target query of the scenario the current
victim, reference 0, is in the online list. -/
theorem victim_online_witness :
    (Scenario.targeted 0 1 2).iCurrentVictim = none ∨
      ∃ cv, (Scenario.targeted 0 1 2).iCurrentVictim = some cv ∧
        cv ∈ (Scenario.targeted 0 1 2).iThreatContainer.iThreatList ∧
        cv ∉ (Scenario.targeted 0 1 2).iThreatOfflineContainer.iThreatList :=
  victim_online (some 0) (Scenario.targeted 0 1 2) targeted_reachable

end ThreatModel
